import Mathlib

/-!
# glbind_build: registry model, reference resolver and C emitter

A shallow embedding of `source/glbind_build.cpp`.

Modelling conventions.

* `std::string` is a Lean `String`, read as the sequence of its characters
  (`String.data`); one Lean character stands for one C++ `char`.  Strings
  hold no NUL character, so `c_str()` followed by a comparison or a
  conversion back to `std::string` is the identity.
* `std::vector<T>` is `List T`; `push_back x` is `l ++ [x]`.
* `glbResult` is `Int`; the result constants keep their values.
* A function that mutates `context` and `codeOut` through references takes
  both and returns the result code together with the new `context` and the
  new `codeOut`; what was written before a failure stays written.
* A loop with an early `return` is a recursive function whose first
  component is `some r` when the loop body executed `return r` and `none`
  when the loop ran to its end.
* A lookup that stores a pointer and returns a code is an `Except`:
  `.ok t` for `GLB_SUCCESS` with `*pp = &t`, `.error r` for result `r` with
  `*pp = NULL`.
-/

set_option autoImplicit false

namespace Glbind

/-! ## Result codes -/

abbrev glbResult := Int

abbrev GLB_SUCCESS : glbResult := 0
/-- Not an error. Used to indicate that a type has already been output. -/
abbrev GLB_ALREADY_PROCESSED : glbResult := 1
abbrev GLB_ERROR : glbResult := -1
abbrev GLB_INVALID_ARGS : glbResult := -2
abbrev GLB_OUT_OF_MEMORY : glbResult := -3
abbrev GLB_FILE_TOO_BIG : glbResult := -4
abbrev GLB_FAILED_TO_OPEN_FILE : glbResult := -5
abbrev GLB_FAILED_TO_READ_FILE : glbResult := -6
abbrev GLB_FAILED_TO_WRITE_FILE : glbResult := -7

/-! ## String helpers -/

/-- The function `std::toupper` on one `char`, in the default "C" locale:
the letters a to z go to A to Z, every other character is unchanged. -/
def toupper (c : Char) : Char :=
  if 'a' ≤ c ∧ c ≤ 'z' then Char.ofNat (c.toNat - 32) else c

/-- The loop of `glbToUpper`: characters `source[i]`, `source[i+1]`, ... are
converted and appended to `upper`. -/
def glbToUpperLoop : List Char → String → String
  | [], upper => upper
  | c :: rest, upper => glbToUpperLoop rest (upper.push (toupper c))

def glbToUpper (source : String) : String :=
  glbToUpperLoop source.data ""

/-- The search of `std::string::find` over the characters that remain from
position `pos` on: the least position `i ≥ pos` at which `pattern` starts,
`none` for `npos`. -/
def stdFindAux (pattern : List Char) : List Char → Nat → Option Nat
  | [], pos => if pattern = [] then some pos else none
  | c :: rest, pos =>
    if pattern.isPrefixOf (c :: rest) then some pos else stdFindAux pattern rest (pos + 1)

/-- The call `source.find(pattern, pos)`. -/
def stdFind (source pattern : String) (pos : Nat) : Option Nat :=
  if pos ≤ source.data.length then stdFindAux pattern.data (source.data.drop pos) pos else none

def glbContains (source other : String) : Bool :=
  (stdFind source other 0).isSome

/-! ## Registry model -/

structure glbType where
  name : String
  valueC : String
  requires : String
  deriving DecidableEq, Repr

structure glbEnum where
  name : String
  value : String
  type : String
  deriving DecidableEq, Repr

structure glbGroup where
  name : String
  enums : List glbEnum
  deriving DecidableEq, Repr

structure glbEnums where
  name : String
  namespaceAttrib : String
  group : String
  vendor : String
  type : String
  start : String
  end_ : String
  enums : List glbEnum
  deriving DecidableEq, Repr

structure glbCommandParam where
  type : String
  typeC : String
  name : String
  group : String
  deriving DecidableEq, Repr

structure glbCommand where
  returnType : String
  returnTypeC : String
  name : String
  params : List glbCommandParam
  alias_ : String
  deriving DecidableEq, Repr

structure glbCommands where
  namespaceAttrib : String
  commands : List glbCommand
  deriving DecidableEq, Repr

structure glbRequire where
  types : List String
  enums : List String
  commands : List String
  deriving DecidableEq, Repr

structure glbFeature where
  api : String
  name : String
  number : String
  requires : List glbRequire
  deriving DecidableEq, Repr

structure glbExtension where
  name : String
  supported : String
  requires : List glbRequire
  deriving DecidableEq, Repr

structure glbBuild where
  types : List glbType
  groups : List glbGroup
  enums : List glbEnums
  commands : List glbCommands
  features : List glbFeature
  extensions : List glbExtension
  outputTypes : List String
  outputEnums : List String
  outputCommands : List String
  deriving DecidableEq, Repr

/-! ## Reference resolver -/

/-- The loop of `glbBuildHasTypeBeenOutput` over `context.outputTypes`. -/
def glbBuildHasTypeBeenOutputLoop : List String → String → Int
  | [], _ => 0
  | t :: rest, type => if t = type then 1 else glbBuildHasTypeBeenOutputLoop rest type

def glbBuildHasTypeBeenOutput (context : glbBuild) (type : String) : Int :=
  glbBuildHasTypeBeenOutputLoop context.outputTypes type

/-- The loop of `glbBuildFindType` over `context.types`. -/
def glbBuildFindTypeLoop : List glbType → String → Except glbResult glbType
  | [], _ => .error GLB_ERROR
  | t :: rest, typeName => if t.name = typeName then .ok t else glbBuildFindTypeLoop rest typeName

def glbBuildFindType (context : glbBuild) (typeName : String) : Except glbResult glbType :=
  glbBuildFindTypeLoop context.types typeName

/-- The inner loop of `glbBuildFindEnum` over the enums of one block: `some e`
when the loop returned with `e`. -/
def glbBuildFindEnumInner : List glbEnum → String → Option glbEnum
  | [], _ => none
  | e :: rest, enumName => if e.name = enumName then some e else glbBuildFindEnumInner rest enumName

/-- The outer loop of `glbBuildFindEnum` over `context.enums`. -/
def glbBuildFindEnumLoop : List glbEnums → String → Except glbResult glbEnum
  | [], _ => .error GLB_ERROR
  | enums :: rest, enumName =>
    match glbBuildFindEnumInner enums.enums enumName with
    | some e => .ok e
    | none => glbBuildFindEnumLoop rest enumName

def glbBuildFindEnum (context : glbBuild) (enumName : String) : Except glbResult glbEnum :=
  glbBuildFindEnumLoop context.enums enumName

/-- The inner loop of `glbBuildFindCommand` over the commands of one block. -/
def glbBuildFindCommandInner : List glbCommand → String → Option glbCommand
  | [], _ => none
  | c :: rest, commandName =>
    if c.name = commandName then some c else glbBuildFindCommandInner rest commandName

/-- The outer loop of `glbBuildFindCommand` over `context.commands`. -/
def glbBuildFindCommandLoop : List glbCommands → String → Except glbResult glbCommand
  | [], _ => .error GLB_ERROR
  | commands :: rest, commandName =>
    match glbBuildFindCommandInner commands.commands commandName with
    | some c => .ok c
    | none => glbBuildFindCommandLoop rest commandName

def glbBuildFindCommand (context : glbBuild) (commandName : String) :
    Except glbResult glbCommand :=
  glbBuildFindCommandLoop context.commands commandName

/-! ## Code emitter -/

def glbBuildGenerateCode_C_Main_Type (context : glbBuild) (typeName : String)
    (codeOut : String) : glbResult × glbBuild × String :=
  -- Special case for khrplatform: pretend it has already been output.
  if typeName = "khrplatform" then
    (GLB_ALREADY_PROCESSED, context, codeOut)
  -- We only output the type if it hasn't already been output.
  else if glbBuildHasTypeBeenOutput context typeName = 0 then
    match glbBuildFindType context typeName with
    | .error result => (result, context, codeOut)
    | .ok pType =>
      let codeOut := if pType.valueC ≠ "" then codeOut ++ (pType.valueC ++ "\n") else codeOut
      (GLB_SUCCESS, { context with outputTypes := context.outputTypes ++ [typeName] }, codeOut)
  else
    (GLB_SUCCESS, context, codeOut)

/-- First loop of `glbBuildGenerateCode_C_Main_RequireTypes` ("Standalone
types"), over `require.types`. -/
def RequireTypes_standalone :
    glbBuild → List String → String → Option glbResult × glbBuild × String
  | context, [], codeOut => (none, context, codeOut)
  | context, typeName :: rest, codeOut =>
    match glbBuildGenerateCode_C_Main_Type context typeName codeOut with
    | (result, context, codeOut) =>
      if result ≠ GLB_SUCCESS ∧ result ≠ GLB_ALREADY_PROCESSED then
        (some result, context, codeOut)
      else
        RequireTypes_standalone context rest codeOut

/-- Loop over `pCommand->params` inside the second loop of
`glbBuildGenerateCode_C_Main_RequireTypes`; the result of the call for a
parameter type is not looked at. -/
def RequireTypes_params : glbBuild → List glbCommandParam → String → glbBuild × String
  | context, [], codeOut => (context, codeOut)
  | context, param :: rest, codeOut =>
    if param.type ≠ "" then
      match glbBuildGenerateCode_C_Main_Type context param.type codeOut with
      | (_, context, codeOut) => RequireTypes_params context rest codeOut
    else
      RequireTypes_params context rest codeOut

/-- Second loop of `glbBuildGenerateCode_C_Main_RequireTypes` ("Required
types"), over `require.commands`. -/
def RequireTypes_commands :
    glbBuild → List String → String → Option glbResult × glbBuild × String
  | context, [], codeOut => (none, context, codeOut)
  | context, commandName :: rest, codeOut =>
    match glbBuildFindCommand context commandName with
    | .error result => (some result, context, codeOut)
    | .ok pCommand =>
      match (if pCommand.returnType ≠ "" then
              (glbBuildGenerateCode_C_Main_Type context pCommand.returnType codeOut).2
            else (context, codeOut)) with
      | (context, codeOut) =>
        match RequireTypes_params context pCommand.params codeOut with
        | (context, codeOut) => RequireTypes_commands context rest codeOut

def glbBuildGenerateCode_C_Main_RequireTypes (context : glbBuild) (require : glbRequire)
    (codeOut : String) : glbResult × glbBuild × String :=
  match RequireTypes_standalone context require.types codeOut with
  | (some result, context, codeOut) => (result, context, codeOut)
  | (none, context, codeOut) =>
    match RequireTypes_commands context require.commands codeOut with
    | (some result, context, codeOut) => (result, context, codeOut)
    | (none, context, codeOut) => (GLB_SUCCESS, context, codeOut)

/-- The loop of `glbBuildGenerateCode_C_Main_RequireEnums` over `require.enums`. -/
def RequireEnums_loop :
    glbBuild → List String → String → Option glbResult × glbBuild × String
  | context, [], codeOut => (none, context, codeOut)
  | context, enumName :: rest, codeOut =>
    match glbBuildFindEnum context enumName with
    | .error result => (some result, context, codeOut)
    | .ok pEnum =>
      RequireEnums_loop context rest
        (codeOut ++ ("#define " ++ pEnum.name ++ " " ++ pEnum.value ++ "\n"))

def glbBuildGenerateCode_C_Main_RequireEnums (context : glbBuild) (require : glbRequire)
    (codeOut : String) : glbResult × glbBuild × String :=
  match RequireEnums_loop context require.enums codeOut with
  | (some result, context, codeOut) => (result, context, codeOut)
  | (none, context, codeOut) => (GLB_SUCCESS, context, codeOut)

/-- The loop over `pCommand->params` of
`glbBuildGenerateCode_C_Main_RequireCommands`; `iParam` is the loop index. -/
def RequireCommands_params : List glbCommandParam → Nat → String → String
  | [], _, codeOut => codeOut
  | param :: rest, iParam, codeOut =>
    let codeOut := if iParam ≠ 0 then codeOut ++ ", " else codeOut
    RequireCommands_params rest (iParam + 1) (codeOut ++ (param.typeC ++ " " ++ param.name))

/-- The loop of `glbBuildGenerateCode_C_Main_RequireCommands` over
`require.commands`. -/
def RequireCommands_loop :
    glbBuild → List String → String → Option glbResult × glbBuild × String
  | context, [], codeOut => (none, context, codeOut)
  | context, commandName :: rest, codeOut =>
    match glbBuildFindCommand context commandName with
    | .error result => (some result, context, codeOut)
    | .ok pCommand =>
      let codeOut := codeOut ++
        ("typedef " ++ pCommand.returnTypeC ++ " (APIENTRYP PFN" ++ glbToUpper pCommand.name ++
          "PROC)(")
      let codeOut :=
        if pCommand.params.length > 0 then RequireCommands_params pCommand.params 0 codeOut
        else codeOut ++ "void"
      RequireCommands_loop context rest (codeOut ++ ");\n")

def glbBuildGenerateCode_C_Main_RequireCommands (context : glbBuild) (require : glbRequire)
    (codeOut : String) : glbResult × glbBuild × String :=
  match RequireCommands_loop context require.commands codeOut with
  | (some result, context, codeOut) => (result, context, codeOut)
  | (none, context, codeOut) => (GLB_SUCCESS, context, codeOut)

/-- One of the three loops over the Requires of a Feature or an Extension
("Types", "Enums", "Commands"): `step` is the per-Require function the loop
calls. -/
def requiresLoop (step : glbBuild → glbRequire → String → glbResult × glbBuild × String) :
    glbBuild → List glbRequire → String → Option glbResult × glbBuild × String
  | context, [], codeOut => (none, context, codeOut)
  | context, require :: rest, codeOut =>
    match step context require codeOut with
    | (result, context, codeOut) =>
      if result ≠ GLB_SUCCESS then (some result, context, codeOut)
      else requiresLoop step context rest codeOut

def glbBuildGenerateCode_C_Main_Feature (context : glbBuild) (feature : glbFeature)
    (codeOut : String) : glbResult × glbBuild × String :=
  let codeOut := codeOut ++ ("#ifndef " ++ feature.name ++ "\n")
  let codeOut := codeOut ++ ("#define " ++ feature.name ++ " 1\n")
  -- Types.
  match requiresLoop glbBuildGenerateCode_C_Main_RequireTypes context feature.requires
      codeOut with
  | (some result, context, codeOut) => (result, context, codeOut)
  | (none, context, codeOut) =>
    -- Enums.
    match requiresLoop glbBuildGenerateCode_C_Main_RequireEnums context feature.requires
        codeOut with
    | (some result, context, codeOut) => (result, context, codeOut)
    | (none, context, codeOut) =>
      -- Commands.
      match requiresLoop glbBuildGenerateCode_C_Main_RequireCommands context feature.requires
          codeOut with
      | (some result, context, codeOut) => (result, context, codeOut)
      | (none, context, codeOut) =>
        (GLB_SUCCESS, context, codeOut ++ ("#endif /* " ++ feature.name ++ " */\n"))

/-- The loop of `glbBuildGenerateCode_C_Main_FeaturesByAPI` over
`context.features`; `counter` is only used for knowing whether or not a new
line should be added.  The emitter never changes `context.features`, so the
loop walks the list it was given at the start. -/
def FeaturesByAPI_loop (api : String) :
    glbBuild → List glbFeature → Nat → String → Option glbResult × glbBuild × String
  | context, [], _, codeOut => (none, context, codeOut)
  | context, feature :: rest, counter, codeOut =>
    if feature.api = api then
      let codeOut := if counter > 0 then codeOut ++ "\n" else codeOut
      match glbBuildGenerateCode_C_Main_Feature context feature codeOut with
      | (result, context, codeOut) =>
        if result ≠ GLB_SUCCESS then (some result, context, codeOut)
        else FeaturesByAPI_loop api context rest (counter + 1) codeOut
    else
      FeaturesByAPI_loop api context rest counter codeOut

def glbBuildGenerateCode_C_Main_FeaturesByAPI (context : glbBuild) (api : String)
    (codeOut : String) : glbResult × glbBuild × String :=
  match FeaturesByAPI_loop api context context.features 0 codeOut with
  | (some result, context, codeOut) => (result, context, codeOut)
  | (none, context, codeOut) => (GLB_SUCCESS, context, codeOut)

def glbBuildGenerateCode_C_Main_Extension (context : glbBuild) (extension : glbExtension)
    (codeOut : String) : glbResult × glbBuild × String :=
  let codeOut := codeOut ++ ("#ifndef " ++ extension.name ++ "\n")
  let codeOut := codeOut ++ ("#define " ++ extension.name ++ " 1\n")
  -- Types.
  match requiresLoop glbBuildGenerateCode_C_Main_RequireTypes context extension.requires
      codeOut with
  | (some result, context, codeOut) => (result, context, codeOut)
  | (none, context, codeOut) =>
    -- Enums.
    match requiresLoop glbBuildGenerateCode_C_Main_RequireEnums context extension.requires
        codeOut with
    | (some result, context, codeOut) => (result, context, codeOut)
    | (none, context, codeOut) =>
      -- Commands.
      match requiresLoop glbBuildGenerateCode_C_Main_RequireCommands context
          extension.requires codeOut with
      | (some result, context, codeOut) => (result, context, codeOut)
      | (none, context, codeOut) =>
        (GLB_SUCCESS, context, codeOut ++ ("#endif /* " ++ extension.name ++ " */\n"))

/-- One of the three loops of `glbBuildGenerateCode_C_Main` over
`context.extensions`; `select` is the test of the loop's `if`. -/
def Main_extensions (select : glbExtension → Bool) :
    glbBuild → List glbExtension → Nat → String → Option glbResult × glbBuild × String
  | context, [], _, codeOut => (none, context, codeOut)
  | context, extension :: rest, counter, codeOut =>
    if select extension then
      let codeOut := if counter > 0 then codeOut ++ "\n" else codeOut
      match glbBuildGenerateCode_C_Main_Extension context extension codeOut with
      | (result, context, codeOut) =>
        if result ≠ GLB_SUCCESS then (some result, context, codeOut)
        else Main_extensions select context rest (counter + 1) codeOut
    else
      Main_extensions select context rest counter codeOut

/-- The test of the first extension loop: gl and glcore. -/
def Main_selectGL (extension : glbExtension) : Bool :=
  extension.supported = "gl" || glbContains extension.supported "gl|" ||
    glbContains extension.supported "glcore"

/-- The test of the second extension loop. -/
def Main_selectWGL (extension : glbExtension) : Bool :=
  glbContains extension.supported "wgl"

/-- The test of the third extension loop. -/
def Main_selectGLX (extension : glbExtension) : Bool :=
  glbContains extension.supported "glx"

def glbBuildGenerateCode_C_Main (context : glbBuild) (codeOut : String) :
    glbResult × glbBuild × String :=
  -- Feature order is the following: gl, wgl, glx.
  match glbBuildGenerateCode_C_Main_FeaturesByAPI context "gl" codeOut with
  | (result, context, codeOut) =>
  if result ≠ GLB_SUCCESS then (result, context, codeOut) else
  match glbBuildGenerateCode_C_Main_FeaturesByAPI context "wgl"
      (codeOut ++ "\n#if defined(GLBIND_WGL)\n") with
  | (result, context, codeOut) =>
  if result ≠ GLB_SUCCESS then (result, context, codeOut) else
  match glbBuildGenerateCode_C_Main_FeaturesByAPI context "glx"
      (codeOut ++ "#endif /* GLBIND_WGL */\n" ++ "\n#if defined(GLBIND_GLX)\n") with
  | (result, context, codeOut) =>
  if result ≠ GLB_SUCCESS then (result, context, codeOut) else
  -- Extensions: gl/glcore first, then wgl, then glx.
  match Main_extensions Main_selectGL context context.extensions 0
      (codeOut ++ "#endif /* GLBIND_GLX */\n") with
  | (some result, context, codeOut) => (result, context, codeOut)
  | (none, context, codeOut) =>
  -- WGL extensions.
  match Main_extensions Main_selectWGL context context.extensions 0
      (codeOut ++ "\n#if defined(GLBIND_WGL)\n") with
  | (some result, context, codeOut) => (result, context, codeOut)
  | (none, context, codeOut) =>
  -- GLX extensions.
  match Main_extensions Main_selectGLX context context.extensions 0
      (codeOut ++ "#endif /* GLBIND_WGL */\n" ++ "\n#if defined(GLBIND_GLX)\n") with
  | (some result, context, codeOut) => (result, context, codeOut)
  | (none, context, codeOut) =>
  (GLB_SUCCESS, context, codeOut ++ "#endif /* GLBIND_GLX */\n")

/-- The function `glbBuildGenerateCode_C`; `tag = none` is the NULL pointer. -/
def glbBuildGenerateCode_C (context : glbBuild) (tag : Option String) (codeOut : String) :
    glbResult × glbBuild × String :=
  match tag with
  | none => (GLB_INVALID_ARGS, context, codeOut)
  | some tag =>
    if tag = "/*<<opengl_main>>*/" then glbBuildGenerateCode_C_Main context codeOut
    else (GLB_INVALID_ARGS, context, codeOut)

/-! ## Output assembler -/

/-- The loop of `glbReplaceAll`.  `fuel` bounds the number of iterations and
`none` says that the bound was reached before the loop left through its
`break`. -/
def glbReplaceAllLoop (source fromStr toStr : String) : Nat → Nat → String → Option String
  | 0, _, _ => none
  | fuel + 1, lastPos, result =>
    match stdFind source fromStr lastPos with
    | none => some (result ++ String.mk (source.data.drop lastPos))
    | some findPos =>
      glbReplaceAllLoop source fromStr toStr fuel (findPos + fromStr.length)
        (result ++ String.mk ((source.data.drop lastPos).take (findPos - lastPos)) ++ toStr)

/-- The function `glbReplaceAll`, run for at most `source.length + 1`
iterations (each iteration but the last consumes an occurrence of
`fromStr`); `none` when the loop has not ended by then. -/
def glbReplaceAll (source fromStr toStr : String) : Option String :=
  glbReplaceAllLoop source fromStr toStr (source.length + 1) 0 ""

def GLB_BUILD_TEMPLATE_PATH : String := "../../source/glbind_template.h"

/-- The files the program meets: `readText path` is what
`glbOpenAndReadTextFile(path, ...)` returns (result code and file text), and
`writeText path text` the result code of
`glbOpenAndWriteTextFile(path, text)`. -/
structure glbFiles where
  readText : String → glbResult × String
  writeText : String → String → glbResult

/-- The loop of `glbBuildGenerateOutputFile` over `tags`; the outer `Option`
is `none` when `glbReplaceAll` does not return. -/
def OutputFile_tags :
    glbBuild → List String → String → Option (Option glbResult × glbBuild × String)
  | context, [], outputStr => some (none, context, outputStr)
  | context, tag :: rest, outputStr =>
    match glbBuildGenerateCode_C context (some tag) "" with
    | (result, context, generatedCode) =>
      if result ≠ GLB_SUCCESS then some (some result, context, outputStr)
      else
        match glbReplaceAll outputStr tag generatedCode with
        | none => none
        | some outputStr => OutputFile_tags context rest outputStr

/-- The function `glbBuildGenerateOutputFile`.  The third component lists the
calls of `glbOpenAndWriteTextFile` it made, as (path, text); the result code of
that call is not looked at. -/
def glbBuildGenerateOutputFile (files : glbFiles) (context : glbBuild)
    (outputFilePath : String) : Option (glbResult × glbBuild × List (String × String)) :=
  match files.readText GLB_BUILD_TEMPLATE_PATH with
  | (result, pTemplateFileData) =>
    if result ≠ GLB_SUCCESS then some (result, context, [])
    else
      match OutputFile_tags context ["/*<<opengl_main>>*/"] pTemplateFileData with
      | none => none
      | some (some result, context, _) => some (result, context, [])
      | some (none, context, outputStr) =>
        let _ := files.writeText outputFilePath outputStr
        some (GLB_SUCCESS, context, [(outputFilePath, outputStr)])

/-! ## The end-to-end scenario of the specification -/

def scenarioFeature : glbFeature :=
  { api := "gl", name := "GL_VERSION_1_0", number := "",
    requires := [{ types := ["GLint"], enums := ["GL_TRUE"], commands := ["glClear"] }] }

def scenarioCtx : glbBuild :=
  { types := [{ name := "GLint", valueC := "typedef int GLint;", requires := "" }],
    groups := [],
    enums := [{ name := "", namespaceAttrib := "", group := "", vendor := "", type := "",
                start := "", end_ := "",
                enums := [{ name := "GL_TRUE", value := "1", type := "" }] }],
    commands := [{ namespaceAttrib := "",
                   commands := [{ returnType := "", returnTypeC := "void", name := "glClear",
                                  params := [{ type := "GLbitfield", typeC := "GLbitfield",
                                               name := "mask", group := "" }],
                                  alias_ := "" }] }],
    features := [scenarioFeature],
    extensions := [], outputTypes := [], outputEnums := [], outputCommands := [] }

/-! ## Vocabulary of the statements -/

/-- The registry `context` with `ledger` as its `outputTypes`; nothing else
differs. -/
def setLedger (context : glbBuild) (ledger : List String) : glbBuild :=
  { context with outputTypes := ledger }

/-- Concatenation of a list of texts, in order. -/
def concatAll : List String → String
  | [] => ""
  | s :: rest => s ++ concatAll rest

/-- The line written for the type name `typeName` when it is emitted: the
`valueC` of the Type it resolves to and a line break, nothing when `valueC`
is empty (or when the name does not resolve). -/
def typeLine (context : glbBuild) (typeName : String) : String :=
  match glbBuildFindType context typeName with
  | .ok pType => if pType.valueC ≠ "" then pType.valueC ++ "\n" else ""
  | .error _ => ""

/-- The lines of the type names `names`, in order. -/
def typesText (context : glbBuild) (names : List String) : String :=
  concatAll (names.map (typeLine context))

/-- Whether the type name resolves: `glbBuildFindType` returns `GLB_SUCCESS`. -/
def resolvesType (context : glbBuild) (typeName : String) : Bool :=
  match glbBuildFindType context typeName with
  | .ok _ => true
  | .error _ => false

/-- Whether the command name resolves: `glbBuildFindCommand` returns
`GLB_SUCCESS`. -/
def resolvesCommand (context : glbBuild) (commandName : String) : Bool :=
  match glbBuildFindCommand context commandName with
  | .ok _ => true
  | .error _ => false

/-- Whether the enum name resolves: `glbBuildFindEnum` returns `GLB_SUCCESS`. -/
def resolvesEnum (context : glbBuild) (enumName : String) : Bool :=
  match glbBuildFindEnum context enumName with
  | .ok _ => true
  | .error _ => false

/-- The names that enter the ledger when the type names `names` are handed,
in order, to the emit-once step starting from the ledger `ledger`: a name
is recorded at its first occurrence, unless it is "khrplatform", already in
the ledger, or names no Type. -/
def newNames (context : glbBuild) : List String → List String → List String
  | _, [] => []
  | ledger, n :: rest =>
    if n = "khrplatform" ∨ n ∈ ledger ∨ resolvesType context n = false then
      newNames context ledger rest
    else n :: newNames context (ledger ++ [n]) rest

/-- The semantic type names of the parameters, the empty ones left out. -/
def paramTypeNames (params : List glbCommandParam) : List String :=
  (params.filter (fun p => p.type ≠ "")).map (fun p => p.type)

/-- The semantic type names a command refers to: its return type, then its
parameter types, the empty ones left out. -/
def commandTypeNames (command : glbCommand) : List String :=
  (if command.returnType ≠ "" then [command.returnType] else []) ++
    paramTypeNames command.params

/-- The semantic type names of the command called `commandName`, none when
the name does not resolve. -/
def commandTypeNamesOf (context : glbBuild) (commandName : String) : List String :=
  match glbBuildFindCommand context commandName with
  | .ok pCommand => commandTypeNames pCommand
  | .error _ => []

/-- Every type name a Require refers to, in the order of the types pass: the
names of its types list, then the semantic type names of its commands. -/
def requireTypeNames (context : glbBuild) (require : glbRequire) : List String :=
  require.types ++ require.commands.flatMap (commandTypeNamesOf context)

/-- A name of a types list passes when it is "khrplatform", is in the ledger
or names a Type. -/
def passesType (context : glbBuild) (ledger : List String) (typeName : String) : Prop :=
  typeName = "khrplatform" ∨ typeName ∈ ledger ∨ resolvesType context typeName = true

/-- The references of a Require that the types pass must resolve: every name
of its types list passes and every command name resolves. -/
def requireTypesOK (context : glbBuild) (ledger : List String) (require : glbRequire) : Prop :=
  (∀ n ∈ require.types, passesType context ledger n) ∧
    ∀ n ∈ require.commands, resolvesCommand context n = true

/-- The line of the enums pass for the enum name `enumName`: the `#define`
of the enum it resolves to (nothing when the name does not resolve). -/
def enumLine (context : glbBuild) (enumName : String) : String :=
  match glbBuildFindEnum context enumName with
  | .ok pEnum => "#define " ++ pEnum.name ++ " " ++ pEnum.value ++ "\n"
  | .error _ => ""

/-- The lines of the enum names `names`, in order. -/
def enumsText (context : glbBuild) (names : List String) : String :=
  concatAll (names.map (enumLine context))

/-- ASCII case fold of a text: every character through `Char.toUpper`, which
sends a to z to A to Z and leaves any other character as it is. -/
def specUpper (s : String) : String :=
  String.mk (s.data.map Char.toUpper)

/-- The parameter list of a function-pointer typedef as the specification
words it: the token `void` for no parameter, otherwise the parameters'
"type name" pairs joined by a comma and a blank. -/
def specParamList (params : List glbCommandParam) : String :=
  if params = [] then "void"
  else ", ".intercalate (params.map (fun p => p.typeC ++ " " ++ p.name))

/-- The function-pointer typedef line of a command as the specification
words it. -/
def specCommandLine (command : glbCommand) : String :=
  "typedef " ++ command.returnTypeC ++ " (APIENTRYP PFN" ++ specUpper command.name ++
    "PROC)(" ++ specParamList command.params ++ ");\n"

/-- The line of the commands pass for the command name `commandName`
(nothing when the name does not resolve). -/
def commandLine (context : glbBuild) (commandName : String) : String :=
  match glbBuildFindCommand context commandName with
  | .ok pCommand => specCommandLine pCommand
  | .error _ => ""

/-- The lines of the command names `names`, in order. -/
def commandsText (context : glbBuild) (names : List String) : String :=
  concatAll (names.map (commandLine context))

/-- The body shared by `glbBuildGenerateCode_C_Main_Feature` and
`glbBuildGenerateCode_C_Main_Extension`, which differ only in the structure
they read `name` and `requires` from. -/
def emitBlock (context : glbBuild) (name : String) (requires : List glbRequire)
    (codeOut : String) : glbResult × glbBuild × String :=
  let codeOut := codeOut ++ ("#ifndef " ++ name ++ "\n")
  let codeOut := codeOut ++ ("#define " ++ name ++ " 1\n")
  match requiresLoop glbBuildGenerateCode_C_Main_RequireTypes context requires codeOut with
  | (some result, context, codeOut) => (result, context, codeOut)
  | (none, context, codeOut) =>
    match requiresLoop glbBuildGenerateCode_C_Main_RequireEnums context requires codeOut with
    | (some result, context, codeOut) => (result, context, codeOut)
    | (none, context, codeOut) =>
      match requiresLoop glbBuildGenerateCode_C_Main_RequireCommands context requires
          codeOut with
      | (some result, context, codeOut) => (result, context, codeOut)
      | (none, context, codeOut) =>
        (GLB_SUCCESS, context, codeOut ++ ("#endif /* " ++ name ++ " */\n"))

/-- Every type name the Requires of a Feature or Extension refer to, in the
order of the types pass. -/
def blockTypeNames (context : glbBuild) (requires : List glbRequire) : List String :=
  requires.flatMap (requireTypeNames context)

/-- All references of the Requires resolve: for each Require, the names of
its types list pass, its command names resolve and its enum names resolve. -/
def blockOK (context : glbBuild) (ledger : List String) (requires : List glbRequire) : Prop :=
  ∀ req ∈ requires, requireTypesOK context ledger req ∧
    ∀ n ∈ req.enums, resolvesEnum context n = true

/-- The text of a Feature or Extension that is emitted in full, starting
from the ledger `ledger`: guard lines around the type lines of the newly
recorded names, the enum lines and the command lines. -/
def blockText (context : glbBuild) (ledger : List String) (name : String)
    (requires : List glbRequire) : String :=
  "#ifndef " ++ name ++ "\n" ++ ("#define " ++ name ++ " 1\n") ++
    typesText context (newNames context ledger (blockTypeNames context requires)) ++
    enumsText context (requires.flatMap (fun r => r.enums)) ++
    commandsText context (requires.flatMap (fun r => r.commands)) ++
    ("#endif /* " ++ name ++ " */\n")

/-- The Features with the given api, in Registry order, each as its name and
Requires. -/
def featureUnits (context : glbBuild) (api : String) : List (String × List glbRequire) :=
  (context.features.filter (fun f => f.api = api)).map (fun f => (f.name, f.requires))

/-- The Extensions that pass `select`, in Registry order, each as its name and
Requires. -/
def extensionUnits (context : glbBuild) (select : glbExtension → Bool) :
    List (String × List glbRequire) :=
  (context.extensions.filter select).map (fun e => (e.name, e.requires))

/-- The six groups `glbBuildGenerateCode_C_Main` walks, in its order, each
with the text written before and after the group. -/
def mainStages (context : glbBuild) : List (String × List (String × List glbRequire) × String) :=
  [("", featureUnits context "gl", ""),
   ("\n#if defined(GLBIND_WGL)\n", featureUnits context "wgl", "#endif /* GLBIND_WGL */\n"),
   ("\n#if defined(GLBIND_GLX)\n", featureUnits context "glx", "#endif /* GLBIND_GLX */\n"),
   ("", extensionUnits context Main_selectGL, ""),
   ("\n#if defined(GLBIND_WGL)\n", extensionUnits context Main_selectWGL,
     "#endif /* GLBIND_WGL */\n"),
   ("\n#if defined(GLBIND_GLX)\n", extensionUnits context Main_selectGLX,
     "#endif /* GLBIND_GLX */\n")]

/-- The Features and Extensions `glbBuildGenerateCode_C_Main` emits, in
traversal order (an Extension that passes several tests occurs once per
group). -/
def traversal (context : glbBuild) : List (String × List glbRequire) :=
  (mainStages context).flatMap (fun s => s.2.1)

/-- Every type name the given Features/Extensions refer to, in the order of
emission. -/
def unitsTypeNames (context : glbBuild) (units : List (String × List glbRequire)) :
    List String :=
  units.flatMap (fun u => blockTypeNames context u.2)

/-- All references of all the given Features/Extensions resolve. -/
def unitsOK (context : glbBuild) (ledger : List String)
    (units : List (String × List glbRequire)) : Prop :=
  ∀ u ∈ units, blockOK context ledger u.2

/-- A loop that emits the given Features/Extensions one after the other, a
line break before each but the first (`counter` counts the ones emitted so
far): the common shape of `FeaturesByAPI_loop` and `Main_extensions` once the
entries the loop's test skips are left out. -/
def unitsLoop : glbBuild → List (String × List glbRequire) → Nat → String →
    Option glbResult × glbBuild × String
  | context, [], _, codeOut => (none, context, codeOut)
  | context, u :: rest, counter, codeOut =>
    match emitBlock context u.1 u.2 (if counter > 0 then codeOut ++ "\n" else codeOut) with
    | (result, context, codeOut) =>
      if result ≠ GLB_SUCCESS then (some result, context, codeOut)
      else unitsLoop context rest (counter + 1) codeOut

/-- The text of a group emitted in full from the ledger `ledger`: the blocks
of its Features/Extensions, a line break before each but the first. -/
def unitsText (context : glbBuild) : Nat → List String → List (String × List glbRequire) → String
  | _, _, [] => ""
  | counter, ledger, u :: rest =>
    (if counter > 0 then "\n" else "") ++ blockText context ledger u.1 u.2 ++
      unitsText context (counter + 1)
        (ledger ++ newNames context ledger (blockTypeNames context u.2)) rest

/-- The groups of `stages` emitted one after the other, each between its two
texts; the first failure ends the run. -/
def stagesLoop : glbBuild → List (String × List (String × List glbRequire) × String) →
    String → glbResult × glbBuild × String
  | context, [], codeOut => (GLB_SUCCESS, context, codeOut)
  | context, s :: rest, codeOut =>
    match unitsLoop context s.2.1 0 (codeOut ++ s.1) with
    | (some result, context, codeOut) => (result, context, codeOut)
    | (none, context, codeOut) => stagesLoop context rest (codeOut ++ s.2.2)

/-- The text of the groups of `stages` emitted in full from the ledger
`ledger`. -/
def stagesText (context : glbBuild) :
    List String → List (String × List (String × List glbRequire) × String) → String
  | _, [] => ""
  | ledger, s :: rest =>
    s.1 ++ unitsText context 0 ledger s.2.1 ++ s.2.2 ++
      stagesText context (ledger ++ newNames context ledger (unitsTypeNames context s.2.1)) rest

/-! ## Concrete registries used as witnesses and counterexamples -/

/-- An empty registry. -/
def emptyCtx : glbBuild :=
  { types := [], groups := [], enums := [], commands := [], features := [], extensions := [],
    outputTypes := [], outputEnums := [], outputCommands := [] }

/-- The Require of the end-to-end scenario. -/
def scenarioRequire : glbRequire :=
  { types := ["GLint"], enums := ["GL_TRUE"], commands := ["glClear"] }

/-- A registry with the three enums A, B and C. -/
def enumsCtx : glbBuild :=
  { emptyCtx with
    enums := [{ name := "", namespaceAttrib := "", group := "", vendor := "", type := "",
                start := "", end_ := "",
                enums := [{ name := "A", value := "1", type := "" },
                          { name := "B", value := "", type := "" }] },
              { name := "", namespaceAttrib := "", group := "", vendor := "", type := "",
                start := "", end_ := "",
                enums := [{ name := "C", value := "0x3", type := "" }] }] }

/-- Requires `[R1, R2]` naming the enums `[A, B]` and `[C]`. -/
def enumsRequires : List glbRequire :=
  [{ types := [], enums := ["A", "B"], commands := [] },
   { types := [], enums := ["C"], commands := [] }]

/-- A registry with a command of two parameters and a command of none. -/
def commandsCtx : glbBuild :=
  { emptyCtx with
    commands := [{ namespaceAttrib := "",
                   commands := [{ returnType := "", returnTypeC := "void", name := "glFoo2i",
                                  params := [{ type := "GLint", typeC := "GLint", name := "x",
                                               group := "" },
                                             { type := "GLuint", typeC := "GLuint", name := "y",
                                               group := "" }],
                                  alias_ := "" },
                                { returnType := "GLenum", returnTypeC := "GLenum",
                                  name := "glGetError", params := [], alias_ := "" }] }] }

/-- A Require naming both commands of `commandsCtx`. -/
def commandsRequire : glbRequire :=
  { types := [], enums := [], commands := ["glFoo2i", "glGetError"] }

/-- A Require whose types list names a type the scenario registry lacks. -/
def missingTypeRequire : glbRequire :=
  { types := ["GLint", "GLmissing"], enums := [], commands := [] }

instance passesType_decidable (context : glbBuild) (ledger : List String) (typeName : String) :
    Decidable (passesType context ledger typeName) := by
  unfold passesType; infer_instance

instance requireTypesOK_decidable (context : glbBuild) (ledger : List String)
    (require : glbRequire) : Decidable (requireTypesOK context ledger require) := by
  unfold requireTypesOK; infer_instance

instance blockOK_decidable (context : glbBuild) (ledger : List String)
    (requires : List glbRequire) : Decidable (blockOK context ledger requires) := by
  unfold blockOK; infer_instance

instance unitsOK_decidable (context : glbBuild) (ledger : List String)
    (units : List (String × List glbRequire)) : Decidable (unitsOK context ledger units) := by
  unfold unitsOK; infer_instance

/-- A registry whose Feature requires a command that no CommandsBlock holds. -/
def missingCommandCtx : glbBuild :=
  { scenarioCtx with
    features := [{ api := "gl", name := "GL_VERSION_1_0", number := "",
                   requires := [{ types := ["GLint"], enums := ["GL_TRUE"],
                                  commands := ["glClear", "glMissing"] }] }] }

/-- The Require without the references to "khrplatform" in its types list. -/
def dropKhrTypes (require : glbRequire) : glbRequire :=
  { require with types := require.types.filter (fun n => n ≠ "khrplatform") }

/-- The parameter with a semantic type "khrplatform" replaced by no semantic
type. -/
def scrubParam (param : glbCommandParam) : glbCommandParam :=
  { param with type := if param.type = "khrplatform" then "" else param.type }

/-- The command with every semantic type "khrplatform" (return value or
parameter) replaced by no semantic type. -/
def scrubCommand (command : glbCommand) : glbCommand :=
  { command with
    returnType := if command.returnType = "khrplatform" then "" else command.returnType,
    params := command.params.map scrubParam }

/-- The registry in which no command refers to "khrplatform" as a semantic
type; types, enums, features, extensions and the ledger are untouched. -/
def scrubKhr (context : glbBuild) : glbBuild :=
  { context with
    commands := context.commands.map
      (fun b => { b with commands := b.commands.map scrubCommand }) }

/-- The Feature F1 of `khrCtx`: its types list names "khrplatform" and GLint. -/
def khrFeature1 : glbFeature :=
  { api := "gl", name := "F1", number := "",
    requires := [{ types := ["khrplatform", "GLint"], enums := [], commands := [] }] }

/-- A registry that declares a Type named "khrplatform" and the Type GLint.
Its Features F1 and F2 both list the two names in their types; the Feature
F0, emitted before them, lists no type and requires the command glK, which
has "khrplatform" as return type and first parameter type and GLint as second
parameter type. -/
def khrCtx : glbBuild :=
  { emptyCtx with
    types := [{ name := "khrplatform", valueC := "#include <KHR/khrplatform.h>",
                requires := "" },
              { name := "GLint", valueC := "typedef int GLint;", requires := "" }],
    commands := [{ namespaceAttrib := "",
                   commands := [{ returnType := "khrplatform", returnTypeC := "khronos_int32_t",
                                  name := "glK",
                                  params := [{ type := "khrplatform", typeC := "khronos_int8_t",
                                               name := "a", group := "" },
                                             { type := "GLint", typeC := "GLint",
                                               name := "b", group := "" }],
                                  alias_ := "" }] }],
    features := [{ api := "gl", name := "F0", number := "",
                   requires := [{ types := [], enums := [], commands := ["glK"] }] },
                 khrFeature1,
                 { api := "gl", name := "F2", number := "",
                   requires := [{ types := ["khrplatform", "GLint"], enums := [],
                                  commands := [] }] }] }

/-- The Feature B of `earlyCtx`: its types list names GLsizei and
"khrplatform". -/
def earlyFeatureB : glbFeature :=
  { api := "gl", name := "B", number := "",
    requires := [{ types := ["GLsizei", "khrplatform"], enums := [], commands := [] }] }

/-- A registry in which the Types GLsizei and "khrplatform" are listed in the
types of exactly one Feature, B, while the Feature A emitted before B requires
a command with a parameter of the semantic type GLsizei. -/
def earlyCtx : glbBuild :=
  { emptyCtx with
    types := [{ name := "GLsizei", valueC := "typedef int GLsizei;", requires := "" },
              { name := "khrplatform", valueC := "#include <KHR/khrplatform.h>",
                requires := "" }],
    commands := [{ namespaceAttrib := "",
                   commands := [{ returnType := "", returnTypeC := "void", name := "glResize",
                                  params := [{ type := "GLsizei", typeC := "GLsizei",
                                               name := "n", group := "" }],
                                  alias_ := "" }] }],
    features := [{ api := "gl", name := "A", number := "",
                   requires := [{ types := [], enums := [], commands := ["glResize"] }] },
                 earlyFeatureB] }

/-! ## Whitespace trimming -/

/-- The function `std::isspace` on one `char`, in the default "C" locale:
space, `\t`, `\n`, `\v`, `\f` and `\r`. -/
def isspace (c : Char) : Bool :=
  c = ' ' || c = '\t' || c = '\n' || c = '\x0b' || c = '\x0c' || c = '\r'

/-- `glbLTrim`: erase from the beginning up to the first character that is not
a space. -/
def glbLTrim (s : String) : String :=
  String.mk (s.data.dropWhile isspace)

/-- `glbRTrim`: erase from behind the last character that is not a space up to
the end. -/
def glbRTrim (s : String) : String :=
  String.mk (s.data.reverse.dropWhile isspace).reverse

def glbTrim (s : String) : String :=
  glbLTrim (glbRTrim s)

/-! ## Document tree -/

/-- A node of a parsed document (`tinyxml2::XMLNode`).  The loader tells two
kinds of node apart: an element (`ToElement()` is not NULL), with its tag name,
attributes and child nodes; and any other node (text, and also comment,
declaration, unknown), which has a value and no children. -/
inductive XMLNode where
  | element (name : String) (attributes : List (String × String)) (children : List XMLNode)
  | text (value : String)

namespace XMLNode

/-- Whether `ToElement()` returns a non-NULL pointer. -/
def ToElement : XMLNode → Bool
  | element _ _ _ => true
  | text _ => false

/-- `Value()`: the tag name of an element, the text of any other node. -/
def Value : XMLNode → String
  | element name _ _ => name
  | text value => value

/-- `Name()` of an element: the same as `Value()`. -/
def Name (n : XMLNode) : String := n.Value

/-- The child nodes, from `FirstChild()` on along `NextSibling()`. -/
def childNodes : XMLNode → List XMLNode
  | element _ _ children => children
  | text _ => []

/-- `FirstChild()`: `none` is the NULL pointer. -/
def FirstChild (n : XMLNode) : Option XMLNode := n.childNodes.head?

/-- `Attribute(name)`: the value of the first attribute of that name, `none`
for the NULL pointer. -/
def Attribute : XMLNode → String → Option String
  | element _ attributes _, name => (attributes.find? (fun a => a.1 = name)).map (fun a => a.2)
  | text _, _ => none

end XMLNode

/-- A parsed document (`tinyxml2::XMLDocument`): its top-level nodes. -/
structure XMLDocument where
  children : List XMLNode

/-- `RootElement()`: the first top-level element, `none` for NULL. -/
def XMLDocument.RootElement (doc : XMLDocument) : Option XMLNode :=
  doc.children.find? (fun n => n.ToElement)

/-- The expression `(p != NULL) ? p : ""` of the loader. -/
def orEmpty (p : Option String) : String :=
  match p with
  | some v => v
  | none => ""

/-! ## Registry loader

A loader function returns `none` when it runs into undefined behaviour: the
value of a missing first child is taken (`FirstChild()->Value()` with
`FirstChild()` NULL), or a `std::string` is built from a NULL pointer. -/

/-- The inner loop of `glbBuildParseTypes` over the inner nodes of one child. -/
def ParseTypes_inner : List XMLNode → glbType → Option glbType
  | [], type => some type
  | pInnerChild :: rest, type =>
    if pInnerChild.ToElement then
      match (if pInnerChild.Name = "name" then
              match pInnerChild.FirstChild with
              | none => none
              | some first =>
                some { type with name := first.Value, valueC := type.valueC ++ first.Value }
            else some type) with
      | none => none
      | some type =>
        ParseTypes_inner rest
          (if pInnerChild.Name = "apientry" then
            { type with valueC := type.valueC ++ "APIENTRY" }
          else type)
    else
      ParseTypes_inner rest { type with valueC := type.valueC ++ pInnerChild.Value }

/-- The outer loop of `glbBuildParseTypes` over the children of the section. -/
def ParseTypes_loop : glbBuild → List XMLNode → Option glbBuild
  | context, [] => some context
  | context, pChild :: rest =>
    if ¬ pChild.ToElement then ParseTypes_loop context rest
    -- Ignore <comment> tags.
    else if pChild.Name = "comment" then ParseTypes_loop context rest
    else
      match ParseTypes_inner pChild.childNodes
          { name := orEmpty (pChild.Attribute "name"), valueC := "",
            requires := orEmpty (pChild.Attribute "requires") } with
      | none => none
      | some type => ParseTypes_loop { context with types := context.types ++ [type] } rest

def glbBuildParseTypes (context : glbBuild) (pXMLElement : XMLNode) :
    Option (glbResult × glbBuild) :=
  match ParseTypes_loop context pXMLElement.childNodes with
  | none => none
  | some context => some (GLB_SUCCESS, context)

def glbBuildParseEnum (_context : glbBuild) (pXMLElement : XMLNode) : glbResult × glbEnum :=
  (GLB_SUCCESS,
    { name := orEmpty (pXMLElement.Attribute "name"),
      value := orEmpty (pXMLElement.Attribute "value"),
      type := orEmpty (pXMLElement.Attribute "type") })

/-- The loop over the children of an `enums` or `group` element that collects
the parsed `enum` children (the same loop in `glbBuildParseEnums` and
`glbBuildParseGroup`). -/
def ParseEnums_loop (context : glbBuild) : List XMLNode → List glbEnum → List glbEnum
  | [], enums => enums
  | pChild :: rest, enums =>
    if ¬ pChild.ToElement then ParseEnums_loop context rest enums
    else if pChild.Name = "enum" then
      match glbBuildParseEnum context pChild with
      | (result, theEnum) =>
        if result = GLB_SUCCESS then ParseEnums_loop context rest (enums ++ [theEnum])
        else ParseEnums_loop context rest enums
    else ParseEnums_loop context rest enums

def glbBuildParseEnums (context : glbBuild) (pXMLElement : XMLNode) : glbResult × glbBuild :=
  let enums : glbEnums :=
    { name := orEmpty (pXMLElement.Attribute "name"),
      namespaceAttrib := orEmpty (pXMLElement.Attribute "namespace"),
      group := orEmpty (pXMLElement.Attribute "group"),
      vendor := orEmpty (pXMLElement.Attribute "vendor"),
      type := orEmpty (pXMLElement.Attribute "type"),
      start := orEmpty (pXMLElement.Attribute "start"),
      end_ := orEmpty (pXMLElement.Attribute "end"),
      enums := ParseEnums_loop context pXMLElement.childNodes [] }
  (GLB_SUCCESS, { context with enums := context.enums ++ [enums] })

def glbBuildParseGroup (context : glbBuild) (pXMLElement : XMLNode) : glbResult × glbGroup :=
  (GLB_SUCCESS,
    { name := orEmpty (pXMLElement.Attribute "name"),
      enums := ParseEnums_loop context pXMLElement.childNodes [] })

/-- The loop of `glbBuildParseGroups` over the children of the section. -/
def ParseGroups_loop : glbBuild → List XMLNode → glbBuild
  | context, [] => context
  | context, pChild :: rest =>
    if ¬ pChild.ToElement then ParseGroups_loop context rest
    else if pChild.Name = "group" then
      match glbBuildParseGroup context pChild with
      | (result, group) =>
        if result = GLB_SUCCESS then
          ParseGroups_loop { context with groups := context.groups ++ [group] } rest
        else ParseGroups_loop context rest
    else ParseGroups_loop context rest

def glbBuildParseGroups (context : glbBuild) (pXMLElement : XMLNode) : glbResult × glbBuild :=
  (GLB_SUCCESS, ParseGroups_loop context pXMLElement.childNodes)

/-- The loop of `glbBuildParseTypeNamePair` over the children of the
declaration element; it carries `type`, `typeC` and `name` and stops at the
first `name` element (`break`). -/
def ParseTypeNamePair_loop :
    List XMLNode → String → String → String → Option (String × String × String)
  | [], type, typeC, name => some (type, typeC, name)
  | pChild :: rest, type, typeC, name =>
    if pChild.ToElement then
      if pChild.Name = "name" then
        match pChild.FirstChild with
        | none => none
        | some first => some (type, typeC, first.Value)
      else
        match pChild.FirstChild with
        | none => none
        | some first =>
          ParseTypeNamePair_loop rest
            (if pChild.Name = "type" ∨ pChild.Name = "ptype" then first.Value else type)
            (typeC ++ first.Value) name
    else
      ParseTypeNamePair_loop rest type (typeC ++ pChild.Value) name

/-- The function `glbBuildParseTypeNamePair`: the result code with `type`,
`typeC` and `name`. -/
def glbBuildParseTypeNamePair (pXMLElement : XMLNode) :
    Option (glbResult × String × String × String) :=
  match ParseTypeNamePair_loop pXMLElement.childNodes "" "" "" with
  | none => none
  | some (type, typeC, name) => some (GLB_SUCCESS, type, glbTrim typeC, name)

/-- The function `glbBuildParseCommandParam`; `param` is the parameter it
fills in (its `group` is left as it is). -/
def glbBuildParseCommandParam (_context : glbBuild) (pXMLElement : XMLNode)
    (param : glbCommandParam) : Option (glbResult × glbCommandParam) :=
  match glbBuildParseTypeNamePair pXMLElement with
  | none => none
  | some (result, type, typeC, name) =>
    some (result, { param with type := type, typeC := typeC, name := name })

/-- The loop of `glbBuildParseCommand` over the children of a `command`
element: `some r` in the first component when the loop returned `r`. -/
def ParseCommand_loop (context : glbBuild) :
    List XMLNode → glbCommand → Option (Option glbResult × glbCommand)
  | [], command => some (none, command)
  | pChild :: rest, command =>
    if ¬ pChild.ToElement then ParseCommand_loop context rest command
    else
      match (if pChild.Name = "proto" then
              match glbBuildParseTypeNamePair pChild with
              | none => none
              | some (_, type, typeC, name) =>
                some { command with returnType := type, returnTypeC := typeC, name := name }
            else some command) with
      | none => none
      | some command =>
        match (if pChild.Name = "param" then
                match glbBuildParseCommandParam context pChild
                    { type := "", typeC := "", name := "", group := "" } with
                | none => none
                | some (result, param) =>
                  if result ≠ GLB_SUCCESS then some (some result, command)
                  else some (none, { command with params := command.params ++ [param] })
              else some (none, command)) with
        | none => none
        | some (some result, command) => some (some result, command)
        | some (none, command) =>
          ParseCommand_loop context rest
            (if pChild.Name = "alias" then
              { command with alias_ := orEmpty (pChild.Attribute "name") }
            else command)

def glbBuildParseCommand (context : glbBuild) (pXMLElement : XMLNode) (command : glbCommand) :
    Option (glbResult × glbCommand) :=
  match ParseCommand_loop context pXMLElement.childNodes command with
  | none => none
  | some (some result, command) => some (result, command)
  | some (none, command) => some (GLB_SUCCESS, command)

/-- The loop of `glbBuildParseCommands` over the children of the section. -/
def ParseCommands_loop (context : glbBuild) :
    List XMLNode → List glbCommand → Option (List glbCommand)
  | [], commands => some commands
  | pChild :: rest, commands =>
    if ¬ pChild.ToElement then ParseCommands_loop context rest commands
    else if pChild.Name = "command" then
      match glbBuildParseCommand context pChild
          { returnType := "", returnTypeC := "", name := "", params := [], alias_ := "" } with
      | none => none
      | some (result, command) =>
        if result = GLB_SUCCESS then ParseCommands_loop context rest (commands ++ [command])
        else ParseCommands_loop context rest commands
    else ParseCommands_loop context rest commands

def glbBuildParseCommands (context : glbBuild) (pXMLElement : XMLNode) :
    Option (glbResult × glbBuild) :=
  match ParseCommands_loop context pXMLElement.childNodes [] with
  | none => none
  | some commands =>
    some (GLB_SUCCESS,
      { context with
        commands := context.commands ++
          [{ namespaceAttrib := orEmpty (pXMLElement.Attribute "namespace"),
             commands := commands }] })

/-- The conversion of `Attribute("name")` to the `std::string` that
`push_back` stores: undefined for the NULL pointer. -/
def stringOfAttribute (p : Option String) : Option String := p

/-- The loop of `glbBuildParseRequire` over the children of a `require`
element. -/
def ParseRequire_loop : List XMLNode → glbRequire → Option glbRequire
  | [], require => some require
  | pChild :: rest, require =>
    if ¬ pChild.ToElement then ParseRequire_loop rest require
    else
      match (if pChild.Name = "type" then
              match stringOfAttribute (pChild.Attribute "name") with
              | none => none
              | some name => some { require with types := require.types ++ [name] }
            else some require) with
      | none => none
      | some require =>
        match (if pChild.Name = "enum" then
                match stringOfAttribute (pChild.Attribute "name") with
                | none => none
                | some name => some { require with enums := require.enums ++ [name] }
              else some require) with
        | none => none
        | some require =>
          match (if pChild.Name = "command" then
                  match stringOfAttribute (pChild.Attribute "name") with
                  | none => none
                  | some name => some { require with commands := require.commands ++ [name] }
                else some require) with
          | none => none
          | some require => ParseRequire_loop rest require

def glbBuildParseRequire (_context : glbBuild) (pXMLElement : XMLNode) (require : glbRequire) :
    Option (glbResult × glbRequire) :=
  match ParseRequire_loop pXMLElement.childNodes require with
  | none => none
  | some require => some (GLB_SUCCESS, require)

/-- The loop over the children of a `feature` or `extension` element that
collects the parsed `require` children (the same loop in
`glbBuildParseFeature` and `glbBuildParseExtension`): `some r` in the first
component when the loop returned `r`. -/
def ParseRequires_loop (context : glbBuild) :
    List XMLNode → List glbRequire → Option (Option glbResult × List glbRequire)
  | [], requires => some (none, requires)
  | pChild :: rest, requires =>
    if ¬ pChild.ToElement then ParseRequires_loop context rest requires
    else if pChild.Name = "require" then
      match glbBuildParseRequire context pChild { types := [], enums := [], commands := [] } with
      | none => none
      | some (result, require) =>
        if result ≠ GLB_SUCCESS then some (some result, requires)
        else ParseRequires_loop context rest (requires ++ [require])
    else ParseRequires_loop context rest requires

def glbBuildParseFeature (context : glbBuild) (pXMLElement : XMLNode) :
    Option (glbResult × glbBuild) :=
  match ParseRequires_loop context pXMLElement.childNodes [] with
  | none => none
  | some (some result, _) => some (result, context)
  | some (none, requires) =>
    some (GLB_SUCCESS,
      { context with
        features := context.features ++
          [{ api := orEmpty (pXMLElement.Attribute "api"),
             name := orEmpty (pXMLElement.Attribute "name"),
             number := orEmpty (pXMLElement.Attribute "number"),
             requires := requires }] })

def glbBuildParseExtension (context : glbBuild) (pXMLElement : XMLNode) :
    Option (glbResult × glbExtension) :=
  match ParseRequires_loop context pXMLElement.childNodes [] with
  | none => none
  | some (some result, requires) =>
    some (result,
      { name := orEmpty (pXMLElement.Attribute "name"),
        supported := orEmpty (pXMLElement.Attribute "supported"),
        requires := requires })
  | some (none, requires) =>
    some (GLB_SUCCESS,
      { name := orEmpty (pXMLElement.Attribute "name"),
        supported := orEmpty (pXMLElement.Attribute "supported"),
        requires := requires })

/-- The loop of `glbBuildParseExtensions` over the children of the section:
`some r` in the first component when the loop returned `r`. -/
def ParseExtensions_loop : glbBuild → List XMLNode → Option (Option glbResult × glbBuild)
  | context, [] => some (none, context)
  | context, pChild :: rest =>
    if ¬ pChild.ToElement then ParseExtensions_loop context rest
    else if pChild.Name = "extension" then
      match glbBuildParseExtension context pChild with
      | none => none
      | some (result, extension) =>
        if result ≠ GLB_SUCCESS then some (some result, context)
        else
          ParseExtensions_loop
            { context with extensions := context.extensions ++ [extension] } rest
    else ParseExtensions_loop context rest

def glbBuildParseExtensions (context : glbBuild) (pXMLElement : XMLNode) :
    Option (glbResult × glbBuild) :=
  match ParseExtensions_loop context pXMLElement.childNodes with
  | none => none
  | some (some result, context) => some (result, context)
  | some (none, context) => some (GLB_SUCCESS, context)

/-- One of the six `if`s in the loop of `glbBuildLoadXML`: when the child has
the tag `tag`, `parse` is called and its result code dropped. -/
def LoadXML_section (tag : String) (parse : glbBuild → XMLNode → Option (glbResult × glbBuild))
    (context : glbBuild) (pChild : XMLNode) : Option glbBuild :=
  if pChild.Name = tag then
    match parse context pChild with
    | none => none
    | some (_, context) => some context
  else some context

/-- The loop of `glbBuildLoadXML` over the children of the root. -/
def LoadXML_loop : glbBuild → List XMLNode → Option glbBuild
  | context, [] => some context
  | context, pChild :: rest =>
    if ¬ pChild.ToElement then LoadXML_loop context rest
    else
      match LoadXML_section "types" glbBuildParseTypes context pChild with
      | none => none
      | some context =>
      match LoadXML_section "groups" (fun c e => some (glbBuildParseGroups c e))
          context pChild with
      | none => none
      | some context =>
      match LoadXML_section "enums" (fun c e => some (glbBuildParseEnums c e))
          context pChild with
      | none => none
      | some context =>
      match LoadXML_section "commands" glbBuildParseCommands context pChild with
      | none => none
      | some context =>
      match LoadXML_section "feature" glbBuildParseFeature context pChild with
      | none => none
      | some context =>
      match LoadXML_section "extensions" glbBuildParseExtensions context pChild with
      | none => none
      | some context => LoadXML_loop context rest

def glbBuildLoadXML (context : glbBuild) (doc : XMLDocument) : Option (glbResult × glbBuild) :=
  -- The root node is the <registry> node.
  match doc.RootElement with
  | none => some (-1, context)
  | some pRoot =>
    if pRoot.Name ≠ "registry" then some (-1, context)
    else
      match LoadXML_loop context pRoot.childNodes with
      | none => none
      | some context => some (GLB_SUCCESS, context)

/-! ## Vocabulary of the loader statements -/

/-- An element with the tag `tag`. -/
def isElementNamed (tag : String) (n : XMLNode) : Bool :=
  n.ToElement && n.Name = tag

/-- A `name` element. -/
def isNameElement (n : XMLNode) : Bool := isElementNamed "name" n

/-- A `type` or `ptype` element. -/
def isTypeElement (n : XMLNode) : Bool :=
  n.ToElement && (n.Name = "type" || n.Name = "ptype")

/-- The text of an element as the loader reads it: the value of its first
child node ("" when it has no child). -/
def firstChildValue (n : XMLNode) : String :=
  match n.FirstChild with
  | some first => first.Value
  | none => ""

/-- What a node contributes to the full type text: the text of an element,
the value of any other node. -/
def nodeText (n : XMLNode) : String :=
  if n.ToElement then firstChildValue n else n.Value

/-- The text of the last `type` or `ptype` element among `nodes`, `dflt` when
there is none. -/
def lastTypeText (nodes : List XMLNode) (dflt : String) : String :=
  match (nodes.filter isTypeElement).getLast? with
  | some e => firstChildValue e
  | none => dflt

/-- The text of the first `type` or `ptype` element among `nodes`, "" when
there is none. -/
def firstTypeText (nodes : List XMLNode) : String :=
  match (nodes.filter isTypeElement).head? with
  | some e => firstChildValue e
  | none => ""

/-- A proto with two type elements before its name:
`<proto><ptype>A</ptype> *<type>B</type> *<name>f</name></proto>`. -/
def twoTypesProto : XMLNode :=
  .element "proto" []
    [.element "ptype" [] [.text "A"], .text " *", .element "type" [] [.text "B"], .text " *",
     .element "name" [] [.text "f"]]

/-- The param
`<param group="G"> const <ptype>GLubyte</ptype> *<name>v</name>trailing<type>T</type></param>`. -/
def pointerParam : XMLNode :=
  .element "param" [("group", "G")]
    [.text " const ", .element "ptype" [] [.text "GLubyte"], .text " *",
     .element "name" [] [.text "v"], .text "trailing", .element "type" [] [.text "T"]]

/-- What an inner node of a type declaration contributes to `valueC`: the
text of a `name` element, the token APIENTRY for an `apientry` element,
nothing for any other element, the value of a node that is not an element. -/
def typePiece (n : XMLNode) : String :=
  if n.ToElement then
    (if n.Name = "name" then firstChildValue n
      else if n.Name = "apientry" then "APIENTRY" else "")
  else n.Value

/-- The text of the last `name` element among `nodes`, `dflt` when there is
none. -/
def lastNameText (nodes : List XMLNode) (dflt : String) : String :=
  match (nodes.filter isNameElement).getLast? with
  | some e => firstChildValue e
  | none => dflt

/-- A child of a `types` section from which a Type is built: an element that
is not a `comment` element. -/
def isTypeChild (n : XMLNode) : Bool :=
  n.ToElement && n.Name ≠ "comment"

/-- Every `name` element among the inner nodes of the child has a first
child. -/
def wfTypeChild (child : XMLNode) : Bool :=
  child.childNodes.all (fun n => !isNameElement n || n.FirstChild.isSome)

/-- The `name` attributes of the elements of `nodes` with the tag `tag`, in
document order ("" for a missing attribute). -/
def requireNames (tag : String) (nodes : List XMLNode) : List String :=
  (nodes.filter (isElementNamed tag)).map (fun n => orEmpty (n.Attribute "name"))

/-- Every `type`, `enum` and `command` child of the `require` element has a
`name` attribute. -/
def wfRequire (require : XMLNode) : Bool :=
  require.childNodes.all (fun n =>
    !(n.ToElement && (n.Name = "type" || n.Name = "enum" || n.Name = "command")) ||
      (n.Attribute "name").isSome)

/-- The types section
`<types><comment>c</comment><type requires="khrplatform">typedef <b>unsigned</b> int <name>GLuint</name>;</type></types>`. -/
def nestedTypesSection : XMLNode :=
  .element "types" []
    [.element "comment" [] [.text "c"],
     .element "type" [("requires", "khrplatform")]
       [.text "typedef ", .element "b" [] [.text "unsigned"], .text " int ",
        .element "name" [] [.text "GLuint"], .text ";"]]

/-- The types section
`<types>stray<type name="GLvoid">typedef void (<apientry/> *<name>GLDEBUGPROC</name>)(void);</type><type name="stddef"/></types>`. -/
def plainTypesSection : XMLNode :=
  .element "types" []
    [.text "stray",
     .element "type" [("name", "GLvoid")]
       [.text "typedef void (", .element "apientry" [] [], .text " *",
        .element "name" [] [.text "GLDEBUGPROC"], .text ")(void);"],
     .element "type" [("name", "stddef")] []]

/-- The require element
`<require><type name="GLint"/><enum name="GL_TRUE"/>text<command name="glClear"/><type name="GLint"/><other name="x"/></require>`. -/
def sampleRequire : XMLNode :=
  .element "require" []
    [.element "type" [("name", "GLint")] [], .element "enum" [("name", "GL_TRUE")] [],
     .text "text", .element "command" [("name", "glClear")] [],
     .element "type" [("name", "GLint")] [], .element "other" [("name", "x")] []]

/-- The require element `<require><type/></require>`, whose `type` child has no
`name` attribute. -/
def namelessRequire : XMLNode :=
  .element "require" [] [.element "type" [] []]

/-- In the declaration element (a `proto` or `param`), every element among
the children up to and including the first `name` element has a first child. -/
def wfPair (elem : XMLNode) : Bool :=
  (elem.childNodes.takeWhile (fun n => !isNameElement n)).all
      (fun n => !n.ToElement || n.FirstChild.isSome) &&
    (match (elem.childNodes.dropWhile (fun n => !isNameElement n)).head? with
      | some nm => nm.FirstChild.isSome
      | none => true)

/-- Every `proto` and `param` child of the `command` element satisfies
`wfPair`. -/
def wfCommand (command : XMLNode) : Bool :=
  command.childNodes.all
    (fun ch => !(isElementNamed "proto" ch || isElementNamed "param" ch) || wfPair ch)

/-- Every `command` child of the `commands` section satisfies `wfCommand`. -/
def wfCommands (pSection : XMLNode) : Bool :=
  pSection.childNodes.all (fun ch => !isElementNamed "command" ch || wfCommand ch)

/-- Every declaration of the `types` section satisfies `wfTypeChild`. -/
def wfTypes (pSection : XMLNode) : Bool :=
  pSection.childNodes.all (fun ch => !isTypeChild ch || wfTypeChild ch)

/-- Every `require` child of the `feature` or `extension` element satisfies
`wfRequire`. -/
def wfRequires (elem : XMLNode) : Bool :=
  elem.childNodes.all (fun ch => !isElementNamed "require" ch || wfRequire ch)

/-- Every `extension` child of the `extensions` section satisfies
`wfRequires`. -/
def wfExtensions (pSection : XMLNode) : Bool :=
  pSection.childNodes.all (fun ch => !isElementNamed "extension" ch || wfRequires ch)

/-- The sections of the root give the loader nothing undefined to do: every
first child whose value is read exists, and every `type`, `enum` and
`command` child of a `require` has a `name` attribute. -/
def wfRegistry (pRoot : XMLNode) : Bool :=
  pRoot.childNodes.all (fun ch =>
    (!isElementNamed "types" ch || wfTypes ch) &&
    (!isElementNamed "commands" ch || wfCommands ch) &&
    (!isElementNamed "feature" ch || wfRequires ch) &&
    (!isElementNamed "extensions" ch || wfExtensions ch))

/-- Loading relation between the registry before and after: each of the six
sequences has its previous contents as a prefix, and the three output lists
are the same. -/
def loadExtends (before after : glbBuild) : Prop :=
  before.types <+: after.types ∧ before.groups <+: after.groups ∧
  before.enums <+: after.enums ∧ before.commands <+: after.commands ∧
  before.features <+: after.features ∧ before.extensions <+: after.extensions ∧
  after.outputTypes = before.outputTypes ∧ after.outputEnums = before.outputEnums ∧
  after.outputCommands = before.outputCommands

/-! ## Vocabulary of the traversal -/

/-- The blocks of the given Features/Extensions emitted in full one after the
other from the ledger `ledger`, as a list of texts; each block is emitted with
the ledger its predecessors left. -/
def unitsBlocks (context : glbBuild) :
    List String → List (String × List glbRequire) → List String
  | _, [] => []
  | ledger, u :: rest =>
    blockText context ledger u.1 u.2 ::
      unitsBlocks context (ledger ++ newNames context ledger (blockTypeNames context u.2)) rest

/-- The ledger after the given Features/Extensions were emitted in full from
the ledger `ledger`. -/
def ledgerAfter (context : glbBuild) (ledger : List String)
    (units : List (String × List glbRequire)) : List String :=
  ledger ++ newNames context ledger (unitsTypeNames context units)

/-- A registry with three Extensions, supported "gl", "gles2" and
"glcore|gl"; the middle one passes none of the group tests. -/
def extensionsCtx : glbBuild :=
  { scenarioCtx with
    features := [],
    extensions := [{ name := "GL_EXT_a", supported := "gl",
                     requires := [{ types := ["GLint"], enums := [], commands := [] }] },
                   { name := "GL_EXT_b", supported := "gles2",
                     requires := [{ types := [], enums := ["GL_TRUE"], commands := [] }] },
                   { name := "GL_EXT_c", supported := "glcore|gl",
                     requires := [{ types := [], enums := [], commands := ["glClear"] }] }] }

/-- A registry with two Types named GLint, two enums named GL_TRUE in
different blocks and two commands named glClear. -/
def duplicatesCtx : glbBuild :=
  { emptyCtx with
    types := [{ name := "GLint", valueC := "typedef int GLint;", requires := "" },
              { name := "GLint", valueC := "typedef long GLint;", requires := "" }],
    enums := [{ name := "", namespaceAttrib := "", group := "", vendor := "", type := "",
                start := "", end_ := "",
                enums := [{ name := "GL_FALSE", value := "0", type := "" }] },
              { name := "", namespaceAttrib := "", group := "", vendor := "", type := "",
                start := "", end_ := "",
                enums := [{ name := "GL_TRUE", value := "1", type := "" },
                          { name := "GL_TRUE", value := "2", type := "" }] }],
    commands := [{ namespaceAttrib := "",
                   commands := [{ returnType := "", returnTypeC := "void", name := "glClear",
                                  params := [], alias_ := "" }] },
                 { namespaceAttrib := "",
                   commands := [{ returnType := "", returnTypeC := "int", name := "glClear",
                                  params := [], alias_ := "" }] }] }

/-! ## Concrete documents -/

/-- The document
`<!-- c --><registry>text<comment>c</comment><types><type name="GLint">typedef int <name>GLint</name>;</type></types><groups><group name="Boolean"><enum name="GL_TRUE"/></group></groups><enums namespace="GL"><enum value="1" name="GL_TRUE"/></enums><commands namespace="GL"><command><proto>void <name>glClear</name></proto><param><ptype>GLint</ptype> *<name>mask</name></param><alias name="glClearEXT"/></command></commands><feature api="gl" name="GL_VERSION_1_0" number="1.0"><require><type name="GLint"/><enum name="GL_TRUE"/><command name="glClear"/></require></feature><extensions><extension name="GL_EXT_a" supported="gl"><require><command name="glClear"/></require></extension></extensions></registry>`. -/
def sampleDocument : XMLDocument :=
  { children :=
      [.text " c ",
       .element "registry" []
         [.text "text",
          .element "comment" [] [.text "c"],
          .element "types" []
            [.element "type" [("name", "GLint")]
               [.text "typedef int ", .element "name" [] [.text "GLint"], .text ";"]],
          .element "groups" []
            [.element "group" [("name", "Boolean")] [.element "enum" [("name", "GL_TRUE")] []]],
          .element "enums" [("namespace", "GL")]
            [.element "enum" [("value", "1"), ("name", "GL_TRUE")] []],
          .element "commands" [("namespace", "GL")]
            [.element "command" []
               [.element "proto" [] [.text "void ", .element "name" [] [.text "glClear"]],
                .element "param" []
                  [.element "ptype" [] [.text "GLint"], .text " *",
                   .element "name" [] [.text "mask"]],
                .element "alias" [("name", "glClearEXT")] []]],
          .element "feature" [("api", "gl"), ("name", "GL_VERSION_1_0"), ("number", "1.0")]
            [.element "require" []
               [.element "type" [("name", "GLint")] [],
                .element "enum" [("name", "GL_TRUE")] [],
                .element "command" [("name", "glClear")] []]],
          .element "extensions" []
            [.element "extension" [("name", "GL_EXT_a"), ("supported", "gl")]
               [.element "require" [] [.element "command" [("name", "glClear")] []]]]]] }

/-- The document with no root element (only a comment). -/
def rootlessDocument : XMLDocument :=
  { children := [.text " c "] }

/-- The document `<glx><types><type name="T"/></types></glx>`, whose root is not
named "registry". -/
def wrongRootDocument : XMLDocument :=
  { children :=
      [.element "glx" [] [.element "types" [] [.element "type" [("name", "T")] []]]] }

/-- The document `<registry><types><type><name/></type></types></registry>`,
whose `name` element has no text. -/
def emptyNameDocument : XMLDocument :=
  { children :=
      [.element "registry" []
         [.element "types" [] [.element "type" [] [.element "name" [] []]]]] }

/-- The document
`<registry><feature api="gl" name="F"><require><type/></require></feature></registry>`,
whose `type` child of the `require` has no `name` attribute. -/
def namelessRequireDocument : XMLDocument :=
  { children :=
      [.element "registry" []
         [.element "feature" [("api", "gl"), ("name", "F")] [namelessRequire]]] }

/-- The document
`<registry><types><type/></types><groups><group><enum/></group></groups><enums><enum/></enums><commands><command><alias/></command></commands><feature><require/></feature><extensions><extension/></extensions></registry>`,
none of whose elements has an attribute. -/
def bareDocument : XMLDocument :=
  { children :=
      [.element "registry" []
         [.element "types" [] [.element "type" [] []],
          .element "groups" [] [.element "group" [] [.element "enum" [] []]],
          .element "enums" [] [.element "enum" [] []],
          .element "commands" [] [.element "command" [] [.element "alias" [] []]],
          .element "feature" [] [.element "require" [] []],
          .element "extensions" [] [.element "extension" [] []]]] }

/-! ## Inputs and vocabulary of the later statements -/

/-- The proto `<proto>void <name/></proto>`, whose `name` element is empty. -/
def emptyNameProto : XMLNode :=
  .element "proto" [] [.text "void ", .element "name" [] []]

/-- The param `<param><ptype/> *<name>x</name></param>`, whose `ptype` element
is empty. -/
def emptyTypeParam : XMLNode :=
  .element "param" [] [.element "ptype" [] [], .text " *", .element "name" [] [.text "x"]]

/-- A registry with the Extension `WGL_both`, whose supported string is
"wgl|glx", and the Extension `WGL_only`, whose supported string is "wgl"; each
requires the type GLint, the enum GL_A and the command glFoo. -/
def overlapCtx : glbBuild :=
  { emptyCtx with
    types := [{ name := "GLint", valueC := "typedef int GLint;", requires := "" }],
    enums := [{ name := "", namespaceAttrib := "", group := "", vendor := "", type := "",
                start := "", end_ := "",
                enums := [{ name := "GL_A", value := "1", type := "" }] }],
    commands := [{ namespaceAttrib := "",
                   commands := [{ returnType := "", returnTypeC := "void", name := "glFoo",
                                  params := [{ type := "GLint", typeC := "GLint", name := "x",
                                               group := "" }],
                                  alias_ := "" }] }],
    extensions := [{ name := "WGL_both", supported := "wgl|glx",
                     requires := [{ types := ["GLint"], enums := ["GL_A"],
                                    commands := ["glFoo"] }] },
                   { name := "WGL_only", supported := "wgl",
                     requires := [{ types := ["GLint"], enums := ["GL_A"],
                                    commands := ["glFoo"] }] }] }


/-- The ledger holds no name twice and does not hold "khrplatform". -/
def ledgerInvariant (ledger : List String) : Prop :=
  ledger.Nodup ∧ "khrplatform" ∉ ledger

instance ledgerInvariant_decidable (ledger : List String) :
    Decidable (ledgerInvariant ledger) := by
  unfold ledgerInvariant; infer_instance

/-- The registry `context` with other Features and Extensions; types, groups,
enums, commands and the ledger are the same. -/
def withDecls (context : glbBuild) (features : List glbFeature)
    (extensions : List glbExtension) : glbBuild :=
  { context with features := features, extensions := extensions }

/-- A result of an emitter operation with the Features and Extensions of its
registry replaced. -/
def liftDecls {α : Type} (features : List glbFeature) (extensions : List glbExtension)
    (res : α × glbBuild × String) : α × glbBuild × String :=
  (res.1, withDecls res.2.1 features extensions, res.2.2)

/-- A Feature of one of the three groups: its api is "gl", "wgl" or "glx". -/
def inFeatureGroup (feature : glbFeature) : Bool :=
  feature.api = "gl" || feature.api = "wgl" || feature.api = "glx"

/-- An Extension that passes at least one of the three group tests. -/
def inExtensionGroup (extension : glbExtension) : Bool :=
  Main_selectGL extension || Main_selectWGL extension || Main_selectGLX extension

/-- The registry without the Features and Extensions outside the six groups. -/
def keepEmitted (context : glbBuild) : glbBuild :=
  withDecls context (context.features.filter inFeatureGroup)
    (context.extensions.filter inExtensionGroup)

/-- The scenario registry with, in addition, a Feature of the api "gles2" and
an Extension supported by "gles2" only, both naming a type, an enum and a
command that do not exist. -/
def inertCtx : glbBuild :=
  { scenarioCtx with
    features := [{ api := "gles2", name := "GL_ES_VERSION_2_0", number := "2.0",
                   requires := [{ types := ["GLnone"], enums := ["GL_NONE_SUCH"],
                                  commands := ["glNoneSuch"] }] },
                 scenarioFeature],
    extensions := [{ name := "GL_OES_x", supported := "gles2",
                     requires := [{ types := ["GLnone"], enums := ["GL_NONE_SUCH"],
                                    commands := ["glNoneSuch"] }] }] }

/-! ## File access

The C library and the platform as the file functions meet them.  Sizes are
natural numbers; a value stored in a `uint64_t` is reduced modulo `2 ^ 64` and
a value stored in a `size_t` modulo `2 ^ sizeBits`. -/

/-- The platform and the C library calls of the file functions. -/
structure glbStdio where
  /-- The width of `size_t` in bits. -/
  sizeBits : Nat
  /-- Whether `fopen(path, mode)` returns a stream. -/
  fopen : String → String → Bool
  /-- The value `ftell` returns at the end of the file at `path`, as it is
  stored in the `uint64_t` variable `fileSize`. -/
  ftell : String → Nat
  /-- Whether `malloc(size)` returns a buffer. -/
  malloc : Nat → Bool
  /-- The number of bytes `fread` delivers from the file at `path` when asked
  for `count` bytes. -/
  fread : String → Nat → Nat
  /-- The number of bytes `fwrite` reports for writing `count` bytes of `data`
  to the file at `path`. -/
  fwrite : String → String → Nat → Nat

/-- The constant `SIZE_MAX` of a platform whose `size_t` has `sizeBits` bits. -/
def SIZE_MAX (sizeBits : Nat) : Nat := 2 ^ sizeBits - 1

/-- The function `glbFOpen`; `none` is a NULL argument.  The callers pass the
address of a local variable as `ppFile`, which is never NULL. -/
def glbFOpen (io : glbStdio) (filePath openMode : Option String) : glbResult :=
  match filePath, openMode with
  | some path, some mode =>
    if ¬ io.fopen path mode then GLB_FAILED_TO_OPEN_FILE else GLB_SUCCESS
  | _, _ => GLB_INVALID_ARGS

/-- What `glbOpenAndReadFileWithExtraData` leaves behind: its result code, the
sizes it passed to `malloc`, `*pFileSizeOut`, and the size of the buffer
stored in `*ppFileData` (`none` for NULL). -/
structure glbReadOutcome where
  result : glbResult
  mallocCalls : List Nat
  fileSizeOut : Nat
  fileData : Option Nat
  deriving DecidableEq, Repr

/-- The function `glbOpenAndReadFileWithExtraData`, called with non-NULL
`pFileSizeOut` and `ppFileData`.  The result is `none` when `fread` delivers
more bytes than the buffer holds (a write past the end of the buffer). -/
def glbOpenAndReadFileWithExtraData (io : glbStdio) (filePath : Option String)
    (extraBytes : Nat) : Option glbReadOutcome :=
  match filePath with
  | none => some { result := GLB_INVALID_ARGS, mallocCalls := [], fileSizeOut := 0,
                   fileData := none }
  | some path =>
    if glbFOpen io filePath (some "rb") ≠ GLB_SUCCESS then
      some { result := GLB_FAILED_TO_OPEN_FILE, mallocCalls := [], fileSizeOut := 0,
             fileData := none }
    else
      let fileSize := io.ftell path % 2 ^ 64
      if (fileSize + extraBytes) % 2 ^ 64 > SIZE_MAX io.sizeBits then
        some { result := GLB_FILE_TOO_BIG, mallocCalls := [], fileSizeOut := 0,
               fileData := none }
      else
        let size := (fileSize % 2 ^ io.sizeBits + extraBytes) % 2 ^ io.sizeBits
        if ¬ io.malloc size then
          some { result := GLB_OUT_OF_MEMORY, mallocCalls := [size], fileSizeOut := 0,
                 fileData := none }
        else
          let bytesRead := io.fread path (fileSize % 2 ^ io.sizeBits)
          if bytesRead > size then none
          else if bytesRead ≠ fileSize then
            some { result := GLB_FAILED_TO_READ_FILE, mallocCalls := [size], fileSizeOut := 0,
                   fileData := none }
          else
            some { result := GLB_SUCCESS, mallocCalls := [size],
                   fileSizeOut := fileSize % 2 ^ io.sizeBits, fileData := some size }

/-- The function `glbOpenAndWriteFile`; `none` is a NULL pointer. -/
def glbOpenAndWriteFile (io : glbStdio) (filePath : Option String) (pData : Option String)
    (dataSize : Nat) : glbResult :=
  match filePath with
  | none => GLB_INVALID_ARGS
  | some path =>
    if glbFOpen io filePath (some "wb") ≠ GLB_SUCCESS then GLB_FAILED_TO_OPEN_FILE
    else
      match pData with
      | some data =>
        if dataSize > 0 then
          if io.fwrite path data dataSize ≠ dataSize then GLB_FAILED_TO_WRITE_FILE
          else GLB_SUCCESS
        else GLB_SUCCESS
      | none => GLB_SUCCESS

/-- The function `glbOpenAndWriteTextFile`. -/
def glbOpenAndWriteTextFile (io : glbStdio) (filePath : Option String)
    (text : Option String) : glbResult :=
  let text := match text with
    | none => ""
    | some text => text
  glbOpenAndWriteFile io filePath (some text) text.length

/-- A 64-bit platform on which every file opens for reading and none for
writing, `ftell` fails (it returns -1, stored as `2 ^ 64 - 1`), `malloc`
succeeds and `fread` delivers nothing. -/
def brokenStdio : glbStdio :=
  { sizeBits := 64,
    fopen := fun _ mode => mode = "rb",
    ftell := fun _ => 2 ^ 64 - 1,
    malloc := fun _ => true,
    fread := fun _ _ => 0,
    fwrite := fun _ _ _ => 0 }

/-- A 32-bit platform on which the file at every path has `2 ^ 32 - 1` bytes. -/
def smallStdio : glbStdio :=
  { sizeBits := 32,
    fopen := fun _ _ => true,
    ftell := fun _ => 2 ^ 32 - 1,
    malloc := fun _ => true,
    fread := fun _ count => count,
    fwrite := fun _ _ count => count }

/-- The files of a run in which the template holds the marker between two
lines and the destination cannot be opened for writing. -/
def unwritableFiles : glbFiles :=
  { readText := fun _ => (GLB_SUCCESS, "/* head */\n/*<<opengl_main>>*/\n/* tail */\n"),
    writeText := fun path text => glbOpenAndWriteTextFile brokenStdio (some path) (some text) }

/-! ## The full type text as the specification words it -/

/-- Whether the element has a text child: a child node that is not an
element. -/
def hasTextChild (n : XMLNode) : Bool :=
  n.childNodes.any (fun c => !c.ToElement)

/-- The text of an element as the specification words it: the value of its
first text child ("" when it has none). -/
def specElementText (n : XMLNode) : String :=
  match n.childNodes.find? (fun c => !c.ToElement) with
  | some c => c.Value
  | none => ""

/-- The full type text as the specification words it: the trimmed
concatenation, in document order, of the text of every bare text node and of
every nested element before the first `name` element. -/
def specTypeC (elem : XMLNode) : String :=
  glbTrim (concatAll ((elem.childNodes.takeWhile (fun n => !isNameElement n)).map
    (fun n => if n.ToElement then specElementText n else n.Value)))

/-- The param `<param><ptype><b>x</b>GLint</ptype> *<name>v</name></param>`,
whose `ptype` element has an element as its first child and the text "GLint"
behind it. -/
def nestedFirstChildParam : XMLNode :=
  .element "param" []
    [.element "ptype" [] [.element "b" [] [.text "x"], .text "GLint"], .text " *",
     .element "name" [] [.text "v"]]

end Glbind

namespace Glbind

/-! ## Basic facts -/

set_option maxRecDepth 4000

@[simp] theorem setLedger_types (c : glbBuild) (l : List String) :
    (setLedger c l).types = c.types := rfl
@[simp] theorem setLedger_enums (c : glbBuild) (l : List String) :
    (setLedger c l).enums = c.enums := rfl
@[simp] theorem setLedger_commands (c : glbBuild) (l : List String) :
    (setLedger c l).commands = c.commands := rfl
@[simp] theorem setLedger_features (c : glbBuild) (l : List String) :
    (setLedger c l).features = c.features := rfl
@[simp] theorem setLedger_extensions (c : glbBuild) (l : List String) :
    (setLedger c l).extensions = c.extensions := rfl
@[simp] theorem setLedger_outputTypes (c : glbBuild) (l : List String) :
    (setLedger c l).outputTypes = l := rfl
@[simp] theorem setLedger_setLedger (c : glbBuild) (l l' : List String) :
    setLedger (setLedger c l) l' = setLedger c l' := rfl
@[simp] theorem setLedger_self (c : glbBuild) : setLedger c c.outputTypes = c := rfl

@[simp] theorem findType_setLedger (c : glbBuild) (l : List String) (n : String) :
    glbBuildFindType (setLedger c l) n = glbBuildFindType c n := rfl
@[simp] theorem findEnum_setLedger (c : glbBuild) (l : List String) (n : String) :
    glbBuildFindEnum (setLedger c l) n = glbBuildFindEnum c n := rfl
@[simp] theorem findCommand_setLedger (c : glbBuild) (l : List String) (n : String) :
    glbBuildFindCommand (setLedger c l) n = glbBuildFindCommand c n := rfl
@[simp] theorem typeLine_setLedger (c : glbBuild) (l : List String) (n : String) :
    typeLine (setLedger c l) n = typeLine c n := rfl
@[simp] theorem typesText_setLedger (c : glbBuild) (l g : List String) :
    typesText (setLedger c l) g = typesText c g := rfl

@[simp] theorem concatAll_nil : concatAll [] = "" := rfl
@[simp] theorem concatAll_cons (s : String) (r : List String) :
    concatAll (s :: r) = s ++ concatAll r := rfl
@[simp] theorem concatAll_append (a b : List String) :
    concatAll (a ++ b) = concatAll a ++ concatAll b := by
  induction a with
  | nil => simp
  | cons s r ih => simp [ih, String.append_assoc]

@[simp] theorem typesText_nil (c : glbBuild) : typesText c [] = "" := rfl
@[simp] theorem typesText_append (c : glbBuild) (a b : List String) :
    typesText c (a ++ b) = typesText c a ++ typesText c b := by
  simp [typesText]
theorem typesText_singleton (c : glbBuild) (n : String) : typesText c [n] = typeLine c n := by
  simp [typesText]

theorem hasTypeBeenOutputLoop_eq (l : List String) (n : String) :
    glbBuildHasTypeBeenOutputLoop l n = if n ∈ l then 1 else 0 := by
  induction l with
  | nil => simp [glbBuildHasTypeBeenOutputLoop]
  | cons a r ih =>
    by_cases h : a = n
    · simp [glbBuildHasTypeBeenOutputLoop, h]
    · have h' : ¬ n = a := fun e => h e.symm
      simp [glbBuildHasTypeBeenOutputLoop, h, h', ih]

theorem hasTypeBeenOutput_eq_zero (c : glbBuild) (n : String) :
    glbBuildHasTypeBeenOutput c n = 0 ↔ n ∉ c.outputTypes := by
  unfold glbBuildHasTypeBeenOutput
  rw [hasTypeBeenOutputLoop_eq]
  by_cases h : n ∈ c.outputTypes <;> simp [h]

theorem findTypeLoop_error (ts : List glbType) (n : String) (e : glbResult)
    (h : glbBuildFindTypeLoop ts n = .error e) : e = GLB_ERROR := by
  induction ts with
  | nil => simp [glbBuildFindTypeLoop] at h; exact h.symm
  | cons t r ih =>
    by_cases hn : t.name = n
    · simp [glbBuildFindTypeLoop, hn] at h
    · simp [glbBuildFindTypeLoop, hn] at h; exact ih h

theorem findType_error (c : glbBuild) (n : String) (e : glbResult)
    (h : glbBuildFindType c n = .error e) : e = GLB_ERROR :=
  findTypeLoop_error _ _ _ h

/-- What `glbBuildGenerateCode_C_Main_Type` does, by cases. -/
theorem type_eq (c : glbBuild) (n out : String) :
    glbBuildGenerateCode_C_Main_Type c n out =
      if n = "khrplatform" then (GLB_ALREADY_PROCESSED, c, out)
      else if n ∈ c.outputTypes then (GLB_SUCCESS, c, out)
      else match glbBuildFindType c n with
        | .error r => (r, c, out)
        | .ok _ => (GLB_SUCCESS, setLedger c (c.outputTypes ++ [n]), out ++ typeLine c n) := by
  unfold glbBuildGenerateCode_C_Main_Type
  by_cases hk : n = "khrplatform"
  · simp [hk]
  · by_cases hm : n ∈ c.outputTypes
    · have : ¬ glbBuildHasTypeBeenOutput c n = 0 := by
        rw [hasTypeBeenOutput_eq_zero]; simpa using hm
      simp [hk, hm, this]
    · have : glbBuildHasTypeBeenOutput c n = 0 := by
        rw [hasTypeBeenOutput_eq_zero]; exact hm
      simp only [hk, hm, this, if_true, if_false]
      cases hf : glbBuildFindType c n with
      | error r => simp
      | ok t =>
        simp only [typeLine, hf, setLedger]
        by_cases hv : t.valueC = ""
        · simp [hv]
        · simp [hv]

/-! ## The emit-once step and the types pass -/

theorem resolvesType_setLedger (c : glbBuild) (l : List String) (n : String) :
    resolvesType (setLedger c l) n = resolvesType c n := rfl

theorem resolvesType_true_iff (c : glbBuild) (n : String) :
    resolvesType c n = true ↔ ∃ t, glbBuildFindType c n = .ok t := by
  unfold resolvesType
  cases h : glbBuildFindType c n <;> simp

theorem resolvesType_false_iff (c : glbBuild) (n : String) :
    resolvesType c n = false ↔ glbBuildFindType c n = .error GLB_ERROR := by
  unfold resolvesType
  cases h : glbBuildFindType c n with
  | error e => simp [findType_error c n e h]
  | ok t => simp

@[simp] theorem newNames_nil (c : glbBuild) (l : List String) : newNames c l [] = [] := by
  cases l <;> rfl

theorem newNames_cons (c : glbBuild) (l : List String) (n : String) (rest : List String) :
    newNames c l (n :: rest) =
      if n = "khrplatform" ∨ n ∈ l ∨ resolvesType c n = false then newNames c l rest
      else n :: newNames c (l ++ [n]) rest := by
  rw [newNames]

theorem newNames_append (c : glbBuild) (l a b : List String) :
    newNames c l (a ++ b) = newNames c l a ++ newNames c (l ++ newNames c l a) b := by
  induction a generalizing l with
  | nil => simp [newNames_nil]
  | cons n rest ih =>
    simp only [List.cons_append, newNames_cons]
    split
    · exact ih l
    · rw [ih (l ++ [n])]; simp

theorem mem_newNames (c : glbBuild) (l names : List String) (n : String) :
    n ∈ newNames c l names ↔
      n ∈ names ∧ n ≠ "khrplatform" ∧ n ∉ l ∧ resolvesType c n = true := by
  induction names generalizing l with
  | nil => simp [newNames_nil]
  | cons a rest ih =>
    rw [newNames_cons]
    split
    · rename_i h
      rw [ih l]
      constructor
      · rintro ⟨h1, h2, h3, h4⟩; exact ⟨List.mem_cons_of_mem _ h1, h2, h3, h4⟩
      · rintro ⟨h1, h2, h3, h4⟩
        rcases List.mem_cons.mp h1 with e | h1
        · subst e
          rcases h with h | h | h
          · exact absurd h h2
          · exact absurd h h3
          · rw [h4] at h; cases h
        · exact ⟨h1, h2, h3, h4⟩
    · rename_i h
      simp only [not_or] at h
      obtain ⟨hk, hl, hr⟩ := h
      rw [List.mem_cons, ih (l ++ [a])]
      constructor
      · rintro (e | ⟨h1, h2, h3, h4⟩)
        · subst e; exact ⟨List.mem_cons_self _ _, hk, hl, by simpa using hr⟩
        · exact ⟨List.mem_cons_of_mem _ h1, h2, fun hm => h3 (List.mem_append_left _ hm), h4⟩
      · rintro ⟨h1, h2, h3, h4⟩
        by_cases e : n = a
        · exact Or.inl e
        · right
          rcases List.mem_cons.mp h1 with e' | h1
          · exact absurd e' e
          · refine ⟨h1, h2, ?_, h4⟩
            intro hm
            rcases List.mem_append.mp hm with hm | hm
            · exact h3 hm
            · exact e (by simpa using hm)

theorem nodup_newNames (c : glbBuild) (l names : List String) :
    (newNames c l names).Nodup := by
  induction names generalizing l with
  | nil => simp [newNames_nil]
  | cons a rest ih =>
    rw [newNames_cons]
    split
    · exact ih l
    · refine List.nodup_cons.mpr ⟨?_, ih _⟩
      intro hm
      have := ((mem_newNames c (l ++ [a]) rest a).mp hm).2.2.1
      exact this (by simp)

theorem passesType_grow (c : glbBuild) (l names : List String) (n : String) :
    passesType c (l ++ newNames c l names) n ↔ passesType c l n := by
  unfold passesType
  constructor
  · rintro (h | h | h)
    · exact Or.inl h
    · rcases List.mem_append.mp h with h | h
      · exact Or.inr (Or.inl h)
      · exact Or.inr (Or.inr ((mem_newNames c l names n).mp h).2.2.2)
    · exact Or.inr (Or.inr h)
  · rintro (h | h | h)
    · exact Or.inl h
    · exact Or.inr (Or.inl (List.mem_append_left _ h))
    · exact Or.inr (Or.inr h)

/-- The result code of the emit-once step for one name. -/
theorem type_run (c : glbBuild) (l : List String) (n out : String) :
    glbBuildGenerateCode_C_Main_Type (setLedger c l) n out =
      (if n = "khrplatform" then GLB_ALREADY_PROCESSED
        else if n ∈ l then GLB_SUCCESS
        else if resolvesType c n = true then GLB_SUCCESS else GLB_ERROR,
       setLedger c (l ++ newNames c l [n]),
       out ++ typesText c (newNames c l [n])) := by
  rw [type_eq, newNames_cons, newNames_nil]
  by_cases hk : n = "khrplatform"
  · simp [hk]
  · by_cases hm : n ∈ l
    · simp [hk, hm]
    · simp only [hk, hm, setLedger_outputTypes, if_false, false_or, findType_setLedger,
        setLedger_setLedger, typeLine_setLedger]
      cases hf : glbBuildFindType c n with
      | error e =>
        have he := findType_error c n e hf
        subst he
        have hr : resolvesType c n = false := (resolvesType_false_iff c n).mpr hf
        simp [hr]
      | ok t =>
        have hr : resolvesType c n = true := (resolvesType_true_iff c n).mpr ⟨t, hf⟩
        simp [hr, typesText_singleton, newNames_nil]

theorem requireTypes_params_run (c : glbBuild) (params : List glbCommandParam)
    (l : List String) (out : String) :
    RequireTypes_params (setLedger c l) params out =
      (setLedger c (l ++ newNames c l (paramTypeNames params)),
       out ++ typesText c (newNames c l (paramTypeNames params))) := by
  induction params generalizing l out with
  | nil => simp [RequireTypes_params, paramTypeNames, newNames_nil]
  | cons p rest ih =>
    unfold RequireTypes_params
    by_cases hp : p.type = ""
    · have : paramTypeNames (p :: rest) = paramTypeNames rest := by
        simp [paramTypeNames, hp]
      simp only [hp, ne_eq, not_true_eq_false, if_false, this]
      exact ih l out
    · have : paramTypeNames (p :: rest) = p.type :: paramTypeNames rest := by
        simp [paramTypeNames, hp]
      simp only [ne_eq, hp, not_false_eq_true, if_true, this, type_run]
      rw [ih]
      have := newNames_append c l [p.type] (paramTypeNames rest)
      simp only [List.singleton_append] at this
      rw [this]
      simp [String.append_assoc]

theorem findCommandLoop_error (bs : List glbCommands) (n : String) (e : glbResult)
    (h : glbBuildFindCommandLoop bs n = .error e) : e = GLB_ERROR := by
  induction bs with
  | nil => simp [glbBuildFindCommandLoop] at h; exact h.symm
  | cons b r ih =>
    unfold glbBuildFindCommandLoop at h
    cases hi : glbBuildFindCommandInner b.commands n with
    | some x => simp [hi] at h
    | none => simp only [hi] at h; exact ih h

theorem findCommand_error (c : glbBuild) (n : String) (e : glbResult)
    (h : glbBuildFindCommand c n = .error e) : e = GLB_ERROR :=
  findCommandLoop_error _ _ _ h

theorem findEnumLoop_error (bs : List glbEnums) (n : String) (e : glbResult)
    (h : glbBuildFindEnumLoop bs n = .error e) : e = GLB_ERROR := by
  induction bs with
  | nil => simp [glbBuildFindEnumLoop] at h; exact h.symm
  | cons b r ih =>
    unfold glbBuildFindEnumLoop at h
    cases hi : glbBuildFindEnumInner b.enums n with
    | some x => simp [hi] at h
    | none => simp only [hi] at h; exact ih h

theorem findEnum_error (c : glbBuild) (n : String) (e : glbResult)
    (h : glbBuildFindEnum c n = .error e) : e = GLB_ERROR :=
  findEnumLoop_error _ _ _ h

theorem resolvesCommand_true_iff (c : glbBuild) (n : String) :
    resolvesCommand c n = true ↔ ∃ t, glbBuildFindCommand c n = .ok t := by
  unfold resolvesCommand
  cases h : glbBuildFindCommand c n <;> simp

theorem resolvesEnum_true_iff (c : glbBuild) (n : String) :
    resolvesEnum c n = true ↔ ∃ t, glbBuildFindEnum c n = .ok t := by
  unfold resolvesEnum
  cases h : glbBuildFindEnum c n <;> simp

theorem type_run_passes (c : glbBuild) (l : List String) (n : String)
    (h : passesType c l n) :
    ∃ r, (r = GLB_SUCCESS ∨ r = GLB_ALREADY_PROCESSED) ∧
      ∀ out, glbBuildGenerateCode_C_Main_Type (setLedger c l) n out =
        (r, setLedger c (l ++ newNames c l [n]), out ++ typesText c (newNames c l [n])) := by
  by_cases hk : n = "khrplatform"
  · exact ⟨GLB_ALREADY_PROCESSED, Or.inr rfl, fun out => by rw [type_run]; simp [hk]⟩
  · refine ⟨GLB_SUCCESS, Or.inl rfl, fun out => ?_⟩
    rw [type_run]
    by_cases hm : n ∈ l
    · simp [hk, hm]
    · rcases h with h | h | h
      · exact absurd h hk
      · exact absurd h hm
      · simp [hk, hm, h]

theorem type_run_fails (c : glbBuild) (l : List String) (n : String)
    (h : ¬ passesType c l n) (out : String) :
    glbBuildGenerateCode_C_Main_Type (setLedger c l) n out =
      (GLB_ERROR, setLedger c l, out) := by
  unfold passesType at h
  simp only [not_or] at h
  obtain ⟨hk, hm, hr⟩ := h
  have hr' : resolvesType c n = false := by simpa using hr
  rw [type_run, newNames_cons]
  simp [hk, hm, hr']

theorem newNames_cons_append (c : glbBuild) (l : List String) (n : String) (rest : List String) :
    newNames c l (n :: rest) = newNames c l [n] ++ newNames c (l ++ newNames c l [n]) rest := by
  have := newNames_append c l [n] rest
  simpa using this

theorem standalone_run (c : glbBuild) (types : List String) (l : List String) :
    ∃ r pre, pre <+: types ∧
      (∀ out, RequireTypes_standalone (setLedger c l) types out =
        (r, setLedger c (l ++ newNames c l pre), out ++ typesText c (newNames c l pre))) ∧
      (r = none ∨ r = some GLB_ERROR) ∧ (r = none → pre = types) ∧
      (r = none ↔ ∀ n ∈ types, passesType c l n) := by
  induction types generalizing l with
  | nil =>
    exact ⟨none, [], List.prefix_refl _, fun out => by simp [RequireTypes_standalone],
      Or.inl rfl, fun _ => rfl, by simp⟩
  | cons n rest ih =>
    by_cases hp : passesType c l n
    · obtain ⟨r0, hr0, h0⟩ := type_run_passes c l n hp
      obtain ⟨r, pre, hpre, hrun, hr, hall, hiff⟩ := ih (l ++ newNames c l [n])
      refine ⟨r, n :: pre, ?_, ?_, hr, ?_, ?_⟩
      · exact List.prefix_cons_inj n |>.mpr hpre
      · intro out
        unfold RequireTypes_standalone
        rw [h0 out]
        have hcond : ¬ (r0 ≠ GLB_SUCCESS ∧ r0 ≠ GLB_ALREADY_PROCESSED) := by
          rcases hr0 with e | e <;> simp [e]
        simp only [hcond, if_false]
        rw [hrun, newNames_cons_append c l n pre]
        simp [String.append_assoc]
      · intro e; rw [hall e]
      · rw [hiff]
        constructor
        · intro h m hm
          rcases List.mem_cons.mp hm with e | hm
          · subst e; exact hp
          · exact (passesType_grow c l [n] m).mp (h m hm)
        · intro h m hm
          exact (passesType_grow c l [n] m).mpr (h m (List.mem_cons_of_mem _ hm))
    · refine ⟨some GLB_ERROR, [], List.nil_prefix, ?_, Or.inr rfl, by simp, ?_⟩
      · intro out
        unfold RequireTypes_standalone
        rw [type_run_fails c l n hp]
        have h1 : (GLB_ERROR : glbResult) ≠ GLB_SUCCESS := by decide
        have h2 : (GLB_ERROR : glbResult) ≠ GLB_ALREADY_PROCESSED := by decide
        simp [h1, h2]
      · constructor
        · intro e; cases e
        · intro h; exact absurd (h n (List.mem_cons_self _ _)) hp

theorem commandTypeNamesOf_ok (c : glbBuild) (n : String) (cmd : glbCommand)
    (h : glbBuildFindCommand c n = .ok cmd) :
    commandTypeNamesOf c n = commandTypeNames cmd := by
  simp [commandTypeNamesOf, h]

theorem commandTypeNamesOf_error (c : glbBuild) (n : String) (e : glbResult)
    (h : glbBuildFindCommand c n = .error e) :
    commandTypeNamesOf c n = [] := by
  simp [commandTypeNamesOf, h]

theorem commands_run (c : glbBuild) (cmds : List String) (l : List String) :
    ∃ r pre, pre <+: cmds.flatMap (commandTypeNamesOf c) ∧
      (∀ out, RequireTypes_commands (setLedger c l) cmds out =
        (r, setLedger c (l ++ newNames c l pre), out ++ typesText c (newNames c l pre))) ∧
      (r = none ∨ r = some GLB_ERROR) ∧
      (r = none → pre = cmds.flatMap (commandTypeNamesOf c)) ∧
      (r = none ↔ ∀ n ∈ cmds, resolvesCommand c n = true) := by
  induction cmds generalizing l with
  | nil =>
    exact ⟨none, [], List.prefix_refl _, fun out => by simp [RequireTypes_commands],
      Or.inl rfl, fun _ => rfl, by simp⟩
  | cons n rest ih =>
    cases hf : glbBuildFindCommand c n with
    | error e =>
      have he := findCommand_error c n e hf
      subst he
      refine ⟨some GLB_ERROR, [], List.nil_prefix, ?_, Or.inr rfl, by simp, ?_⟩
      · intro out
        unfold RequireTypes_commands
        simp [hf]
      · constructor
        · intro e; cases e
        · intro h
          have := h n (List.mem_cons_self _ _)
          rw [resolvesCommand_true_iff] at this
          obtain ⟨t, ht⟩ := this
          rw [hf] at ht; cases ht
    | ok cmd =>
      have hnames := commandTypeNamesOf_ok c n cmd hf
      obtain ⟨r, pre, hpre, hrun, hr, hall, hiff⟩ :=
        ih (l ++ newNames c l (commandTypeNames cmd))
      refine ⟨r, commandTypeNames cmd ++ pre, ?_, ?_, hr, ?_, ?_⟩
      · simp only [List.flatMap_cons, hnames]
        exact (List.prefix_append_right_inj _).mpr hpre
      · intro out
        unfold RequireTypes_commands
        simp only [findCommand_setLedger, hf]
        have hstep : (if cmd.returnType ≠ "" then
              (glbBuildGenerateCode_C_Main_Type (setLedger c l) cmd.returnType out).2
            else (setLedger c l, out)) =
            (setLedger c (l ++ newNames c l
                (if cmd.returnType ≠ "" then [cmd.returnType] else [])),
              out ++ typesText c (newNames c l
                (if cmd.returnType ≠ "" then [cmd.returnType] else []))) := by
          by_cases hrt : cmd.returnType = ""
          · simp [hrt]
          · simp [hrt, type_run]
        rw [hstep]
        simp only [requireTypes_params_run]
        have hA : newNames c l (commandTypeNames cmd) =
            newNames c l (if cmd.returnType ≠ "" then [cmd.returnType] else []) ++
              newNames c (l ++ newNames c l
                (if cmd.returnType ≠ "" then [cmd.returnType] else []))
                (paramTypeNames cmd.params) := by
          unfold commandTypeNames
          rw [newNames_append]
        rw [List.append_assoc, String.append_assoc, ← typesText_append, ← hA, hrun,
          newNames_append c l (commandTypeNames cmd) pre]
        simp [String.append_assoc]
      · intro e
        rw [hall e]
        simp [hnames]
      · rw [hiff]
        constructor
        · intro h m hm
          rcases List.mem_cons.mp hm with e | hm
          · subst e; exact (resolvesCommand_true_iff c m).mpr ⟨cmd, hf⟩
          · exact h m hm
        · intro h m hm
          exact h m (List.mem_cons_of_mem _ hm)

theorem requireTypesOK_grow (c : glbBuild) (l names : List String) (req : glbRequire) :
    requireTypesOK c (l ++ newNames c l names) req ↔ requireTypesOK c l req := by
  unfold requireTypesOK
  constructor
  · rintro ⟨h1, h2⟩
    exact ⟨fun n hn => (passesType_grow c l names n).mp (h1 n hn), h2⟩
  · rintro ⟨h1, h2⟩
    exact ⟨fun n hn => (passesType_grow c l names n).mpr (h1 n hn), h2⟩

theorem requireTypes_run (c : glbBuild) (req : glbRequire) (l : List String) :
    ∃ r pre, pre <+: requireTypeNames c req ∧
      (∀ out, glbBuildGenerateCode_C_Main_RequireTypes (setLedger c l) req out =
        (r, setLedger c (l ++ newNames c l pre), out ++ typesText c (newNames c l pre))) ∧
      (r = GLB_SUCCESS ∨ r = GLB_ERROR) ∧
      (r = GLB_SUCCESS → pre = requireTypeNames c req) ∧
      (r = GLB_SUCCESS ↔ requireTypesOK c l req) := by
  obtain ⟨r1, pre1, hpre1, hrun1, hr1, hall1, hiff1⟩ := standalone_run c req.types l
  rcases hr1 with e1 | e1
  · subst e1
    have hp1 := hall1 rfl
    subst hp1
    obtain ⟨r2, pre2, hpre2, hrun2, hr2, hall2, hiff2⟩ :=
      commands_run c req.commands (l ++ newNames c l req.types)
    have hrun : ∀ out, glbBuildGenerateCode_C_Main_RequireTypes (setLedger c l) req out =
        (r2.getD GLB_SUCCESS,
          setLedger c (l ++ newNames c l (req.types ++ pre2)),
          out ++ typesText c (newNames c l (req.types ++ pre2))) := by
      intro out
      unfold glbBuildGenerateCode_C_Main_RequireTypes
      rw [hrun1]
      simp only []
      rw [hrun2, newNames_append]
      rcases hr2 with e2 | e2 <;> subst e2 <;> simp [String.append_assoc]
    refine ⟨_, req.types ++ pre2, ?_, hrun, ?_, ?_, ?_⟩
    · exact (List.prefix_append_right_inj _).mpr hpre2
    · rcases hr2 with e2 | e2 <;> subst e2 <;> simp
    · rcases hr2 with e2 | e2
      · subst e2; intro _; rw [hall2 rfl]; rfl
      · subst e2; intro h; exact absurd h (by decide)
    · unfold requireTypesOK
      rcases hr2 with e2 | e2
      · subst e2
        exact ⟨fun _ => ⟨hiff1.mp rfl, hiff2.mp rfl⟩, fun _ => rfl⟩
      · subst e2
        constructor
        · intro h; exact absurd h (by decide)
        · rintro ⟨_, h⟩
          have := hiff2.mpr h
          cases this
  · subst e1
    refine ⟨GLB_ERROR, pre1, ?_, ?_, Or.inr rfl, ?_, ?_⟩
    · exact hpre1.trans (List.prefix_append _ _)
    · intro out
      unfold glbBuildGenerateCode_C_Main_RequireTypes
      rw [hrun1]
    · intro h; exact absurd h (by decide)
    · unfold requireTypesOK
      constructor
      · intro h; exact absurd h (by decide)
      · rintro ⟨h, _⟩
        have := hiff1.mpr h
        cases this

theorem typesPass_run (c : glbBuild) (reqs : List glbRequire) (l : List String) :
    ∃ r pre, pre <+: reqs.flatMap (requireTypeNames c) ∧
      (∀ out, requiresLoop glbBuildGenerateCode_C_Main_RequireTypes (setLedger c l) reqs out =
        (r, setLedger c (l ++ newNames c l pre), out ++ typesText c (newNames c l pre))) ∧
      (r = none ∨ r = some GLB_ERROR) ∧
      (r = none → pre = reqs.flatMap (requireTypeNames c)) ∧
      (r = none ↔ ∀ req ∈ reqs, requireTypesOK c l req) := by
  induction reqs generalizing l with
  | nil =>
    exact ⟨none, [], List.prefix_refl _, fun out => by simp [requiresLoop],
      Or.inl rfl, fun _ => rfl, by simp⟩
  | cons req rest ih =>
    obtain ⟨r1, pre1, hpre1, hrun1, hr1, hall1, hiff1⟩ := requireTypes_run c req l
    rcases hr1 with e1 | e1
    · subst e1
      have hp1 := hall1 rfl
      subst hp1
      obtain ⟨r, pre, hpre, hrun, hr, hall, hiff⟩ :=
        ih (l ++ newNames c l (requireTypeNames c req))
      refine ⟨r, requireTypeNames c req ++ pre, ?_, ?_, hr, ?_, ?_⟩
      · simp only [List.flatMap_cons]
        exact (List.prefix_append_right_inj _).mpr hpre
      · intro out
        unfold requiresLoop
        rw [hrun1]
        simp only [ne_eq, not_true_eq_false, if_false]
        rw [hrun, newNames_append]
        simp [String.append_assoc]
      · intro e; rw [hall e]; simp
      · rw [hiff]
        constructor
        · intro h m hm
          rcases List.mem_cons.mp hm with e | hm
          · subst e; exact hiff1.mp rfl
          · exact (requireTypesOK_grow c l _ m).mp (h m hm)
        · intro h m hm
          exact (requireTypesOK_grow c l _ m).mpr (h m (List.mem_cons_of_mem _ hm))
    · subst e1
      refine ⟨some GLB_ERROR, pre1, ?_, ?_, Or.inr rfl, by simp, ?_⟩
      · simp only [List.flatMap_cons]
        exact hpre1.trans (List.prefix_append _ _)
      · intro out
        unfold requiresLoop
        rw [hrun1]
        have h1 : (GLB_ERROR : glbResult) ≠ GLB_SUCCESS := by decide
        simp [h1]
      · constructor
        · intro e; cases e
        · intro h
          have := hiff1.mpr (h req (List.mem_cons_self _ _))
          exact absurd this (by decide)

/-! ## The enums pass and the commands pass -/

@[simp] theorem enumsText_nil (c : glbBuild) : enumsText c [] = "" := rfl
@[simp] theorem enumsText_append (c : glbBuild) (a b : List String) :
    enumsText c (a ++ b) = enumsText c a ++ enumsText c b := by
  simp [enumsText]
@[simp] theorem enumsText_setLedger (c : glbBuild) (l g : List String) :
    enumsText (setLedger c l) g = enumsText c g := rfl
@[simp] theorem commandsText_nil (c : glbBuild) : commandsText c [] = "" := rfl
@[simp] theorem commandsText_append (c : glbBuild) (a b : List String) :
    commandsText c (a ++ b) = commandsText c a ++ commandsText c b := by
  simp [commandsText]
@[simp] theorem commandsText_setLedger (c : glbBuild) (l g : List String) :
    commandsText (setLedger c l) g = commandsText c g := rfl

theorem toupper_eq (ch : Char) : toupper ch = ch.toUpper := by
  unfold toupper Char.toUpper
  have h1 : ('a' ≤ ch) ↔ ch.toNat ≥ 97 := by
    rw [Char.le_def]; rfl
  have h2 : (ch ≤ 'z') ↔ ch.toNat ≤ 122 := by
    rw [Char.le_def]; rfl
  simp only [h1, h2]

theorem glbToUpperLoop_eq (cs : List Char) (upper : String) :
    glbToUpperLoop cs upper = upper ++ String.mk (cs.map Char.toUpper) := by
  induction cs generalizing upper with
  | nil =>
    simp only [glbToUpperLoop, List.map_nil]
    exact (String.append_empty upper).symm
  | cons ch rest ih =>
    simp only [glbToUpperLoop, ih, toupper_eq, List.map_cons]
    apply String.ext
    simp [String.push]

theorem glbToUpper_eq (s : String) : glbToUpper s = specUpper s := by
  unfold glbToUpper specUpper
  rw [glbToUpperLoop_eq]
  simp

theorem intercalate_go_eq (acc : String) (xs : List String) :
    String.intercalate.go acc ", " xs = acc ++ concatAll (xs.map (fun x => ", " ++ x)) := by
  induction xs generalizing acc with
  | nil => simp [String.intercalate.go]
  | cons x rest ih =>
    simp [String.intercalate.go, ih, String.append_assoc]

theorem requireCommands_params_succ (params : List glbCommandParam) (i : Nat) (out : String) :
    RequireCommands_params params (i + 1) out =
      out ++ concatAll ((params.map (fun p => p.typeC ++ " " ++ p.name)).map
        (fun x => ", " ++ x)) := by
  induction params generalizing i out with
  | nil => simp [RequireCommands_params]
  | cons p rest ih =>
    simp [RequireCommands_params, ih, String.append_assoc]

theorem requireCommands_params_eq (p : glbCommandParam) (rest : List glbCommandParam)
    (out : String) :
    RequireCommands_params (p :: rest) 0 out = out ++ specParamList (p :: rest) := by
  simp [RequireCommands_params, requireCommands_params_succ, specParamList,
    String.intercalate, intercalate_go_eq, String.append_assoc]

theorem enumsLoop_run (ctx : glbBuild) (names : List String) :
    ∃ r pre, pre <+: names ∧
      (∀ out, RequireEnums_loop ctx names out = (r, ctx, out ++ enumsText ctx pre)) ∧
      (r = none ∨ r = some GLB_ERROR) ∧ (r = none → pre = names) ∧
      (r = none ↔ ∀ n ∈ names, resolvesEnum ctx n = true) := by
  induction names with
  | nil =>
    exact ⟨none, [], List.prefix_refl _, fun out => by simp [RequireEnums_loop],
      Or.inl rfl, fun _ => rfl, by simp⟩
  | cons n rest ih =>
    cases hf : glbBuildFindEnum ctx n with
    | error e =>
      have he := findEnum_error ctx n e hf
      subst he
      refine ⟨some GLB_ERROR, [], List.nil_prefix, ?_, Or.inr rfl, by simp, ?_⟩
      · intro out
        unfold RequireEnums_loop
        simp [hf]
      · constructor
        · intro e; cases e
        · intro h
          have := h n (List.mem_cons_self _ _)
          rw [resolvesEnum_true_iff] at this
          obtain ⟨t, ht⟩ := this
          rw [hf] at ht; cases ht
    | ok en =>
      obtain ⟨r, pre, hpre, hrun, hr, hall, hiff⟩ := ih
      refine ⟨r, n :: pre, (List.prefix_cons_inj n).mpr hpre, ?_, hr, ?_, ?_⟩
      · intro out
        unfold RequireEnums_loop
        simp only [hf]
        rw [hrun]
        have : enumsText ctx (n :: pre) = enumLine ctx n ++ enumsText ctx pre := by
          simp [enumsText]
        rw [this]
        simp [enumLine, hf, String.append_assoc]
      · intro e; rw [hall e]
      · rw [hiff]
        constructor
        · intro h m hm
          rcases List.mem_cons.mp hm with e | hm
          · subst e; exact (resolvesEnum_true_iff ctx m).mpr ⟨en, hf⟩
          · exact h m hm
        · intro h m hm
          exact h m (List.mem_cons_of_mem _ hm)

theorem commandsLoop_run (ctx : glbBuild) (names : List String) :
    ∃ r pre, pre <+: names ∧
      (∀ out, RequireCommands_loop ctx names out = (r, ctx, out ++ commandsText ctx pre)) ∧
      (r = none ∨ r = some GLB_ERROR) ∧ (r = none → pre = names) ∧
      (r = none ↔ ∀ n ∈ names, resolvesCommand ctx n = true) := by
  induction names with
  | nil =>
    exact ⟨none, [], List.prefix_refl _, fun out => by simp [RequireCommands_loop],
      Or.inl rfl, fun _ => rfl, by simp⟩
  | cons n rest ih =>
    cases hf : glbBuildFindCommand ctx n with
    | error e =>
      have he := findCommand_error ctx n e hf
      subst he
      refine ⟨some GLB_ERROR, [], List.nil_prefix, ?_, Or.inr rfl, by simp, ?_⟩
      · intro out
        unfold RequireCommands_loop
        simp [hf]
      · constructor
        · intro e; cases e
        · intro h
          have := h n (List.mem_cons_self _ _)
          rw [resolvesCommand_true_iff] at this
          obtain ⟨t, ht⟩ := this
          rw [hf] at ht; cases ht
    | ok cmd =>
      obtain ⟨r, pre, hpre, hrun, hr, hall, hiff⟩ := ih
      refine ⟨r, n :: pre, (List.prefix_cons_inj n).mpr hpre, ?_, hr, ?_, ?_⟩
      · intro out
        unfold RequireCommands_loop
        simp only [hf]
        rw [hrun]
        have : commandsText ctx (n :: pre) = commandLine ctx n ++ commandsText ctx pre := by
          simp [commandsText]
        rw [this]
        have hline : (if cmd.params.length > 0 then
              RequireCommands_params cmd.params 0
                (out ++ ("typedef " ++ cmd.returnTypeC ++ " (APIENTRYP PFN" ++
                  glbToUpper cmd.name ++ "PROC)("))
            else out ++ ("typedef " ++ cmd.returnTypeC ++ " (APIENTRYP PFN" ++
                  glbToUpper cmd.name ++ "PROC)(") ++ "void") ++ ");\n" =
            out ++ commandLine ctx n := by
          simp only [commandLine, hf, specCommandLine, glbToUpper_eq]
          cases hps : cmd.params with
          | nil => simp [specParamList, String.append_assoc]
          | cons p ps =>
            simp only [List.length_cons, gt_iff_lt, Nat.zero_lt_succ, if_true,
              requireCommands_params_eq]
            simp [String.append_assoc]
        rw [hline]
        simp [String.append_assoc]
      · intro e; rw [hall e]
      · rw [hiff]
        constructor
        · intro h m hm
          rcases List.mem_cons.mp hm with e | hm
          · subst e; exact (resolvesCommand_true_iff ctx m).mpr ⟨cmd, hf⟩
          · exact h m hm
        · intro h m hm
          exact h m (List.mem_cons_of_mem _ hm)

theorem requireEnums_run (ctx : glbBuild) (req : glbRequire) :
    ∃ r pre, pre <+: req.enums ∧
      (∀ out, glbBuildGenerateCode_C_Main_RequireEnums ctx req out =
        (r, ctx, out ++ enumsText ctx pre)) ∧
      (r = GLB_SUCCESS ∨ r = GLB_ERROR) ∧ (r = GLB_SUCCESS → pre = req.enums) ∧
      (r = GLB_SUCCESS ↔ ∀ n ∈ req.enums, resolvesEnum ctx n = true) := by
  obtain ⟨r, pre, hpre, hrun, hr, hall, hiff⟩ := enumsLoop_run ctx req.enums
  rcases hr with e | e
  · subst e
    refine ⟨GLB_SUCCESS, pre, hpre, ?_, Or.inl rfl, fun _ => hall rfl, ?_⟩
    · intro out; unfold glbBuildGenerateCode_C_Main_RequireEnums; rw [hrun]
    · exact ⟨fun _ => hiff.mp rfl, fun _ => rfl⟩
  · subst e
    refine ⟨GLB_ERROR, pre, hpre, ?_, Or.inr rfl, ?_, ?_⟩
    · intro out; unfold glbBuildGenerateCode_C_Main_RequireEnums; rw [hrun]
    · intro h; exact absurd h (by decide)
    · exact ⟨fun h => absurd h (by decide), fun h => by have := hiff.mpr h; cases this⟩

theorem requireCommands_run (ctx : glbBuild) (req : glbRequire) :
    ∃ r pre, pre <+: req.commands ∧
      (∀ out, glbBuildGenerateCode_C_Main_RequireCommands ctx req out =
        (r, ctx, out ++ commandsText ctx pre)) ∧
      (r = GLB_SUCCESS ∨ r = GLB_ERROR) ∧ (r = GLB_SUCCESS → pre = req.commands) ∧
      (r = GLB_SUCCESS ↔ ∀ n ∈ req.commands, resolvesCommand ctx n = true) := by
  obtain ⟨r, pre, hpre, hrun, hr, hall, hiff⟩ := commandsLoop_run ctx req.commands
  rcases hr with e | e
  · subst e
    refine ⟨GLB_SUCCESS, pre, hpre, ?_, Or.inl rfl, fun _ => hall rfl, ?_⟩
    · intro out; unfold glbBuildGenerateCode_C_Main_RequireCommands; rw [hrun]
    · exact ⟨fun _ => hiff.mp rfl, fun _ => rfl⟩
  · subst e
    refine ⟨GLB_ERROR, pre, hpre, ?_, Or.inr rfl, ?_, ?_⟩
    · intro out; unfold glbBuildGenerateCode_C_Main_RequireCommands; rw [hrun]
    · intro h; exact absurd h (by decide)
    · exact ⟨fun h => absurd h (by decide), fun h => by have := hiff.mpr h; cases this⟩

/-- A loop over Requires whose step leaves the context alone. -/
theorem requiresLoop_stateless
    (step : glbBuild → glbRequire → String → glbResult × glbBuild × String)
    (ctx : glbBuild) (names : glbRequire → List String) (text : List String → String)
    (ok : glbRequire → Prop)
    (htext : ∀ a b, text (a ++ b) = text a ++ text b) (htext0 : text [] = "")
    (hstep : ∀ req, ∃ r pre, pre <+: names req ∧
      (∀ out, step ctx req out = (r, ctx, out ++ text pre)) ∧
      (r = GLB_SUCCESS ∨ r = GLB_ERROR) ∧ (r = GLB_SUCCESS → pre = names req) ∧
      (r = GLB_SUCCESS ↔ ok req))
    (reqs : List glbRequire) :
    ∃ r pre, pre <+: reqs.flatMap names ∧
      (∀ out, requiresLoop step ctx reqs out = (r, ctx, out ++ text pre)) ∧
      (r = none ∨ r = some GLB_ERROR) ∧ (r = none → pre = reqs.flatMap names) ∧
      (r = none ↔ ∀ req ∈ reqs, ok req) := by
  induction reqs with
  | nil =>
    exact ⟨none, [], List.prefix_refl _, fun out => by simp [requiresLoop, htext0],
      Or.inl rfl, fun _ => rfl, by simp⟩
  | cons req rest ih =>
    obtain ⟨r1, pre1, hpre1, hrun1, hr1, hall1, hiff1⟩ := hstep req
    rcases hr1 with e1 | e1
    · subst e1
      have hp1 := hall1 rfl
      obtain ⟨r, pre, hpre, hrun, hr, hall, hiff⟩ := ih
      refine ⟨r, names req ++ pre, ?_, ?_, hr, ?_, ?_⟩
      · simp only [List.flatMap_cons]
        exact (List.prefix_append_right_inj _).mpr hpre
      · intro out
        unfold requiresLoop
        rw [hrun1]
        simp only [ne_eq, not_true_eq_false, if_false]
        rw [hrun, htext, hp1]
        simp [String.append_assoc]
      · intro e; rw [hall e]; simp
      · rw [hiff]
        constructor
        · intro h m hm
          rcases List.mem_cons.mp hm with e | hm
          · subst e; exact hiff1.mp rfl
          · exact h m hm
        · intro h m hm
          exact h m (List.mem_cons_of_mem _ hm)
    · subst e1
      refine ⟨some GLB_ERROR, pre1, ?_, ?_, Or.inr rfl, by simp, ?_⟩
      · simp only [List.flatMap_cons]
        exact hpre1.trans (List.prefix_append _ _)
      · intro out
        unfold requiresLoop
        rw [hrun1]
        have h1 : (GLB_ERROR : glbResult) ≠ GLB_SUCCESS := by decide
        simp [h1]
      · constructor
        · intro e; cases e
        · intro h
          have := hiff1.mpr (h req (List.mem_cons_self _ _))
          exact absurd this (by decide)

theorem enumsPass_run (ctx : glbBuild) (reqs : List glbRequire) :
    ∃ r pre, pre <+: reqs.flatMap (fun r => r.enums) ∧
      (∀ out, requiresLoop glbBuildGenerateCode_C_Main_RequireEnums ctx reqs out =
        (r, ctx, out ++ enumsText ctx pre)) ∧
      (r = none ∨ r = some GLB_ERROR) ∧ (r = none → pre = reqs.flatMap (fun r => r.enums)) ∧
      (r = none ↔ ∀ req ∈ reqs, ∀ n ∈ req.enums, resolvesEnum ctx n = true) :=
  requiresLoop_stateless _ ctx (fun r => r.enums) (enumsText ctx) _
    (enumsText_append ctx) rfl (requireEnums_run ctx) reqs

theorem commandsPass_run (ctx : glbBuild) (reqs : List glbRequire) :
    ∃ r pre, pre <+: reqs.flatMap (fun r => r.commands) ∧
      (∀ out, requiresLoop glbBuildGenerateCode_C_Main_RequireCommands ctx reqs out =
        (r, ctx, out ++ commandsText ctx pre)) ∧
      (r = none ∨ r = some GLB_ERROR) ∧
      (r = none → pre = reqs.flatMap (fun r => r.commands)) ∧
      (r = none ↔ ∀ req ∈ reqs, ∀ n ∈ req.commands, resolvesCommand ctx n = true) :=
  requiresLoop_stateless _ ctx (fun r => r.commands) (commandsText ctx) _
    (commandsText_append ctx) rfl (requireCommands_run ctx) reqs

/-! ## Features and Extensions -/

theorem feature_eq_emitBlock (ctx : glbBuild) (f : glbFeature) (out : String) :
    glbBuildGenerateCode_C_Main_Feature ctx f out = emitBlock ctx f.name f.requires out := rfl

theorem extension_eq_emitBlock (ctx : glbBuild) (e : glbExtension) (out : String) :
    glbBuildGenerateCode_C_Main_Extension ctx e out = emitBlock ctx e.name e.requires out := rfl

theorem emitBlock_run (c : glbBuild) (name : String) (reqs : List glbRequire)
    (l : List String) :
    ∃ r pre δ, pre <+: blockTypeNames c reqs ∧
      (∀ out, emitBlock (setLedger c l) name reqs out =
        (r, setLedger c (l ++ newNames c l pre), out ++ δ)) ∧
      (r = GLB_SUCCESS ∨ r = GLB_ERROR) ∧
      (r = GLB_SUCCESS → pre = blockTypeNames c reqs ∧ δ = blockText c l name reqs) ∧
      (r = GLB_SUCCESS ↔ blockOK c l reqs) := by
  obtain ⟨r1, pre1, hpre1, hrun1, hr1, hall1, hiff1⟩ := typesPass_run c reqs l
  obtain ⟨r2, pre2, hpre2, hrun2, hr2, hall2, hiff2⟩ :=
    enumsPass_run (setLedger c (l ++ newNames c l pre1)) reqs
  obtain ⟨r3, pre3, hpre3, hrun3, hr3, hall3, hiff3⟩ :=
    commandsPass_run (setLedger c (l ++ newNames c l pre1)) reqs
  have hcmd : (∀ req ∈ reqs, requireTypesOK c l req) →
      ∀ req ∈ reqs, ∀ n ∈ req.commands,
        resolvesCommand (setLedger c (l ++ newNames c l pre1)) n = true :=
    fun h req hreq n hn => (h req hreq).2 n hn
  rcases hr1 with e1 | e1
  · subst e1
    have hp1 := hall1 rfl
    rcases hr2 with e2 | e2
    · subst e2
      have hp2 := hall2 rfl
      have e3 : r3 = none := hiff3.mpr (hcmd (hiff1.mp rfl))
      subst e3
      have hp3 := hall3 rfl
      refine ⟨GLB_SUCCESS, pre1,
        "#ifndef " ++ name ++ "\n" ++ ("#define " ++ name ++ " 1\n") ++ typesText c (newNames c l pre1) ++ enumsText c pre2 ++ commandsText c pre3 ++ ("#endif /* " ++ name ++ " */\n"),
        hpre1, ?_, Or.inl rfl, ?_, ?_⟩
      · intro out
        unfold emitBlock
        simp only [hrun1, hrun2, hrun3]
        simp [String.append_assoc]
      · intro _
        refine ⟨hp1, ?_⟩
        rw [hp1, hp2, hp3]
        rfl
      · refine ⟨fun _ => ?_, fun _ => rfl⟩
        intro req hreq
        exact ⟨hiff1.mp rfl req hreq, hiff2.mp rfl req hreq⟩
    · subst e2
      refine ⟨GLB_ERROR, pre1,
        "#ifndef " ++ name ++ "\n" ++ ("#define " ++ name ++ " 1\n") ++ typesText c (newNames c l pre1) ++ enumsText c pre2,
        hpre1, ?_, Or.inr rfl, ?_, ?_⟩
      · intro out
        unfold emitBlock
        simp only [hrun1, hrun2]
        simp [String.append_assoc]
      · intro h; exact absurd h (by decide)
      · refine ⟨fun h => absurd h (by decide), fun h => ?_⟩
        have := hiff2.mpr (fun req hreq => (h req hreq).2)
        cases this
  · subst e1
    refine ⟨GLB_ERROR, pre1,
      "#ifndef " ++ name ++ "\n" ++ ("#define " ++ name ++ " 1\n") ++ typesText c (newNames c l pre1),
      hpre1, ?_, Or.inr rfl, ?_, ?_⟩
    · intro out
      unfold emitBlock
      simp only [hrun1]
      simp [String.append_assoc]
    · intro h; exact absurd h (by decide)
    · refine ⟨fun h => absurd h (by decide), fun h => ?_⟩
      have := hiff1.mpr (fun req hreq => (h req hreq).1)
      cases this

theorem blockOK_grow (c : glbBuild) (l names : List String) (reqs : List glbRequire) :
    blockOK c (l ++ newNames c l names) reqs ↔ blockOK c l reqs := by
  unfold blockOK
  constructor
  · intro h req hreq
    exact ⟨(requireTypesOK_grow c l names req).mp (h req hreq).1, (h req hreq).2⟩
  · intro h req hreq
    exact ⟨(requireTypesOK_grow c l names req).mpr (h req hreq).1, (h req hreq).2⟩

theorem unitsOK_grow (c : glbBuild) (l names : List String)
    (units : List (String × List glbRequire)) :
    unitsOK c (l ++ newNames c l names) units ↔ unitsOK c l units := by
  unfold unitsOK
  constructor
  · intro h u hu; exact (blockOK_grow c l names u.2).mp (h u hu)
  · intro h u hu; exact (blockOK_grow c l names u.2).mpr (h u hu)

theorem unitsLoop_run (c : glbBuild) (units : List (String × List glbRequire))
    (l : List String) (counter : Nat) :
    ∃ r pre δ, pre <+: unitsTypeNames c units ∧
      (∀ out, unitsLoop (setLedger c l) units counter out =
        (r, setLedger c (l ++ newNames c l pre), out ++ δ)) ∧
      (r = none ∨ r = some GLB_ERROR) ∧
      (r = none → pre = unitsTypeNames c units ∧ δ = unitsText c counter l units) ∧
      (r = none ↔ unitsOK c l units) := by
  induction units generalizing l counter with
  | nil =>
    exact ⟨none, [], "", List.prefix_refl _, fun out => by simp [unitsLoop],
      Or.inl rfl, fun _ => ⟨rfl, rfl⟩, by simp [unitsOK]⟩
  | cons u rest ih =>
    obtain ⟨r1, pre1, δ1, hpre1, hrun1, hr1, hall1, hiff1⟩ := emitBlock_run c u.1 u.2 l
    rcases hr1 with e1 | e1
    · subst e1
      obtain ⟨hp1, hδ1⟩ := hall1 rfl
      obtain ⟨r, pre, δ, hpre, hrun, hr, hall, hiff⟩ :=
        ih (l ++ newNames c l (blockTypeNames c u.2)) (counter + 1)
      refine ⟨r, blockTypeNames c u.2 ++ pre,
        (if counter > 0 then "\n" else "") ++ δ1 ++ δ, ?_, ?_, hr, ?_, ?_⟩
      · simp only [unitsTypeNames, List.flatMap_cons]
        exact (List.prefix_append_right_inj _).mpr hpre
      · intro out
        unfold unitsLoop
        rw [hrun1]
        simp only [ne_eq, not_true_eq_false, if_false]
        rw [hp1, hrun, newNames_append]
        by_cases hc : counter > 0 <;> simp [hc, String.append_assoc]
      · intro e
        obtain ⟨ha, hb⟩ := hall e
        refine ⟨?_, ?_⟩
        · rw [ha]; simp [unitsTypeNames]
        · rw [hb, hδ1]; rfl
      · rw [hiff, unitsOK_grow]
        unfold unitsOK
        constructor
        · intro h m hm
          rcases List.mem_cons.mp hm with e | hm
          · subst e; exact hiff1.mp rfl
          · exact h m hm
        · intro h m hm
          exact h m (List.mem_cons_of_mem _ hm)
    · subst e1
      refine ⟨some GLB_ERROR, pre1, (if counter > 0 then "\n" else "") ++ δ1, ?_, ?_,
        Or.inr rfl, by simp, ?_⟩
      · simp only [unitsTypeNames, List.flatMap_cons]
        exact hpre1.trans (List.prefix_append _ _)
      · intro out
        unfold unitsLoop
        rw [hrun1]
        have h1 : (GLB_ERROR : glbResult) ≠ GLB_SUCCESS := by decide
        by_cases hc : counter > 0 <;> simp [h1, hc, String.append_assoc]
      · constructor
        · intro e; cases e
        · intro h
          have := hiff1.mpr (h u (List.mem_cons_self _ _))
          exact absurd this (by decide)

theorem featuresByAPI_loop_eq (api : String) (ctx : glbBuild) (fs : List glbFeature)
    (counter : Nat) (out : String) :
    FeaturesByAPI_loop api ctx fs counter out =
      unitsLoop ctx ((fs.filter (fun f => f.api = api)).map (fun f => (f.name, f.requires)))
        counter out := by
  induction fs generalizing ctx counter out with
  | nil => simp [FeaturesByAPI_loop, unitsLoop]
  | cons f rest ih =>
    unfold FeaturesByAPI_loop
    by_cases h : f.api = api
    · simp only [h, if_true, List.filter_cons, decide_True, List.map_cons, unitsLoop,
        feature_eq_emitBlock]
      simp only [ih]
    · simp only [h, if_false, List.filter_cons, decide_False]
      exact ih ctx counter out

theorem main_extensions_eq (select : glbExtension → Bool) (ctx : glbBuild)
    (es : List glbExtension) (counter : Nat) (out : String) :
    Main_extensions select ctx es counter out =
      unitsLoop ctx ((es.filter select).map (fun e => (e.name, e.requires))) counter out := by
  induction es generalizing ctx counter out with
  | nil => simp [Main_extensions, unitsLoop]
  | cons e rest ih =>
    unfold Main_extensions
    by_cases h : select e = true
    · simp only [h, if_true, List.filter_cons, List.map_cons, unitsLoop,
        extension_eq_emitBlock]
      simp only [ih]
    · simp only [h, if_false, List.filter_cons]
      exact ih ctx counter out

/-! ## The whole run -/

theorem unitsTypeNames_append (c : glbBuild) (a b : List (String × List glbRequire)) :
    unitsTypeNames c (a ++ b) = unitsTypeNames c a ++ unitsTypeNames c b := by
  simp [unitsTypeNames]

theorem unitsOK_append (c : glbBuild) (l : List String)
    (a b : List (String × List glbRequire)) :
    unitsOK c l (a ++ b) ↔ unitsOK c l a ∧ unitsOK c l b := by
  unfold unitsOK
  constructor
  · intro h
    exact ⟨fun u hu => h u (List.mem_append_left _ hu),
      fun u hu => h u (List.mem_append_right _ hu)⟩
  · rintro ⟨h1, h2⟩ u hu
    rcases List.mem_append.mp hu with hu | hu
    · exact h1 u hu
    · exact h2 u hu

theorem stagesLoop_run (c : glbBuild)
    (stages : List (String × List (String × List glbRequire) × String)) (l : List String) :
    ∃ r pre δ, pre <+: unitsTypeNames c (stages.flatMap (fun s => s.2.1)) ∧
      (∀ out, stagesLoop (setLedger c l) stages out =
        (r, setLedger c (l ++ newNames c l pre), out ++ δ)) ∧
      (r = GLB_SUCCESS ∨ r = GLB_ERROR) ∧
      (r = GLB_SUCCESS →
        pre = unitsTypeNames c (stages.flatMap (fun s => s.2.1)) ∧
          δ = stagesText c l stages) ∧
      (r = GLB_SUCCESS ↔ unitsOK c l (stages.flatMap (fun s => s.2.1))) := by
  induction stages generalizing l with
  | nil =>
    exact ⟨GLB_SUCCESS, [], "", List.prefix_refl _, fun out => by simp [stagesLoop],
      Or.inl rfl, fun _ => ⟨rfl, rfl⟩, by simp [unitsOK]⟩
  | cons s rest ih =>
    obtain ⟨r1, pre1, δ1, hpre1, hrun1, hr1, hall1, hiff1⟩ := unitsLoop_run c s.2.1 l 0
    rcases hr1 with e1 | e1
    · subst e1
      obtain ⟨hp1, hδ1⟩ := hall1 rfl
      obtain ⟨r, pre, δ, hpre, hrun, hr, hall, hiff⟩ :=
        ih (l ++ newNames c l (unitsTypeNames c s.2.1))
      refine ⟨r, unitsTypeNames c s.2.1 ++ pre, s.1 ++ δ1 ++ s.2.2 ++ δ, ?_, ?_, hr, ?_, ?_⟩
      · simp only [List.flatMap_cons, unitsTypeNames_append]
        exact (List.prefix_append_right_inj _).mpr hpre
      · intro out
        unfold stagesLoop
        rw [hrun1]
        simp only []
        rw [hp1, hrun, newNames_append]
        simp [String.append_assoc]
      · intro e
        obtain ⟨ha, hb⟩ := hall e
        refine ⟨?_, ?_⟩
        · rw [ha]; simp [unitsTypeNames_append]
        · rw [hb, hδ1]; rfl
      · rw [hiff, unitsOK_grow, List.flatMap_cons, unitsOK_append]
        exact ⟨fun h => ⟨hiff1.mp rfl, h⟩, fun h => h.2⟩
    · subst e1
      refine ⟨GLB_ERROR, pre1, s.1 ++ δ1, ?_, ?_, Or.inr rfl, ?_, ?_⟩
      · simp only [List.flatMap_cons, unitsTypeNames_append]
        exact hpre1.trans (List.prefix_append _ _)
      · intro out
        unfold stagesLoop
        rw [hrun1]
        simp [String.append_assoc]
      · intro h; exact absurd h (by decide)
      · rw [List.flatMap_cons, unitsOK_append]
        refine ⟨fun h => absurd h (by decide), fun h => ?_⟩
        have := hiff1.mpr h.1
        cases this

theorem main_eq_stagesLoop (c : glbBuild) (l : List String) (out : String) :
    glbBuildGenerateCode_C_Main (setLedger c l) out =
      stagesLoop (setLedger c l) (mainStages c) out := by
  unfold glbBuildGenerateCode_C_Main glbBuildGenerateCode_C_Main_FeaturesByAPI
  simp only [featuresByAPI_loop_eq, main_extensions_eq, mainStages, stagesLoop,
    featureUnits, extensionUnits, setLedger_features, setLedger_extensions]
  have hne : (GLB_ERROR : glbResult) ≠ GLB_SUCCESS := by decide
  obtain ⟨r1, pre1, δ1, -, hrun1, hr1, -, -⟩ := unitsLoop_run c (featureUnits c "gl") l 0
  simp only [featureUnits] at hrun1
  simp only [hrun1, String.append_empty]
  rcases hr1 with e | e <;> subst e
  swap
  · simp [hne]
  simp only [ne_eq, not_true_eq_false, if_false, setLedger_features, setLedger_extensions]
  obtain ⟨r2, pre2, δ2, -, hrun2, hr2, -, -⟩ :=
    unitsLoop_run c (featureUnits c "wgl") (l ++ newNames c l pre1) 0
  simp only [featureUnits] at hrun2
  simp only [hrun2]
  rcases hr2 with e | e <;> subst e
  swap
  · simp [hne]
  simp only [ne_eq, not_true_eq_false, if_false, setLedger_features, setLedger_extensions]
  obtain ⟨r3, pre3, δ3, -, hrun3, hr3, -, -⟩ :=
    unitsLoop_run c (featureUnits c "glx")
      (l ++ newNames c l pre1 ++ newNames c (l ++ newNames c l pre1) pre2) 0
  simp only [featureUnits] at hrun3
  simp only [hrun3]
  rcases hr3 with e | e <;> subst e
  swap
  · simp [hne]
  simp only [ne_eq, not_true_eq_false, if_false, setLedger_features, setLedger_extensions,
    String.append_empty]
  generalize (l ++ newNames c l pre1 ++ newNames c (l ++ newNames c l pre1) pre2 ++
      newNames c (l ++ newNames c l pre1 ++ newNames c (l ++ newNames c l pre1) pre2) pre3)
    = l3
  obtain ⟨r4, pre4, δ4, -, hrun4, hr4, -, -⟩ :=
    unitsLoop_run c (extensionUnits c Main_selectGL) l3 0
  simp only [extensionUnits] at hrun4
  simp only [hrun4]
  rcases hr4 with e | e <;> subst e
  swap
  · rfl
  simp only [setLedger_extensions]
  generalize (l3 ++ newNames c l3 pre4) = l4
  obtain ⟨r5, pre5, δ5, -, hrun5, hr5, -, -⟩ :=
    unitsLoop_run c (extensionUnits c Main_selectWGL) l4 0
  simp only [extensionUnits] at hrun5
  simp only [hrun5]
  rcases hr5 with e | e <;> subst e
  swap
  · rfl
  simp only [setLedger_extensions]

theorem main_run (c : glbBuild) (l : List String) :
    ∃ r pre δ, pre <+: unitsTypeNames c (traversal c) ∧
      (∀ out, glbBuildGenerateCode_C_Main (setLedger c l) out =
        (r, setLedger c (l ++ newNames c l pre), out ++ δ)) ∧
      (r = GLB_SUCCESS ∨ r = GLB_ERROR) ∧
      (r = GLB_SUCCESS →
        pre = unitsTypeNames c (traversal c) ∧ δ = stagesText c l (mainStages c)) ∧
      (r = GLB_SUCCESS ↔ unitsOK c l (traversal c)) := by
  obtain ⟨r, pre, δ, hpre, hrun, hr, hall, hiff⟩ := stagesLoop_run c (mainStages c) l
  exact ⟨r, pre, δ, hpre, fun out => by rw [main_eq_stagesLoop, hrun], hr, hall, hiff⟩

theorem emitBlock_out (ctx : glbBuild) (name : String) (reqs : List glbRequire)
    (out : String) :
    emitBlock ctx name reqs out =
      ((emitBlock ctx name reqs "").1, (emitBlock ctx name reqs "").2.1,
        out ++ (emitBlock ctx name reqs "").2.2) := by
  obtain ⟨r, pre, δ, -, hrun, -, -, -⟩ := emitBlock_run ctx name reqs ctx.outputTypes
  simp only [setLedger_self] at hrun
  rw [hrun out, hrun ""]
  simp

theorem findEnumInner_name (es : List glbEnum) (n : String) (e : glbEnum)
    (h : glbBuildFindEnumInner es n = some e) : e.name = n := by
  induction es with
  | nil => simp [glbBuildFindEnumInner] at h
  | cons a r ih =>
    unfold glbBuildFindEnumInner at h
    by_cases ha : a.name = n
    · simp only [ha, if_true, Option.some.injEq] at h; rw [← h]; exact ha
    · simp only [ha, if_false] at h; exact ih h

theorem findEnum_name (c : glbBuild) (n : String) (e : glbEnum)
    (h : glbBuildFindEnum c n = .ok e) : e.name = n := by
  unfold glbBuildFindEnum at h
  generalize c.enums = bs at h
  induction bs with
  | nil => simp [glbBuildFindEnumLoop] at h
  | cons b r ih =>
    unfold glbBuildFindEnumLoop at h
    cases hi : glbBuildFindEnumInner b.enums n with
    | some x =>
      simp only [hi, Except.ok.injEq] at h
      rw [← h]; exact findEnumInner_name _ _ _ hi
    | none => simp only [hi] at h; exact ih h

theorem toupper_letter (ch : Char) (h1 : 97 ≤ ch.toNat) (h2 : ch.toNat ≤ 122) :
    (toupper ch).toNat = ch.toNat - 32 := by
  rw [toupper_eq]
  unfold Char.toUpper
  simp only [ge_iff_le, h1, h2, and_self, if_true]
  generalize ch.toNat = n at h1 h2
  interval_cases n <;> rfl

theorem toupper_other (ch : Char) (h : ch.toNat < 97 ∨ 122 < ch.toNat) : toupper ch = ch := by
  rw [toupper_eq]
  unfold Char.toUpper
  have : ¬ (ch.toNat ≥ 97 ∧ ch.toNat ≤ 122) := by omega
  simp only [this, if_false]

/-! ## Properties of the specification -/

/-- C1. End-to-end scenario: in the registry with the one Type GLint, the
enum GL_TRUE, the command glClear and the Feature GL_VERSION_1_0, emitting the
Feature from an empty ledger succeeds, records GLint and appends exactly the
guarded block with the typedef line, the `#define` line and the
function-pointer typedef, whatever the output held before. -/
theorem C1_end_to_end_scenario (codeOut : String) :
    scenarioCtx.outputTypes = [] ∧
    glbBuildGenerateCode_C_Main_Feature scenarioCtx scenarioFeature codeOut =
      (GLB_SUCCESS, { scenarioCtx with outputTypes := ["GLint"] },
        codeOut ++ "#ifndef GL_VERSION_1_0\n#define GL_VERSION_1_0 1\ntypedef int GLint;\n#define GL_TRUE 1\ntypedef void (APIENTRYP PFNGLCLEARPROC)(GLbitfield mask);\n#endif /* GL_VERSION_1_0 */\n") := by
  refine ⟨rfl, ?_⟩
  rw [feature_eq_emitBlock, emitBlock_out]
  have h : emitBlock scenarioCtx scenarioFeature.name scenarioFeature.requires "" =
      (GLB_SUCCESS, { scenarioCtx with outputTypes := ["GLint"] },
        "#ifndef GL_VERSION_1_0\n#define GL_VERSION_1_0 1\ntypedef int GLint;\n#define GL_TRUE 1\ntypedef void (APIENTRYP PFNGLCLEARPROC)(GLbitfield mask);\n#endif /* GL_VERSION_1_0 */\n") := by
    rfl
  rw [h]

/-- C4. For a type name other than "khrplatform" that resolves to the Type
`t`: when the name is not in the ledger, the emit-once step appends
`t.valueC` and a line break (nothing when `t.valueC` is empty) and adds the
name to the ledger; when the name is in the ledger, output and ledger are
unchanged; so the step changes the context exactly when the name was absent. -/
theorem C4_emit_once (context : glbBuild) (typeName codeOut : String) (t : glbType)
    (hk : typeName ≠ "khrplatform") (ht : glbBuildFindType context typeName = .ok t) :
    (typeName ∉ context.outputTypes →
      glbBuildGenerateCode_C_Main_Type context typeName codeOut =
        (GLB_SUCCESS, { context with outputTypes := context.outputTypes ++ [typeName] },
          if t.valueC = "" then codeOut else codeOut ++ t.valueC ++ "\n")) ∧
    (typeName ∈ context.outputTypes →
      glbBuildGenerateCode_C_Main_Type context typeName codeOut =
        (GLB_SUCCESS, context, codeOut)) ∧
    ((glbBuildGenerateCode_C_Main_Type context typeName codeOut).2.1 ≠ context ↔
      typeName ∉ context.outputTypes) := by
  have habs : typeName ∉ context.outputTypes →
      glbBuildGenerateCode_C_Main_Type context typeName codeOut =
        (GLB_SUCCESS, { context with outputTypes := context.outputTypes ++ [typeName] },
          if t.valueC = "" then codeOut else codeOut ++ t.valueC ++ "\n") := by
    intro hm
    rw [type_eq]
    simp only [hk, hm, if_false, ht, typeLine, setLedger]
    by_cases hv : t.valueC = ""
    · simp [hv]
    · simp [hv, String.append_assoc]
  have hpres : typeName ∈ context.outputTypes →
      glbBuildGenerateCode_C_Main_Type context typeName codeOut =
        (GLB_SUCCESS, context, codeOut) := by
    intro hm
    rw [type_eq]
    simp [hk, hm]
  refine ⟨habs, hpres, ?_⟩
  by_cases hm : typeName ∈ context.outputTypes
  · rw [hpres hm]; simp [hm]
  · rw [habs hm]
    simp only [hm, not_false_eq_true, iff_true]
    intro h
    have := congrArg glbBuild.outputTypes h
    simp at this

theorem C4_emit_once_witness :
    (("GLint" : String) ∉ scenarioCtx.outputTypes →
      glbBuildGenerateCode_C_Main_Type scenarioCtx "GLint" "" =
        (GLB_SUCCESS, { scenarioCtx with outputTypes := scenarioCtx.outputTypes ++ ["GLint"] },
          if ("typedef int GLint;" : String) = "" then ""
          else "" ++ "typedef int GLint;" ++ "\n")) ∧
    (("GLint" : String) ∈ scenarioCtx.outputTypes →
      glbBuildGenerateCode_C_Main_Type scenarioCtx "GLint" "" =
        (GLB_SUCCESS, scenarioCtx, "")) ∧
    ((glbBuildGenerateCode_C_Main_Type scenarioCtx "GLint" "").2.1 ≠ scenarioCtx ↔
      ("GLint" : String) ∉ scenarioCtx.outputTypes) :=
  C4_emit_once scenarioCtx "GLint" ""
    { name := "GLint", valueC := "typedef int GLint;", requires := "" } (by decide) rfl

/-- C7, as stated, fails: in the scenario registry the Require names the
command glClear, whose parameter has the semantic type GLbitfield; that name
is not "khrplatform", is not in the ledger and names no Type, and the types
pass of the Require still returns success. -/
theorem C7_counterexample :
    (∃ cmd, glbBuildFindCommand scenarioCtx "glClear" = .ok cmd ∧
      "glClear" ∈ scenarioRequire.commands ∧
      ∃ p ∈ cmd.params, p.type = "GLbitfield" ∧ p.type ≠ "") ∧
    ("GLbitfield" : String) ≠ "khrplatform" ∧
    ("GLbitfield" : String) ∉ scenarioCtx.outputTypes ∧
    glbBuildFindType scenarioCtx "GLbitfield" = .error GLB_ERROR ∧
    glbBuildGenerateCode_C_Main_RequireTypes scenarioCtx scenarioRequire "" =
      (GLB_SUCCESS, { scenarioCtx with outputTypes := ["GLint"] }, "typedef int GLint;\n") := by
  refine ⟨⟨_, rfl, by decide, _, List.mem_cons_self _ _, rfl, by decide⟩, by decide,
    by decide, rfl, rfl⟩

/-- C7, amended. An unresolved name of a Require's types list is a hard
error: if a name of the list is not "khrplatform", is not in the ledger and
names no Type, the types pass of the Require returns `GLB_ERROR`.  The
semantic types of the commands do not count: the pass succeeds exactly when
every name of the types list is "khrplatform", in the ledger or names a Type,
and every command name resolves. -/
theorem C7_unresolved_listed_type_is_error (context : glbBuild) (require : glbRequire)
    (codeOut : String) :
    (∀ n ∈ require.types, n ≠ "khrplatform" → n ∉ context.outputTypes →
      glbBuildFindType context n = .error GLB_ERROR →
      (glbBuildGenerateCode_C_Main_RequireTypes context require codeOut).1 = GLB_ERROR) ∧
    ((glbBuildGenerateCode_C_Main_RequireTypes context require codeOut).1 = GLB_SUCCESS ↔
      (∀ n ∈ require.types, n = "khrplatform" ∨ n ∈ context.outputTypes ∨
        ∃ t, glbBuildFindType context n = .ok t) ∧
      ∀ n ∈ require.commands, ∃ cmd, glbBuildFindCommand context n = .ok cmd) := by
  obtain ⟨r, pre, -, hrun, hr, -, hiff⟩ := requireTypes_run context require context.outputTypes
  simp only [setLedger_self] at hrun
  rw [hrun]
  simp only []
  have hok : requireTypesOK context context.outputTypes require ↔
      (∀ n ∈ require.types, n = "khrplatform" ∨ n ∈ context.outputTypes ∨
        ∃ t, glbBuildFindType context n = .ok t) ∧
      ∀ n ∈ require.commands, ∃ cmd, glbBuildFindCommand context n = .ok cmd := by
    unfold requireTypesOK passesType
    simp only [resolvesType_true_iff, resolvesCommand_true_iff]
  refine ⟨?_, hiff.trans hok⟩
  intro n hn hk hl hf
  rcases hr with e | e
  · exfalso
    have h := (hiff.mp e).1 n hn
    rcases h with h | h | h
    · exact hk h
    · exact hl h
    · rw [(resolvesType_false_iff context n).mpr hf] at h; cases h
  · exact e

theorem C7_unresolved_listed_type_is_error_witness :
    (glbBuildGenerateCode_C_Main_RequireTypes scenarioCtx missingTypeRequire "").1 =
      GLB_ERROR :=
  (C7_unresolved_listed_type_is_error scenarioCtx missingTypeRequire "").1 "GLmissing"
    (by decide) (by decide) (by decide) rfl

/-- C8. When every enum name of the Requires resolves, the enums loop of a
Feature or Extension succeeds, leaves the context alone and appends the
concatenation, over the Requires in order and over each enums list in order,
of the line `#define name value` of the resolved enum (the value may be
empty). -/
theorem C8_enum_order (context : glbBuild) (requires : List glbRequire) (codeOut : String)
    (h : ∀ r ∈ requires, ∀ n ∈ r.enums, ∃ e, glbBuildFindEnum context n = .ok e) :
    requiresLoop glbBuildGenerateCode_C_Main_RequireEnums context requires codeOut =
      (none, context,
        codeOut ++ concatAll ((requires.flatMap (fun r => r.enums)).map (enumLine context))) ∧
    ∀ r ∈ requires, ∀ n ∈ r.enums, ∀ e, glbBuildFindEnum context n = .ok e →
      enumLine context n = "#define " ++ n ++ " " ++ e.value ++ "\n" := by
  constructor
  · obtain ⟨r, pre, -, hrun, -, hall, hiff⟩ := enumsPass_run context requires
    have hr : r = none :=
      hiff.mpr (fun req hreq n hn => (resolvesEnum_true_iff context n).mpr (h req hreq n hn))
    subst hr
    rw [hrun, hall rfl]
    rfl
  · intro r _ n _ e he
    simp only [enumLine, he, findEnum_name context n e he]

theorem C8_enum_order_witness :
    requiresLoop glbBuildGenerateCode_C_Main_RequireEnums enumsCtx enumsRequires "" =
      (none, enumsCtx, "#define A 1\n#define B \n#define C 0x3\n") := by
  have hres : ∀ r ∈ enumsRequires, ∀ n ∈ r.enums, resolvesEnum enumsCtx n = true := by
    decide
  have h := (C8_enum_order enumsCtx enumsRequires ""
    (fun r hr n hn => (resolvesEnum_true_iff enumsCtx n).mp (hres r hr n hn))).1
  rw [h]
  rfl

/-- C9. When every command name of the Require resolves, the commands pass
succeeds, leaves the context alone and appends, per command in order, the
line `typedef returnTypeC (APIENTRYP PFN<UPPER(name)>PROC)(P);` where `P` is
`void` for no parameter and otherwise the "typeC name" pairs joined by a comma
and a blank; the upper-casing sends a to z to A to Z and leaves every other
character as it is. -/
theorem C9_command_typedef (context : glbBuild) (require : glbRequire) (codeOut : String)
    (h : ∀ n ∈ require.commands, ∃ c, glbBuildFindCommand context n = .ok c) :
    glbBuildGenerateCode_C_Main_RequireCommands context require codeOut =
      (GLB_SUCCESS, context,
        codeOut ++ concatAll (require.commands.map (commandLine context))) ∧
    (∀ n ∈ require.commands, ∀ c, glbBuildFindCommand context n = .ok c →
      commandLine context n =
        "typedef " ++ c.returnTypeC ++ " (APIENTRYP PFN" ++ glbToUpper c.name ++ "PROC)(" ++
          (if c.params = [] then "void"
            else ", ".intercalate (c.params.map (fun p => p.typeC ++ " " ++ p.name))) ++
          ");\n") ∧
    (∀ s : String, (glbToUpper s).data = s.data.map toupper) ∧
    (∀ ch : Char, 97 ≤ ch.toNat → ch.toNat ≤ 122 → (toupper ch).toNat = ch.toNat - 32) ∧
    (∀ ch : Char, ch.toNat < 97 ∨ 122 < ch.toNat → toupper ch = ch) := by
  refine ⟨?_, ?_, ?_, toupper_letter, toupper_other⟩
  · obtain ⟨r, pre, -, hrun, -, hall, hiff⟩ := requireCommands_run context require
    have hr : r = GLB_SUCCESS :=
      hiff.mpr (fun n hn => (resolvesCommand_true_iff context n).mpr (h n hn))
    subst hr
    rw [hrun, hall rfl]
    rfl
  · intro n _ c hc
    simp only [commandLine, hc, specCommandLine, glbToUpper_eq, specParamList]
  · intro s
    rw [glbToUpper_eq]
    simp only [specUpper]
    congr 1

theorem C9_command_typedef_witness :
    glbBuildGenerateCode_C_Main_RequireCommands commandsCtx commandsRequire "" =
      (GLB_SUCCESS, commandsCtx,
        "typedef void (APIENTRYP PFNGLFOO2IPROC)(GLint x, GLuint y);\ntypedef GLenum (APIENTRYP PFNGLGETERRORPROC)(void);\n") := by
  have hres : ∀ n ∈ commandsRequire.commands, resolvesCommand commandsCtx n = true := by
    decide
  have h := (C9_command_typedef commandsCtx commandsRequire ""
    (fun n hn => (resolvesCommand_true_iff commandsCtx n).mp (hres n hn))).1
  rw [h]
  rfl

/-- C10. For a Feature whose references all resolve, the emission succeeds
and the text between the guard lines is T ++ E ++ C: the text of the types
loop over all its Requires, then the text of the enums loop over all its
Requires, then the text of the commands loop over all its Requires; an
Extension with the same name and Requires emits the same. -/
theorem C10_pass_order (context : glbBuild) (feature : glbFeature) (codeOut : String)
    (h : blockOK context context.outputTypes feature.requires) :
    glbBuildGenerateCode_C_Main_Feature context feature codeOut =
      (GLB_SUCCESS,
        (requiresLoop glbBuildGenerateCode_C_Main_RequireTypes context feature.requires "").2.1,
        codeOut ++ ("#ifndef " ++ feature.name ++ "\n") ++ ("#define " ++ feature.name ++ " 1\n") ++
          (requiresLoop glbBuildGenerateCode_C_Main_RequireTypes context
            feature.requires "").2.2 ++
          (requiresLoop glbBuildGenerateCode_C_Main_RequireEnums context
            feature.requires "").2.2 ++
          (requiresLoop glbBuildGenerateCode_C_Main_RequireCommands context
            feature.requires "").2.2 ++
          ("#endif /* " ++ feature.name ++ " */\n")) ∧
    (requiresLoop glbBuildGenerateCode_C_Main_RequireTypes context feature.requires "").2.2 =
      typesText context
        (newNames context context.outputTypes (blockTypeNames context feature.requires)) ∧
    (requiresLoop glbBuildGenerateCode_C_Main_RequireEnums context feature.requires "").2.2 =
      enumsText context (feature.requires.flatMap (fun r => r.enums)) ∧
    (requiresLoop glbBuildGenerateCode_C_Main_RequireCommands context feature.requires "").2.2 =
      commandsText context (feature.requires.flatMap (fun r => r.commands)) ∧
    ∀ extension : glbExtension, extension.name = feature.name →
      extension.requires = feature.requires →
      glbBuildGenerateCode_C_Main_Extension context extension codeOut =
        glbBuildGenerateCode_C_Main_Feature context feature codeOut := by
  obtain ⟨r1, pre1, _, hrun1, _, hall1, hiff1⟩ :=
    typesPass_run context feature.requires context.outputTypes
  obtain ⟨r2, pre2, _, hrun2, _, hall2, hiff2⟩ := enumsPass_run context feature.requires
  obtain ⟨r3, pre3, _, hrun3, _, hall3, hiff3⟩ := commandsPass_run context feature.requires
  obtain ⟨r, pre, δ, _, hrun, _, hall, hiff⟩ :=
    emitBlock_run context feature.name feature.requires context.outputTypes
  simp only [setLedger_self] at hrun1 hrun
  have e1 : r1 = none := hiff1.mpr (fun req hreq => (h req hreq).1)
  have e2 : r2 = none := hiff2.mpr (fun req hreq => (h req hreq).2)
  have e3 : r3 = none := hiff3.mpr (fun req hreq => (h req hreq).1.2)
  have e : r = GLB_SUCCESS := hiff.mpr h
  subst e1 e2 e3 e
  obtain ⟨hp, hδ⟩ := hall rfl
  have hp1 := hall1 rfl
  have hp2 := hall2 rfl
  have hp3 := hall3 rfl
  refine ⟨?_, ?_, ?_, ?_, ?_⟩
  · rw [feature_eq_emitBlock, hrun, hrun1, hrun2, hrun3, hδ, hp, hp1, hp2, hp3]
    simp [blockText, blockTypeNames, String.append_assoc]
  · rw [hrun1, hp1]; simp [blockTypeNames]
  · rw [hrun2, hp2]; simp
  · rw [hrun3, hp3]; simp
  · intro ext hn hr
    rw [extension_eq_emitBlock, feature_eq_emitBlock, hn, hr]

theorem C10_pass_order_witness :
    glbBuildGenerateCode_C_Main_Feature scenarioCtx scenarioFeature "" =
      (GLB_SUCCESS, { scenarioCtx with outputTypes := ["GLint"] },
        "" ++ "#ifndef GL_VERSION_1_0\n" ++ "#define GL_VERSION_1_0 1\n" ++
          "typedef int GLint;\n" ++ "#define GL_TRUE 1\n" ++
          "typedef void (APIENTRYP PFNGLCLEARPROC)(GLbitfield mask);\n" ++
          "#endif /* GL_VERSION_1_0 */\n") :=
  (C10_pass_order scenarioCtx scenarioFeature "" (by decide)).1

theorem findCommandInner_none (cs : List glbCommand) (n : String)
    (h : ∀ c ∈ cs, c.name ≠ n) : glbBuildFindCommandInner cs n = none := by
  induction cs with
  | nil => rfl
  | cons a r ih =>
    unfold glbBuildFindCommandInner
    have ha : ¬ a.name = n := h a (List.mem_cons_self _ _)
    simp only [ha, if_false]
    exact ih (fun c hc => h c (List.mem_cons_of_mem _ hc))

theorem resolvesCommand_false_of_absent (c : glbBuild) (n : String)
    (h : ∀ b ∈ c.commands, ∀ cmd ∈ b.commands, cmd.name ≠ n) :
    resolvesCommand c n = false := by
  unfold resolvesCommand glbBuildFindCommand
  generalize c.commands = bs at h
  induction bs with
  | nil => rfl
  | cons b r ih =>
    unfold glbBuildFindCommandLoop
    rw [findCommandInner_none b.commands n (h b (List.mem_cons_self _ _))]
    exact ih (fun b' hb' => h b' (List.mem_cons_of_mem _ hb'))

theorem mem_traversal_feature (c : glbBuild) (f : glbFeature) (hf : f ∈ c.features)
    (hapi : f.api = "gl" ∨ f.api = "wgl" ∨ f.api = "glx") :
    (f.name, f.requires) ∈ traversal c := by
  have hmem : ∀ api, f.api = api → (f.name, f.requires) ∈ featureUnits c api := by
    intro api h
    unfold featureUnits
    exact List.mem_map.mpr ⟨f, List.mem_filter.mpr ⟨hf, by simpa using h⟩, rfl⟩
  simp only [traversal, mainStages, List.flatMap_cons, List.flatMap_nil, List.mem_append]
  rcases hapi with h | h | h
  · exact Or.inl (hmem _ h)
  · exact Or.inr (Or.inl (hmem _ h))
  · exact Or.inr (Or.inr (Or.inl (hmem _ h)))

theorem mem_traversal_extension (c : glbBuild) (e : glbExtension) (he : e ∈ c.extensions)
    (hsel : Main_selectGL e = true ∨ Main_selectWGL e = true ∨ Main_selectGLX e = true) :
    (e.name, e.requires) ∈ traversal c := by
  have hmem : ∀ select : glbExtension → Bool, select e = true →
      (e.name, e.requires) ∈ extensionUnits c select := by
    intro select h
    unfold extensionUnits
    exact List.mem_map.mpr ⟨e, List.mem_filter.mpr ⟨he, h⟩, rfl⟩
  simp only [traversal, mainStages, List.flatMap_cons, List.flatMap_nil, List.mem_append]
  rcases hsel with h | h | h
  · exact Or.inr (Or.inr (Or.inr (Or.inl (hmem _ h))))
  · exact Or.inr (Or.inr (Or.inr (Or.inr (Or.inl (hmem _ h)))))
  · exact Or.inr (Or.inr (Or.inr (Or.inr (Or.inr (Or.inl (hmem _ h))))))

theorem main_fails_of_unresolved_command (c : glbBuild) (u : String × List glbRequire)
    (hu : u ∈ traversal c) (r : glbRequire) (hr : r ∈ u.2) (n : String)
    (hn : n ∈ r.commands) (hres : resolvesCommand c n = false) (out : String) :
    (glbBuildGenerateCode_C_Main c out).1 = GLB_ERROR := by
  obtain ⟨res, pre, δ, -, hrun, hres', -, hiff⟩ := main_run c c.outputTypes
  simp only [setLedger_self] at hrun
  rw [hrun]
  rcases hres' with e | e
  · exfalso
    have := ((hiff.mp e) u hu r hr).1.2 n hn
    rw [hres] at this; cases this
  · exact e

/-- C6. When an emitted Feature (api gl, wgl or glx) or an emitted Extension
(one that passes a group test) has a Require naming a command that occurs in
no CommandsBlock, `glbBuildGenerateCode_C_Main` returns the failure code
`GLB_ERROR`, and `glbBuildGenerateOutputFile` returns a failure without any
call of the file-write operation; that failure is the one of the emitter
whenever the template was read. -/
theorem C6_missing_command_aborts (context : glbBuild)
    (h : (∃ f ∈ context.features, (f.api = "gl" ∨ f.api = "wgl" ∨ f.api = "glx") ∧
          ∃ r ∈ f.requires, ∃ n ∈ r.commands,
            ∀ b ∈ context.commands, ∀ c ∈ b.commands, c.name ≠ n) ∨
        (∃ e ∈ context.extensions,
          (Main_selectGL e = true ∨ Main_selectWGL e = true ∨ Main_selectGLX e = true) ∧
          ∃ r ∈ e.requires, ∃ n ∈ r.commands,
            ∀ b ∈ context.commands, ∀ c ∈ b.commands, c.name ≠ n)) :
    (∀ codeOut, (glbBuildGenerateCode_C_Main context codeOut).1 = GLB_ERROR) ∧
    ∀ (files : glbFiles) (outputFilePath : String),
      ∃ result context',
        glbBuildGenerateOutputFile files context outputFilePath =
          some (result, context', []) ∧
        result ≠ GLB_SUCCESS ∧
        ((files.readText GLB_BUILD_TEMPLATE_PATH).1 = GLB_SUCCESS →
          result = (glbBuildGenerateCode_C_Main context "").1) := by
  have hmain : ∀ codeOut, (glbBuildGenerateCode_C_Main context codeOut).1 = GLB_ERROR := by
    intro codeOut
    rcases h with ⟨f, hf, hapi, r, hr, n, hn, habs⟩ | ⟨e, he, hsel, r, hr, n, hn, habs⟩
    · exact main_fails_of_unresolved_command context _
        (mem_traversal_feature context f hf hapi) r hr n hn
        (resolvesCommand_false_of_absent context n habs) codeOut
    · exact main_fails_of_unresolved_command context _
        (mem_traversal_extension context e he hsel) r hr n hn
        (resolvesCommand_false_of_absent context n habs) codeOut
  refine ⟨hmain, ?_⟩
  intro files outputFilePath
  unfold glbBuildGenerateOutputFile
  by_cases hread : (files.readText GLB_BUILD_TEMPLATE_PATH).1 = GLB_SUCCESS
  · have hm := hmain ""
    have hne : (GLB_ERROR : glbResult) ≠ GLB_SUCCESS := by decide
    refine ⟨GLB_ERROR, (glbBuildGenerateCode_C_Main context "").2.1, ?_, hne,
      fun _ => hm.symm⟩
    simp only [hread, ne_eq, not_true_eq_false, if_false, OutputFile_tags,
      glbBuildGenerateCode_C, if_true, hm, hne, not_false_eq_true]
  · refine ⟨(files.readText GLB_BUILD_TEMPLATE_PATH).1, context, ?_, hread,
      fun h' => absurd h' hread⟩
    simp only [ne_eq, hread, not_false_eq_true, if_true]

theorem C6_missing_command_aborts_witness :
    (∀ codeOut, (glbBuildGenerateCode_C_Main missingCommandCtx codeOut).1 = GLB_ERROR) ∧
    ∀ (files : glbFiles) (outputFilePath : String),
      ∃ result context',
        glbBuildGenerateOutputFile files missingCommandCtx outputFilePath =
          some (result, context', []) ∧
        result ≠ GLB_SUCCESS ∧
        ((files.readText GLB_BUILD_TEMPLATE_PATH).1 = GLB_SUCCESS →
          result = (glbBuildGenerateCode_C_Main missingCommandCtx "").1) :=
  C6_missing_command_aborts missingCommandCtx
    (Or.inl (by decide))

/-! ## References to "khrplatform" -/

theorem type_scrub (c : glbBuild) (n out : String) :
    glbBuildGenerateCode_C_Main_Type (scrubKhr c) n out =
      ((glbBuildGenerateCode_C_Main_Type c n out).1,
        scrubKhr (glbBuildGenerateCode_C_Main_Type c n out).2.1,
        (glbBuildGenerateCode_C_Main_Type c n out).2.2) := by
  rw [type_eq, type_eq]
  have h1 : (scrubKhr c).outputTypes = c.outputTypes := rfl
  have h2 : glbBuildFindType (scrubKhr c) n = glbBuildFindType c n := rfl
  have h3 : typeLine (scrubKhr c) n = typeLine c n := rfl
  rw [h1, h2, h3]
  by_cases hk : n = "khrplatform"
  · simp [hk]
  · by_cases hm : n ∈ c.outputTypes
    · simp [hk, hm]
    · simp only [hk, hm, if_false]
      cases glbBuildFindType c n with
      | error e => rfl
      | ok t => rfl

theorem type_khr (c : glbBuild) (out : String) :
    glbBuildGenerateCode_C_Main_Type c "khrplatform" out = (GLB_ALREADY_PROCESSED, c, out) := by
  rw [type_eq]; simp

theorem standalone_scrub (types : List String) (c : glbBuild) (out : String) :
    RequireTypes_standalone (scrubKhr c) (types.filter (fun n => n ≠ "khrplatform")) out =
      ((RequireTypes_standalone c types out).1,
        scrubKhr (RequireTypes_standalone c types out).2.1,
        (RequireTypes_standalone c types out).2.2) := by
  induction types generalizing c out with
  | nil => rfl
  | cons n rest ih =>
    by_cases hk : n = "khrplatform"
    · subst hk
      have hf : (("khrplatform" : String) :: rest).filter (fun n => n ≠ "khrplatform") =
          rest.filter (fun n => n ≠ "khrplatform") := by
        simp
      rw [hf, ih]
      conv_rhs => unfold RequireTypes_standalone
      simp only [type_khr]
      have h2 : ¬ ((GLB_ALREADY_PROCESSED : glbResult) ≠ GLB_SUCCESS ∧
          (GLB_ALREADY_PROCESSED : glbResult) ≠ GLB_ALREADY_PROCESSED) := by decide
      simp only [h2, if_false]
    · have hf : (n :: rest).filter (fun n => n ≠ "khrplatform") =
          n :: rest.filter (fun n => n ≠ "khrplatform") := by
        simp [hk]
      rw [hf]
      unfold RequireTypes_standalone
      rw [type_scrub]
      simp only []
      split
      · rfl
      · exact ih _ _

theorem params_scrub (params : List glbCommandParam) (c : glbBuild) (out : String) :
    RequireTypes_params (scrubKhr c) (params.map scrubParam) out =
      (scrubKhr (RequireTypes_params c params out).1, (RequireTypes_params c params out).2) := by
  induction params generalizing c out with
  | nil => rfl
  | cons p rest ih =>
    simp only [List.map_cons]
    unfold RequireTypes_params
    by_cases hk : p.type = "khrplatform"
    · have h1 : (scrubParam p).type = "" := by simp [scrubParam, hk]
      simp only [h1, ne_eq, not_true_eq_false, if_false, hk, type_khr]
      have h2 : ¬ (("khrplatform" : String) = "") := by decide
      simp only [h2, not_false_eq_true, if_true]
      exact ih c out
    · have h1 : (scrubParam p).type = p.type := by simp [scrubParam, hk]
      rw [h1]
      by_cases he : p.type = ""
      · simp only [he, ne_eq, not_true_eq_false, if_false]
        exact ih c out
      · simp only [ne_eq, he, not_false_eq_true, if_true, type_scrub]
        exact ih _ _

theorem findCommandInner_scrub (cs : List glbCommand) (n : String) :
    glbBuildFindCommandInner (cs.map scrubCommand) n =
      (glbBuildFindCommandInner cs n).map scrubCommand := by
  induction cs with
  | nil => rfl
  | cons a r ih =>
    simp only [List.map_cons]
    unfold glbBuildFindCommandInner
    have : (scrubCommand a).name = a.name := rfl
    rw [this]
    by_cases h : a.name = n
    · simp [h]
    · simp only [h, if_false]; exact ih

theorem findCommand_scrub (c : glbBuild) (n : String) :
    glbBuildFindCommand (scrubKhr c) n =
      match glbBuildFindCommand c n with
      | .ok cmd => .ok (scrubCommand cmd)
      | .error e => .error e := by
  unfold glbBuildFindCommand
  have : (scrubKhr c).commands =
      c.commands.map (fun b => { b with commands := b.commands.map scrubCommand }) := rfl
  rw [this]
  generalize c.commands = bs
  induction bs with
  | nil => rfl
  | cons b r ih =>
    simp only [List.map_cons]
    unfold glbBuildFindCommandLoop
    simp only [findCommandInner_scrub]
    cases glbBuildFindCommandInner b.commands n with
    | some x => rfl
    | none => simpa using ih

theorem commands_scrub (cmds : List String) (c : glbBuild) (out : String) :
    RequireTypes_commands (scrubKhr c) cmds out =
      ((RequireTypes_commands c cmds out).1,
        scrubKhr (RequireTypes_commands c cmds out).2.1,
        (RequireTypes_commands c cmds out).2.2) := by
  induction cmds generalizing c out with
  | nil => rfl
  | cons n rest ih =>
    unfold RequireTypes_commands
    rw [findCommand_scrub]
    cases hf : glbBuildFindCommand c n with
    | error e => rfl
    | ok cmd =>
      simp only []
      have hret : (if (scrubCommand cmd).returnType ≠ "" then
            (glbBuildGenerateCode_C_Main_Type (scrubKhr c) (scrubCommand cmd).returnType out).2
          else (scrubKhr c, out)) =
          (scrubKhr (if cmd.returnType ≠ "" then
              (glbBuildGenerateCode_C_Main_Type c cmd.returnType out).2
            else (c, out)).1,
           (if cmd.returnType ≠ "" then
              (glbBuildGenerateCode_C_Main_Type c cmd.returnType out).2
            else (c, out)).2) := by
        by_cases hk : cmd.returnType = "khrplatform"
        · have h1 : (scrubCommand cmd).returnType = "" := by simp [scrubCommand, hk]
          have h2 : ¬ (("khrplatform" : String) = "") := by decide
          simp [h1, hk, type_khr, h2]
        · have h1 : (scrubCommand cmd).returnType = cmd.returnType := by
            simp [scrubCommand, hk]
          rw [h1]
          by_cases he : cmd.returnType = ""
          · simp [he]
          · simp [he, type_scrub]
      rw [hret]
      have hp : (scrubCommand cmd).params = cmd.params.map scrubParam := rfl
      rw [hp]
      simp only [params_scrub]
      exact ih _ _

theorem requireTypes_scrub (c : glbBuild) (req : glbRequire) (out : String) :
    glbBuildGenerateCode_C_Main_RequireTypes (scrubKhr c) (dropKhrTypes req) out =
      ((glbBuildGenerateCode_C_Main_RequireTypes c req out).1,
        scrubKhr (glbBuildGenerateCode_C_Main_RequireTypes c req out).2.1,
        (glbBuildGenerateCode_C_Main_RequireTypes c req out).2.2) := by
  unfold glbBuildGenerateCode_C_Main_RequireTypes
  have h1 : (dropKhrTypes req).types = req.types.filter (fun n => n ≠ "khrplatform") := rfl
  have h2 : (dropKhrTypes req).commands = req.commands := rfl
  rw [h1, h2, standalone_scrub]
  rcases hs : RequireTypes_standalone c req.types out with ⟨r1, c1, o1⟩
  cases r1 with
  | some r => rfl
  | none =>
    simp only []
    rw [commands_scrub]
    rcases hc : RequireTypes_commands c1 req.commands o1 with ⟨r2, c2, o2⟩
    cases r2 with
    | some r => rfl
    | none => rfl

/-- C5. A reference to the type name "khrplatform" is inert, whether or not
the registry declares such a Type: the emit-once step for it returns
`GLB_ALREADY_PROCESSED` and changes neither output nor ledger; the types pass
of a Require gives the same result code, the same output and the same ledger
when every reference to "khrplatform" (in the types list, as a return type,
as a parameter type) is removed, however many there are; and what the pass
appends is the lines of the names it adds to the ledger, none of which is
"khrplatform". -/
theorem C5_khrplatform_inert (context : glbBuild) (require : glbRequire) (codeOut : String) :
    glbBuildGenerateCode_C_Main_Type context "khrplatform" codeOut =
      (GLB_ALREADY_PROCESSED, context, codeOut) ∧
    glbBuildGenerateCode_C_Main_RequireTypes (scrubKhr context) (dropKhrTypes require) codeOut =
      ((glbBuildGenerateCode_C_Main_RequireTypes context require codeOut).1,
        scrubKhr (glbBuildGenerateCode_C_Main_RequireTypes context require codeOut).2.1,
        (glbBuildGenerateCode_C_Main_RequireTypes context require codeOut).2.2) ∧
    (scrubKhr (glbBuildGenerateCode_C_Main_RequireTypes context require codeOut).2.1).outputTypes =
      (glbBuildGenerateCode_C_Main_RequireTypes context require codeOut).2.1.outputTypes ∧
    ∃ g, (glbBuildGenerateCode_C_Main_RequireTypes context require codeOut).2.1.outputTypes =
        context.outputTypes ++ g ∧
      "khrplatform" ∉ g ∧
      (glbBuildGenerateCode_C_Main_RequireTypes context require codeOut).2.2 =
        codeOut ++ typesText context g := by
  refine ⟨type_khr context codeOut, requireTypes_scrub context require codeOut, rfl, ?_⟩
  obtain ⟨r, pre, -, hrun, -, -, -⟩ := requireTypes_run context require context.outputTypes
  simp only [setLedger_self] at hrun
  refine ⟨newNames context context.outputTypes pre, ?_, ?_, ?_⟩
  · rw [hrun]; rfl
  · intro hm
    exact ((mem_newNames context _ pre _).mp hm).2.1 rfl
  · rw [hrun]

/-! ## Where a type is written -/

theorem flatMap_first {α : Type} (f : α → List String) (n : String) (units : List α)
    (h : n ∈ units.flatMap f) :
    ∃ before u after, units = before ++ u :: after ∧ n ∉ before.flatMap f ∧ n ∈ f u := by
  induction units with
  | nil => simp at h
  | cons v rest ih =>
    by_cases hv : n ∈ f v
    · exact ⟨[], v, rest, rfl, by simp, hv⟩
    · have hrest : n ∈ rest.flatMap f := by
        simp only [List.flatMap_cons, List.mem_append] at h
        rcases h with h | h
        · exact absurd h hv
        · exact h
      obtain ⟨before, u, after, he, hb, hu⟩ := ih hrest
      refine ⟨v :: before, u, after, by rw [he]; rfl, ?_, hu⟩
      simp only [List.flatMap_cons, List.mem_append, not_or]
      exact ⟨hv, hb⟩

theorem unitsText_split (c : glbBuild) (before : List (String × List glbRequire))
    (u : String × List glbRequire) (after : List (String × List glbRequire))
    (k : Nat) (l : List String) :
    ∃ a b, unitsText c k l (before ++ u :: after) =
      a ++ blockText c (l ++ newNames c l (unitsTypeNames c before)) u.1 u.2 ++ b := by
  induction before generalizing k l with
  | nil =>
    refine ⟨if k > 0 then "\n" else "",
      unitsText c (k + 1) (l ++ newNames c l (blockTypeNames c u.2)) after, ?_⟩
    simp only [List.nil_append, unitsText, unitsTypeNames, List.flatMap_nil, newNames_nil,
      List.append_nil]
  | cons v bs ih =>
    obtain ⟨a, b, h⟩ := ih (k + 1) (l ++ newNames c l (blockTypeNames c v.2))
    refine ⟨(if k > 0 then "\n" else "") ++ blockText c l v.1 v.2 ++ a, b, ?_⟩
    have hl : l ++ newNames c l (blockTypeNames c v.2) ++
        newNames c (l ++ newNames c l (blockTypeNames c v.2)) (unitsTypeNames c bs) =
        l ++ newNames c l (unitsTypeNames c (v :: bs)) := by
      simp only [unitsTypeNames, List.flatMap_cons, newNames_append, List.append_assoc]
    rw [hl] at h
    show (if k > 0 then "\n" else "") ++ blockText c l v.1 v.2 ++
        unitsText c (k + 1) (l ++ newNames c l (blockTypeNames c v.2)) (bs ++ u :: after) = _
    rw [h]
    simp only [String.append_assoc]

theorem stagesText_split (c : glbBuild)
    (stages : List (String × List (String × List glbRequire) × String))
    (before : List (String × List glbRequire)) (u : String × List glbRequire)
    (after : List (String × List glbRequire)) (l : List String)
    (h : stages.flatMap (fun s => s.2.1) = before ++ u :: after) :
    ∃ a b, stagesText c l stages =
      a ++ blockText c (l ++ newNames c l (unitsTypeNames c before)) u.1 u.2 ++ b := by
  induction stages generalizing before l with
  | nil => simp at h
  | cons s rest ih =>
    simp only [List.flatMap_cons] at h
    rcases List.append_eq_append_iff.mp h with ⟨a', h1, h2⟩ | ⟨c', h1, h2⟩
    · -- the block lies in a later group
      obtain ⟨a, b, hab⟩ := ih a' (l ++ newNames c l (unitsTypeNames c s.2.1)) h2
      refine ⟨s.1 ++ unitsText c 0 l s.2.1 ++ s.2.2 ++ a, b, ?_⟩
      simp only [stagesText, hab]
      have hl : l ++ newNames c l (unitsTypeNames c s.2.1) ++
          newNames c (l ++ newNames c l (unitsTypeNames c s.2.1)) (unitsTypeNames c a') =
          l ++ newNames c l (unitsTypeNames c before) := by
        rw [h1, unitsTypeNames_append, newNames_append, List.append_assoc]
      rw [hl]
      simp only [String.append_assoc]
    · cases c' with
      | nil =>
        simp only [List.append_nil, List.nil_append] at h1 h2
        obtain ⟨a, b, hab⟩ := ih [] (l ++ newNames c l (unitsTypeNames c s.2.1)) h2.symm
        refine ⟨s.1 ++ unitsText c 0 l s.2.1 ++ s.2.2 ++ a, b, ?_⟩
        simp only [stagesText, hab]
        have hl : l ++ newNames c l (unitsTypeNames c s.2.1) ++
            newNames c (l ++ newNames c l (unitsTypeNames c s.2.1)) (unitsTypeNames c []) =
            l ++ newNames c l (unitsTypeNames c before) := by
          rw [h1]; simp [unitsTypeNames]
        rw [hl]
        simp only [String.append_assoc]
      | cons w c'' =>
        simp only [List.cons_append, List.cons.injEq] at h2
        obtain ⟨hw, _⟩ := h2
        subst hw
        obtain ⟨a, b, hab⟩ := unitsText_split c before u c'' 0 l
        refine ⟨s.1 ++ a, b ++ s.2.2 ++
          stagesText c (l ++ newNames c l (unitsTypeNames c s.2.1)) rest, ?_⟩
        simp only [stagesText, h1, hab]
        simp only [String.append_assoc]

theorem mem_blockTypeNames_of_listed (c : glbBuild) (reqs : List glbRequire) (r : glbRequire)
    (hr : r ∈ reqs) (n : String) (hn : n ∈ r.types) : n ∈ blockTypeNames c reqs := by
  unfold blockTypeNames
  exact List.mem_flatMap.mpr ⟨r, hr, by unfold requireTypeNames; exact List.mem_append_left _ hn⟩

/-- In a successful run from the empty ledger, the first Feature/Extension of
the traversal that refers to a resolvable name other than "khrplatform" is the
one that records it, once, and its block is part of the generated text. -/
theorem written_at_first_reference (c : glbBuild) (out n : String)
    (before : List (String × List glbRequire)) (u : String × List glbRequire)
    (after : List (String × List glbRequire))
    (hempty : c.outputTypes = [])
    (hrun : (glbBuildGenerateCode_C_Main c out).1 = GLB_SUCCESS)
    (hk : n ≠ "khrplatform") (hres : resolvesType c n = true)
    (hsplit : traversal c = before ++ u :: after)
    (hfirst : n ∉ unitsTypeNames c before) (hin : n ∈ blockTypeNames c u.2) :
    (glbBuildGenerateCode_C_Main c out).2.1.outputTypes.count n = 1 ∧
    (∃ pre post,
      newNames c (newNames c [] (unitsTypeNames c before)) (blockTypeNames c u.2) =
        pre ++ n :: post ∧ n ∉ pre ∧ n ∉ post) ∧
    ∃ a b, (glbBuildGenerateCode_C_Main c out).2.2 =
      out ++ a ++ blockText c (newNames c [] (unitsTypeNames c before)) u.1 u.2 ++ b := by
  obtain ⟨r, pre, δ, -, hmain, -, hall, -⟩ := main_run c c.outputTypes
  simp only [setLedger_self] at hmain
  rw [hmain] at hrun ⊢
  simp only [] at hrun
  subst hrun
  obtain ⟨hp, hδ⟩ := hall rfl
  subst hp hδ
  rw [hempty]
  simp only [List.nil_append, setLedger_outputTypes]
  have hledger : n ∉ newNames c [] (unitsTypeNames c before) := fun hm =>
    hfirst ((mem_newNames c _ _ n).mp hm).1
  refine ⟨?_, ?_, ?_⟩
  · apply List.count_eq_one_of_mem (nodup_newNames c _ _)
    rw [mem_newNames]
    refine ⟨?_, hk, by simp, hres⟩
    rw [hsplit, unitsTypeNames_append]
    apply List.mem_append_right
    simp only [unitsTypeNames, List.flatMap_cons, List.mem_append]
    exact Or.inl hin
  · have hmem : n ∈ newNames c (newNames c [] (unitsTypeNames c before))
        (blockTypeNames c u.2) := by
      rw [mem_newNames]; exact ⟨hin, hk, hledger, hres⟩
    obtain ⟨pre, post, hpp⟩ := List.append_of_mem hmem
    have hnd := nodup_newNames c (newNames c [] (unitsTypeNames c before))
      (blockTypeNames c u.2)
    rw [hpp] at hnd
    refine ⟨pre, post, hpp, ?_, ?_⟩
    · intro hm
      have := (List.nodup_append.mp hnd).2.2
      exact this hm (List.mem_cons_self _ _) 
    · exact (List.nodup_cons.mp (List.nodup_append.mp hnd).2.1).1
  · obtain ⟨a, b, hab⟩ := stagesText_split c (mainStages c) before u after [] hsplit
    refine ⟨a, b, ?_⟩
    rw [hab]
    simp only [List.nil_append, String.append_assoc]

theorem whole_run (c : glbBuild) (out : String) (hempty : c.outputTypes = [])
    (hrun : (glbBuildGenerateCode_C_Main c out).1 = GLB_SUCCESS) :
    (glbBuildGenerateCode_C_Main c out).2.1.outputTypes =
      newNames c [] (unitsTypeNames c (traversal c)) ∧
    (glbBuildGenerateCode_C_Main c out).2.2 = out ++ stagesText c [] (mainStages c) := by
  obtain ⟨r, pre, δ, -, hmain, -, hall, -⟩ := main_run c c.outputTypes
  simp only [setLedger_self] at hmain
  rw [hmain] at hrun ⊢
  simp only [] at hrun
  subst hrun
  obtain ⟨hp, hδ⟩ := hall rfl
  subst hp hδ
  rw [hempty]
  simp

theorem resolves_of_listed (c : glbBuild) (out n : String)
    (hempty : c.outputTypes = [])
    (hrun : (glbBuildGenerateCode_C_Main c out).1 = GLB_SUCCESS)
    (hk : n ≠ "khrplatform")
    (v : String × List glbRequire) (hv : v ∈ traversal c) (r : glbRequire) (hr : r ∈ v.2)
    (hn : n ∈ r.types) : resolvesType c n = true := by
  obtain ⟨res, pre, δ, -, hmain, -, -, hiff⟩ := main_run c c.outputTypes
  simp only [setLedger_self] at hmain
  rw [hmain] at hrun
  simp only [] at hrun
  have hp := ((hiff.mp hrun) v hv r hr).1.1 n hn
  rw [hempty] at hp
  rcases hp with h | h | h
  · exact absurd h hk
  · simp at h
  · exact h

theorem typesText_split_at (c : glbBuild) (pre post : List String) (n : String) (t : glbType)
    (ht : glbBuildFindType c n = .ok t) :
    typesText c (pre ++ n :: post) =
      typesText c pre ++ (if t.valueC ≠ "" then t.valueC ++ "\n" else "") ++
        typesText c post := by
  have h : pre ++ n :: post = pre ++ ([n] ++ post) := by simp
  rw [h, typesText_append, typesText_append, typesText_singleton]
  simp only [typeLine, ht, String.append_assoc]

/-- C2, as stated, fails: the registry `khrCtx` declares the Types
"khrplatform" and GLint, both listed in the types of its two Features F1 and
F2; the run from the empty ledger succeeds.  The `valueC` of "khrplatform"
occurs nowhere in the generated text (and the name is not in the ledger); the
typedef of GLint is written once, but in the block of F0, which lists no type
and requires a command with a GLint parameter, and the block of F1, the first
Feature that lists GLint, holds nothing between its guard lines. -/
theorem C2_counterexample :
    (∀ n ∈ ["khrplatform", "GLint"],
      (khrCtx.features.filter
        (fun f => f.requires.any (fun r => r.types.contains n))).map (fun f => f.name) =
        ["F1", "F2"]) ∧
    glbBuildFindType khrCtx "khrplatform" =
      .ok { name := "khrplatform", valueC := "#include <KHR/khrplatform.h>", requires := "" } ∧
    khrCtx.outputTypes = [] ∧
    glbBuildGenerateCode_C_Main khrCtx "" =
      (GLB_SUCCESS, { khrCtx with outputTypes := ["GLint"] },
        "#ifndef F0\n#define F0 1\ntypedef int GLint;\ntypedef khronos_int32_t (APIENTRYP PFNGLKPROC)(khronos_int8_t a, GLint b);\n#endif /* F0 */\n\n#ifndef F1\n#define F1 1\n#endif /* F1 */\n\n#ifndef F2\n#define F2 1\n#endif /* F2 */\n\n#if defined(GLBIND_WGL)\n#endif /* GLBIND_WGL */\n\n#if defined(GLBIND_GLX)\n#endif /* GLBIND_GLX */\n\n#if defined(GLBIND_WGL)\n#endif /* GLBIND_WGL */\n\n#if defined(GLBIND_GLX)\n#endif /* GLBIND_GLX */\n") ∧
    ¬ ("#include <KHR/khrplatform.h>".data <:+:
        (glbBuildGenerateCode_C_Main khrCtx "").2.2.data) ∧
    (glbBuildGenerateCode_C_Main khrCtx "").2.1.outputTypes.count "khrplatform" = 0 ∧
    glbBuildGenerateCode_C_Main_Feature { khrCtx with outputTypes := ["GLint"] }
        khrFeature1 "" =
      (GLB_SUCCESS, { khrCtx with outputTypes := ["GLint"] },
        "#ifndef F1\n#define F1 1\n#endif /* F1 */\n") := by
  refine ⟨by decide, rfl, rfl, rfl, by decide, rfl, rfl⟩

/-- C2, amended. In a successful run of `glbBuildGenerateCode_C_Main` from the
empty ledger, every name other than "khrplatform" listed in the types of a
Require of an emitted Feature or Extension resolves to a Type `t`, is
recorded in the ledger exactly once, and the line of `t` is written exactly
once among the type lines of the block of the first Feature/Extension, in
traversal order, that refers to the name in a types list or as a semantic
type of a required command; that block is part of the generated text.  The
final ledger is the list of the first occurrences of the resolving names, and
the text is the six groups of blocks, each block with the type lines of the
names it added to the ledger. -/
theorem C2_type_written_once_at_first_reference (context : glbBuild) (codeOut n : String)
    (hempty : context.outputTypes = [])
    (hrun : (glbBuildGenerateCode_C_Main context codeOut).1 = GLB_SUCCESS)
    (hk : n ≠ "khrplatform")
    (hreq : ∃ v ∈ traversal context, ∃ r ∈ v.2, n ∈ r.types) :
    (glbBuildGenerateCode_C_Main context codeOut).2.1.outputTypes =
      newNames context [] (unitsTypeNames context (traversal context)) ∧
    (glbBuildGenerateCode_C_Main context codeOut).2.2 =
      codeOut ++ stagesText context [] (mainStages context) ∧
    ∃ t before u after pre post a b,
      glbBuildFindType context n = .ok t ∧
      (glbBuildGenerateCode_C_Main context codeOut).2.1.outputTypes.count n = 1 ∧
      traversal context = before ++ u :: after ∧
      n ∉ unitsTypeNames context before ∧ n ∈ blockTypeNames context u.2 ∧
      n ∉ pre ∧ n ∉ post ∧
      (glbBuildGenerateCode_C_Main context codeOut).2.2 =
        codeOut ++ a ++
          ("#ifndef " ++ u.1 ++ "\n" ++ ("#define " ++ u.1 ++ " 1\n") ++
            (typesText context pre ++ (if t.valueC ≠ "" then t.valueC ++ "\n" else "") ++
              typesText context post) ++
            enumsText context (u.2.flatMap (fun r => r.enums)) ++
            commandsText context (u.2.flatMap (fun r => r.commands)) ++
            ("#endif /* " ++ u.1 ++ " */\n")) ++ b := by
  obtain ⟨v, hv, r, hr, hn⟩ := hreq
  have hres := resolves_of_listed context codeOut n hempty hrun hk v hv r hr hn
  obtain ⟨t, ht⟩ := (resolvesType_true_iff context n).mp hres
  have hall : n ∈ (traversal context).flatMap
      (fun u : String × List glbRequire => blockTypeNames context u.2) :=
    List.mem_flatMap.mpr ⟨v, hv, mem_blockTypeNames_of_listed context v.2 r hr n hn⟩
  obtain ⟨before, u, after, hsplit, hfirst, hin⟩ :=
    flatMap_first (fun u : String × List glbRequire => blockTypeNames context u.2) n
      (traversal context) hall
  obtain ⟨hcount, ⟨pre, post, hpp, hpre, hpost⟩, a, b, htext⟩ :=
    written_at_first_reference context codeOut n before u after hempty hrun hk hres hsplit
      hfirst hin
  have hwhole := whole_run context codeOut hempty hrun
  refine ⟨hwhole.1, hwhole.2, t, before, u, after, pre, post, a, b, ht, hcount, hsplit, hfirst,
    hin, hpre, hpost, ?_⟩
  rw [htext, blockText, hpp, typesText_split_at context pre post n t ht]

theorem C2_type_written_once_at_first_reference_witness :
    scenarioCtx.outputTypes = [] ∧
    (glbBuildGenerateCode_C_Main scenarioCtx "").1 = GLB_SUCCESS ∧
    ∃ t, glbBuildFindType scenarioCtx "GLint" = .ok t ∧
      (glbBuildGenerateCode_C_Main scenarioCtx "").2.1.outputTypes.count "GLint" = 1 := by
  obtain ⟨_, _, t, _, _, _, _, _, _, _, ht, hcount, _⟩ :=
    C2_type_written_once_at_first_reference scenarioCtx "" "GLint" rfl rfl (by decide)
      ⟨("GL_VERSION_1_0", [scenarioRequire]), by decide, scenarioRequire, by decide, by decide⟩
  exact ⟨rfl, rfl, t, ht, hcount⟩

/-- C3, as stated, fails: in the registry `earlyCtx` the names GLsizei and
"khrplatform" are each listed in the types of exactly one Feature, B, and
both resolve to a Type with a non-empty `valueC`; the run from the empty
ledger succeeds.  The Feature A, emitted first, requires a command with a
parameter of the semantic type GLsizei, so that typedef is written in the
block of A; "khrplatform" is never written; and the text emitted for B holds
nothing between its guard lines. -/
theorem C3_counterexample :
    (∀ n ∈ ["GLsizei", "khrplatform"],
      earlyCtx.features.filter
        (fun f => f.requires.any (fun r => r.types.contains n)) = [earlyFeatureB]) ∧
    glbBuildFindType earlyCtx "GLsizei" =
      .ok { name := "GLsizei", valueC := "typedef int GLsizei;", requires := "" } ∧
    glbBuildFindType earlyCtx "khrplatform" =
      .ok { name := "khrplatform", valueC := "#include <KHR/khrplatform.h>", requires := "" } ∧
    earlyCtx.outputTypes = [] ∧
    glbBuildGenerateCode_C_Main earlyCtx "" =
      (GLB_SUCCESS, { earlyCtx with outputTypes := ["GLsizei"] },
        "#ifndef A\n#define A 1\ntypedef int GLsizei;\ntypedef void (APIENTRYP PFNGLRESIZEPROC)(GLsizei n);\n#endif /* A */\n\n#ifndef B\n#define B 1\n#endif /* B */\n\n#if defined(GLBIND_WGL)\n#endif /* GLBIND_WGL */\n\n#if defined(GLBIND_GLX)\n#endif /* GLBIND_GLX */\n\n#if defined(GLBIND_WGL)\n#endif /* GLBIND_WGL */\n\n#if defined(GLBIND_GLX)\n#endif /* GLBIND_GLX */\n") ∧
    glbBuildGenerateCode_C_Main_Feature { earlyCtx with outputTypes := ["GLsizei"] }
        earlyFeatureB "" =
      (GLB_SUCCESS, { earlyCtx with outputTypes := ["GLsizei"] },
        "#ifndef B\n#define B 1\n#endif /* B */\n") := by
  refine ⟨by decide, rfl, rfl, rfl, rfl, rfl⟩

/-- C3, amended. In a successful run of `glbBuildGenerateCode_C_Main` from the
empty ledger, if a name other than "khrplatform" is listed in the types of a
Require of an emitted Feature (or Extension) `u`, and no Feature/Extension
emitted before `u` refers to the name (in a types list or as a semantic type
of a required command), then the name resolves to a Type `t`, the block of `u`
is part of the generated text, and the line of `t` occurs exactly once among
its type lines; the name is in the ledger exactly once. -/
theorem C3_type_written_in_its_feature (context : glbBuild) (codeOut n : String)
    (before : List (String × List glbRequire)) (u : String × List glbRequire)
    (after : List (String × List glbRequire))
    (hempty : context.outputTypes = [])
    (hrun : (glbBuildGenerateCode_C_Main context codeOut).1 = GLB_SUCCESS)
    (hk : n ≠ "khrplatform")
    (hsplit : traversal context = before ++ u :: after)
    (hlisted : ∃ r ∈ u.2, n ∈ r.types)
    (hfirst : n ∉ unitsTypeNames context before) :
    ∃ t pre post a b,
      glbBuildFindType context n = .ok t ∧
      (glbBuildGenerateCode_C_Main context codeOut).2.1.outputTypes.count n = 1 ∧
      n ∉ pre ∧ n ∉ post ∧
      (glbBuildGenerateCode_C_Main context codeOut).2.2 =
        codeOut ++ a ++
          ("#ifndef " ++ u.1 ++ "\n" ++ ("#define " ++ u.1 ++ " 1\n") ++
            (typesText context pre ++ (if t.valueC ≠ "" then t.valueC ++ "\n" else "") ++
              typesText context post) ++
            enumsText context (u.2.flatMap (fun r => r.enums)) ++
            commandsText context (u.2.flatMap (fun r => r.commands)) ++
            ("#endif /* " ++ u.1 ++ " */\n")) ++ b := by
  obtain ⟨r, hr, hn⟩ := hlisted
  have hu : u ∈ traversal context := by rw [hsplit]; simp
  have hres := resolves_of_listed context codeOut n hempty hrun hk u hu r hr hn
  obtain ⟨t, ht⟩ := (resolvesType_true_iff context n).mp hres
  have hin := mem_blockTypeNames_of_listed context u.2 r hr n hn
  obtain ⟨hcount, ⟨pre, post, hpp, hpre, hpost⟩, a, b, htext⟩ :=
    written_at_first_reference context codeOut n before u after hempty hrun hk hres hsplit
      hfirst hin
  refine ⟨t, pre, post, a, b, ht, hcount, hpre, hpost, ?_⟩
  rw [htext, blockText, hpp, typesText_split_at context pre post n t ht]

theorem C3_type_written_in_its_feature_witness :
    scenarioCtx.outputTypes = [] ∧
    (glbBuildGenerateCode_C_Main scenarioCtx "").1 = GLB_SUCCESS ∧
    traversal scenarioCtx = [] ++ ("GL_VERSION_1_0", [scenarioRequire]) :: [] ∧
    ∃ t, glbBuildFindType scenarioCtx "GLint" = .ok t ∧
      (glbBuildGenerateCode_C_Main scenarioCtx "").2.1.outputTypes.count "GLint" = 1 := by
  obtain ⟨t, _, _, _, _, ht, hcount, _⟩ :=
    C3_type_written_in_its_feature scenarioCtx "" "GLint" []
      ("GL_VERSION_1_0", [scenarioRequire]) [] rfl rfl (by decide) (by decide)
      ⟨scenarioRequire, by decide, by decide⟩ (by decide)
  exact ⟨rfl, rfl, by decide, t, ht, hcount⟩

/-! ## The order of the generated text -/

theorem unitsText_succ (c : glbBuild) (k : Nat) (l : List String)
    (units : List (String × List glbRequire)) :
    unitsText c (k + 1) l units =
      concatAll ((unitsBlocks c l units).map (fun b => "\n" ++ b)) := by
  induction units generalizing k l with
  | nil => rfl
  | cons u rest ih =>
    simp only [unitsText, unitsBlocks, List.map_cons, concatAll_cons, ih]
    simp [String.append_assoc]

theorem unitsText_zero (c : glbBuild) (l : List String)
    (units : List (String × List glbRequire)) :
    unitsText c 0 l units = "\n".intercalate (unitsBlocks c l units) := by
  cases units with
  | nil => rfl
  | cons u rest =>
    simp only [unitsText, unitsBlocks, String.intercalate, unitsText_succ]
    have hgo : ∀ (acc : String) (xs : List String),
        String.intercalate.go acc "\n" xs = acc ++ concatAll (xs.map (fun x => "\n" ++ x)) := by
      intro acc xs
      induction xs generalizing acc with
      | nil => simp [String.intercalate.go]
      | cons x r ih => simp [String.intercalate.go, ih, String.append_assoc]
    rw [hgo]
    simp

theorem stdFindAux_isSome (pat : List Char) (l : List Char) (pos : Nat) :
    (stdFindAux pat l pos).isSome = true ↔ pat <:+: l := by
  induction l generalizing pos with
  | nil =>
    unfold stdFindAux
    by_cases h : pat = [] <;> simp [h]
  | cons c rest ih =>
    unfold stdFindAux
    rw [List.infix_cons_iff]
    by_cases h : pat.isPrefixOf (c :: rest) = true
    · simp only [h, if_true, Option.isSome_some, true_iff]
      exact Or.inl (List.isPrefixOf_iff_prefix.mp h)
    · simp only [h, if_false, Bool.false_eq_true]
      rw [ih]
      constructor
      · exact Or.inr
      · rintro (h' | h')
        · exact absurd (List.isPrefixOf_iff_prefix.mpr h') h
        · exact h'

theorem glbContains_iff (source other : String) :
    glbContains source other = true ↔ other.data <:+: source.data := by
  unfold glbContains stdFind
  simp only [Nat.zero_le, if_true, List.drop_zero]
  exact stdFindAux_isSome _ _ _

theorem findTypeLoop_eq (ts : List glbType) (n : String) :
    glbBuildFindTypeLoop ts n =
      match ts.find? (fun t => t.name = n) with
      | some t => .ok t
      | none => .error GLB_ERROR := by
  induction ts with
  | nil => rfl
  | cons t r ih =>
    unfold glbBuildFindTypeLoop
    by_cases h : t.name = n
    · simp [h]
    · simp only [h, if_false, List.find?_cons, decide_False]
      exact ih

theorem findEnumInner_eq (es : List glbEnum) (n : String) :
    glbBuildFindEnumInner es n = es.find? (fun e => e.name = n) := by
  induction es with
  | nil => rfl
  | cons e r ih =>
    unfold glbBuildFindEnumInner
    by_cases h : e.name = n
    · simp [h]
    · simp only [h, if_false, List.find?_cons, decide_False]
      exact ih

theorem findEnumLoop_eq (bs : List glbEnums) (n : String) :
    glbBuildFindEnumLoop bs n =
      match (bs.flatMap (fun b => b.enums)).find? (fun e => e.name = n) with
      | some e => .ok e
      | none => .error GLB_ERROR := by
  induction bs with
  | nil => rfl
  | cons b r ih =>
    unfold glbBuildFindEnumLoop
    rw [findEnumInner_eq, List.flatMap_cons, List.find?_append]
    cases h : b.enums.find? (fun e => e.name = n) with
    | some e => simp
    | none => simpa using ih

theorem findCommandInner_eq (cs : List glbCommand) (n : String) :
    glbBuildFindCommandInner cs n = cs.find? (fun c => c.name = n) := by
  induction cs with
  | nil => rfl
  | cons c r ih =>
    unfold glbBuildFindCommandInner
    by_cases h : c.name = n
    · simp [h]
    · simp only [h, if_false, List.find?_cons, decide_False]
      exact ih

theorem findCommandLoop_eq (bs : List glbCommands) (n : String) :
    glbBuildFindCommandLoop bs n =
      match (bs.flatMap (fun b => b.commands)).find? (fun c => c.name = n) with
      | some c => .ok c
      | none => .error GLB_ERROR := by
  induction bs with
  | nil => rfl
  | cons b r ih =>
    unfold glbBuildFindCommandLoop
    rw [findCommandInner_eq, List.flatMap_cons, List.find?_append]
    cases h : b.commands.find? (fun c => c.name = n) with
    | some c => simp
    | none => simpa using ih

/-- C11. When emission succeeds, the text produced by
`glbBuildGenerateCode_C_Main` is, after what the output held, in this order:
the blocks of the Features with api "gl"; the line `#if defined(GLBIND_WGL)`,
the blocks of the Features with api "wgl" and `#endif`; the same with
GLBIND_GLX for api "glx"; the blocks of the gl/glcore Extensions; a GLBIND_WGL
section with the wgl Extensions; a GLBIND_GLX section with the glx
Extensions.  Inside a group the blocks are in Registry order with one line
break between two of them, and each block is the guard lines around its
body. -/
theorem C11_traversal_order (context : glbBuild) (codeOut : String)
    (l1 l2 l3 l4 l5 : List String)
    (hrun : (glbBuildGenerateCode_C_Main context codeOut).1 = GLB_SUCCESS)
    (h1 : l1 = ledgerAfter context context.outputTypes (featureUnits context "gl"))
    (h2 : l2 = ledgerAfter context l1 (featureUnits context "wgl"))
    (h3 : l3 = ledgerAfter context l2 (featureUnits context "glx"))
    (h4 : l4 = ledgerAfter context l3 (extensionUnits context Main_selectGL))
    (h5 : l5 = ledgerAfter context l4 (extensionUnits context Main_selectWGL)) :
    (glbBuildGenerateCode_C_Main context codeOut).2.2 =
      codeOut ++
        "\n".intercalate (unitsBlocks context context.outputTypes (featureUnits context "gl")) ++
        "\n#if defined(GLBIND_WGL)\n" ++
        "\n".intercalate (unitsBlocks context l1 (featureUnits context "wgl")) ++
        "#endif /* GLBIND_WGL */\n" ++
        "\n#if defined(GLBIND_GLX)\n" ++
        "\n".intercalate (unitsBlocks context l2 (featureUnits context "glx")) ++
        "#endif /* GLBIND_GLX */\n" ++
        "\n".intercalate (unitsBlocks context l3 (extensionUnits context Main_selectGL)) ++
        "\n#if defined(GLBIND_WGL)\n" ++
        "\n".intercalate (unitsBlocks context l4 (extensionUnits context Main_selectWGL)) ++
        "#endif /* GLBIND_WGL */\n" ++
        "\n#if defined(GLBIND_GLX)\n" ++
        "\n".intercalate (unitsBlocks context l5 (extensionUnits context Main_selectGLX)) ++
        "#endif /* GLBIND_GLX */\n" ∧
    (∀ api, featureUnits context api =
      (context.features.filter (fun f => f.api = api)).map (fun f => (f.name, f.requires))) ∧
    (∀ select, extensionUnits context select =
      (context.extensions.filter select).map (fun e => (e.name, e.requires))) ∧
    ∀ ledger name requires, blockText context ledger name requires =
      "#ifndef " ++ name ++ "\n" ++ ("#define " ++ name ++ " 1\n") ++
        typesText context (newNames context ledger (blockTypeNames context requires)) ++
        enumsText context (requires.flatMap (fun r => r.enums)) ++
        commandsText context (requires.flatMap (fun r => r.commands)) ++
        ("#endif /* " ++ name ++ " */\n") := by
  refine ⟨?_, fun _ => rfl, fun _ => rfl, fun _ _ _ => rfl⟩
  obtain ⟨r, pre, δ, -, hmain, -, hall, -⟩ := main_run context context.outputTypes
  simp only [setLedger_self] at hmain
  rw [hmain] at hrun ⊢
  simp only [] at hrun
  subst hrun
  obtain ⟨-, hδ⟩ := hall rfl
  subst hδ h5 h4 h3 h2 h1
  simp only [stagesText, mainStages, unitsText_zero, ledgerAfter, String.append_assoc,
    String.append_empty, String.empty_append]

theorem C11_traversal_order_witness :
    (glbBuildGenerateCode_C_Main scenarioCtx "").2.2 =
      "" ++
        "\n".intercalate (unitsBlocks scenarioCtx scenarioCtx.outputTypes
          (featureUnits scenarioCtx "gl")) ++
        "\n#if defined(GLBIND_WGL)\n" ++
        "\n".intercalate (unitsBlocks scenarioCtx ["GLint"] (featureUnits scenarioCtx "wgl")) ++
        "#endif /* GLBIND_WGL */\n" ++
        "\n#if defined(GLBIND_GLX)\n" ++
        "\n".intercalate (unitsBlocks scenarioCtx ["GLint"] (featureUnits scenarioCtx "glx")) ++
        "#endif /* GLBIND_GLX */\n" ++
        "\n".intercalate (unitsBlocks scenarioCtx ["GLint"]
          (extensionUnits scenarioCtx Main_selectGL)) ++
        "\n#if defined(GLBIND_WGL)\n" ++
        "\n".intercalate (unitsBlocks scenarioCtx ["GLint"]
          (extensionUnits scenarioCtx Main_selectWGL)) ++
        "#endif /* GLBIND_WGL */\n" ++
        "\n#if defined(GLBIND_GLX)\n" ++
        "\n".intercalate (unitsBlocks scenarioCtx ["GLint"]
          (extensionUnits scenarioCtx Main_selectGLX)) ++
        "#endif /* GLBIND_GLX */\n" :=
  (C11_traversal_order scenarioCtx "" ["GLint"] ["GLint"] ["GLint"] ["GLint"] ["GLint"]
    rfl rfl rfl rfl rfl rfl).1

/-- C12. An Extension passes the test of the gl extension group exactly when
its supported string is "gl", or contains "gl|", or contains "glcore".  The
loop of the group emits exactly the Extensions that pass, in Registry order;
when it runs to its end, what it appended is their blocks with one line break
between two consecutive blocks and none before the first. -/
theorem C12_gl_extension_group (context : glbBuild) (codeOut : String) :
    (∀ e : glbExtension, Main_selectGL e = true ↔
      (e.supported = "gl" ∨ "gl|".data <:+: e.supported.data ∨
        "glcore".data <:+: e.supported.data)) ∧
    (∀ (es : List glbExtension) (counter : Nat),
      Main_extensions Main_selectGL context es counter codeOut =
        unitsLoop context ((es.filter Main_selectGL).map (fun e => (e.name, e.requires)))
          counter codeOut) ∧
    ((Main_extensions Main_selectGL context context.extensions 0 codeOut).1 = none →
      (Main_extensions Main_selectGL context context.extensions 0 codeOut).2.2 =
        codeOut ++ "\n".intercalate (unitsBlocks context context.outputTypes
          ((context.extensions.filter Main_selectGL).map (fun e => (e.name, e.requires))))) := by
  refine ⟨?_, fun es counter => main_extensions_eq _ _ _ _ _, ?_⟩
  · intro e
    unfold Main_selectGL
    simp only [Bool.or_eq_true, decide_eq_true_eq, glbContains_iff, or_assoc]
  · intro h
    rw [main_extensions_eq] at h ⊢
    obtain ⟨r, pre, δ, -, hrun, -, hall, -⟩ :=
      unitsLoop_run context
        ((context.extensions.filter Main_selectGL).map (fun e => (e.name, e.requires)))
        context.outputTypes 0
    simp only [setLedger_self] at hrun
    rw [hrun] at h ⊢
    simp only [] at h
    obtain ⟨-, hδ⟩ := hall h
    rw [hδ, unitsText_zero]

theorem C12_gl_extension_group_witness :
    (Main_extensions Main_selectGL extensionsCtx extensionsCtx.extensions 0 "").2.2 =
      "#ifndef GL_EXT_a\n#define GL_EXT_a 1\ntypedef int GLint;\n#endif /* GL_EXT_a */\n\n#ifndef GL_EXT_c\n#define GL_EXT_c 1\ntypedef void (APIENTRYP PFNGLCLEARPROC)(GLbitfield mask);\n#endif /* GL_EXT_c */\n" := by
  have h := (C12_gl_extension_group extensionsCtx "").2.2 rfl
  rw [h]
  rfl

/-- C19. First match wins in the three lookups: `glbBuildFindType` returns
the first Type of `context.types` with the name, `glbBuildFindEnum` the first
enum with the name in the concatenation of the enums of all blocks,
`glbBuildFindCommand` the first command with the name in the concatenation of
the commands of all blocks; each returns `GLB_ERROR` (and no declaration)
exactly when no declaration of its kind has the name. -/
theorem C19_first_match_wins (context : glbBuild) (name : String) :
    (glbBuildFindType context name =
      match context.types.find? (fun t => t.name = name) with
      | some t => .ok t
      | none => .error GLB_ERROR) ∧
    (glbBuildFindEnum context name =
      match (context.enums.flatMap (fun b => b.enums)).find? (fun e => e.name = name) with
      | some e => .ok e
      | none => .error GLB_ERROR) ∧
    (glbBuildFindCommand context name =
      match (context.commands.flatMap (fun b => b.commands)).find?
          (fun c => c.name = name) with
      | some c => .ok c
      | none => .error GLB_ERROR) ∧
    (glbBuildFindType context name = .error GLB_ERROR ↔
      ∀ t ∈ context.types, t.name ≠ name) ∧
    (glbBuildFindEnum context name = .error GLB_ERROR ↔
      ∀ b ∈ context.enums, ∀ e ∈ b.enums, e.name ≠ name) ∧
    (glbBuildFindCommand context name = .error GLB_ERROR ↔
      ∀ b ∈ context.commands, ∀ c ∈ b.commands, c.name ≠ name) ∧
    (∀ t, glbBuildFindType context name = .ok t →
      ∃ before after, context.types = before ++ t :: after ∧ t.name = name ∧
        ∀ x ∈ before, x.name ≠ name) := by
  have hT := findTypeLoop_eq context.types name
  have hE := findEnumLoop_eq context.enums name
  have hC := findCommandLoop_eq context.commands name
  refine ⟨hT, hE, hC, ?_, ?_, ?_, ?_⟩
  · unfold glbBuildFindType
    rw [hT]
    cases h : context.types.find? (fun t => t.name = name) with
    | some t =>
      simp only [false_iff, reduceCtorEq]
      intro hall
      have := List.find?_some h
      have hm := List.mem_of_find?_eq_some h
      exact hall t hm (by simpa using this)
    | none =>
      simp only [true_iff]
      intro t ht
      have := List.find?_eq_none.mp h t ht
      simpa using this
  · unfold glbBuildFindEnum
    rw [hE]
    cases h : (context.enums.flatMap (fun b => b.enums)).find? (fun e => e.name = name) with
    | some e =>
      simp only [false_iff, reduceCtorEq]
      intro hall
      have := List.find?_some h
      obtain ⟨b, hb, he⟩ := List.mem_flatMap.mp (List.mem_of_find?_eq_some h)
      exact hall b hb e he (by simpa using this)
    | none =>
      simp only [true_iff]
      intro b hb e he
      have := List.find?_eq_none.mp h e (List.mem_flatMap.mpr ⟨b, hb, he⟩)
      simpa using this
  · unfold glbBuildFindCommand
    rw [hC]
    cases h : (context.commands.flatMap (fun b => b.commands)).find?
        (fun c => c.name = name) with
    | some e =>
      simp only [false_iff, reduceCtorEq]
      intro hall
      have := List.find?_some h
      obtain ⟨b, hb, he⟩ := List.mem_flatMap.mp (List.mem_of_find?_eq_some h)
      exact hall b hb e he (by simpa using this)
    | none =>
      simp only [true_iff]
      intro b hb e he
      have := List.find?_eq_none.mp h e (List.mem_flatMap.mpr ⟨b, hb, he⟩)
      simpa using this
  · intro t ht
    unfold glbBuildFindType at ht
    rw [hT] at ht
    cases h : context.types.find? (fun t => t.name = name) with
    | none => rw [h] at ht; cases ht
    | some t' =>
      rw [h] at ht
      simp only [Except.ok.injEq] at ht
      subst ht
      obtain ⟨hp, before, after, hsplit, hbefore⟩ := List.find?_eq_some.mp h
      refine ⟨before, after, hsplit, by simpa using hp, ?_⟩
      intro x hx
      have := hbefore x hx
      simpa using this

/-- Among two Types of the same name the first is found. -/
theorem findType_duplicates :
    glbBuildFindType duplicatesCtx "GLint" =
      .ok { name := "GLint", valueC := "typedef int GLint;", requires := "" } ∧
    glbBuildFindEnum duplicatesCtx "GL_TRUE" = .ok { name := "GL_TRUE", value := "1", type := "" } ∧
    glbBuildFindCommand duplicatesCtx "glClear" =
      .ok { returnType := "", returnTypeC := "void", name := "glClear", params := [],
            alias_ := "" } :=
  ⟨rfl, rfl, rfl⟩

/-! ## Whitespace trimming -/

theorem getLast?_dropWhile {α : Type} (p : α → Bool) (l : List α) (c : α)
    (h : (l.dropWhile p).getLast? = some c) : l.getLast? = some c := by
  have hl := List.takeWhile_append_dropWhile p l
  rw [← hl, List.getLast?_append, h]
  rfl

theorem glbTrim_spec (s : String) :
    ∃ a b, s.data = a ++ (glbTrim s).data ++ b ∧
      (∀ c ∈ a, isspace c = true) ∧ (∀ c ∈ b, isspace c = true) ∧
      (∀ c, (glbTrim s).data.head? = some c → isspace c = false) ∧
      (∀ c, (glbTrim s).data.getLast? = some c → isspace c = false) := by
  have hr : (glbRTrim s).data = (s.data.reverse.dropWhile isspace).reverse := rfl
  have ht : (glbTrim s).data = (glbRTrim s).data.dropWhile isspace := rfl
  refine ⟨(glbRTrim s).data.takeWhile isspace, (s.data.reverse.takeWhile isspace).reverse,
    ?_, ?_, ?_, ?_, ?_⟩
  · rw [ht, List.takeWhile_append_dropWhile, hr, ← List.reverse_append,
      List.takeWhile_append_dropWhile, List.reverse_reverse]
  · intro c hc
    exact (List.mem_takeWhile_imp hc)
  · intro c hc
    rw [List.mem_reverse] at hc
    exact (List.mem_takeWhile_imp hc)
  · intro c hc
    rw [ht] at hc
    have := List.head?_dropWhile_not isspace (glbRTrim s).data
    rw [hc] at this
    simpa using this
  · intro c hc
    rw [ht] at hc
    have h1 := getLast?_dropWhile isspace _ c hc
    rw [hr, List.getLast?_reverse] at h1
    have := List.head?_dropWhile_not isspace s.data.reverse
    rw [h1] at this
    simpa using this

/-! ## The type/name-pair rule -/

theorem lastTypeText_nil (d : String) : lastTypeText [] d = d := rfl

theorem lastTypeText_cons (n : XMLNode) (rest : List XMLNode) (d : String) :
    lastTypeText (n :: rest) d =
      lastTypeText rest (if isTypeElement n = true then firstChildValue n else d) := by
  unfold lastTypeText
  by_cases h : isTypeElement n = true
  · simp only [List.filter_cons, h, if_true, List.getLast?_cons]
    cases (rest.filter isTypeElement).getLast? <;> rfl
  · simp only [List.filter_cons, h, if_false, Bool.false_eq_true]

theorem pairLoop_cons (pChild : XMLNode) (rest : List XMLNode) (type typeC name : String) :
    ParseTypeNamePair_loop (pChild :: rest) type typeC name =
      if pChild.ToElement then
        if pChild.Name = "name" then
          match pChild.FirstChild with
          | none => none
          | some first => some (type, typeC, first.Value)
        else
          match pChild.FirstChild with
          | none => none
          | some first =>
            ParseTypeNamePair_loop rest
              (if pChild.Name = "type" ∨ pChild.Name = "ptype" then first.Value else type)
              (typeC ++ first.Value) name
      else
        ParseTypeNamePair_loop rest type (typeC ++ pChild.Value) name := by
  rw [ParseTypeNamePair_loop]

theorem pairLoop_pre (pre : List XMLNode)
    (hpre : ∀ n ∈ pre, isNameElement n = false)
    (hwf : ∀ n ∈ pre, n.ToElement = true → n.FirstChild.isSome = true)
    (tail : List XMLNode) (type typeC name : String) :
    ParseTypeNamePair_loop (pre ++ tail) type typeC name =
      ParseTypeNamePair_loop tail (lastTypeText pre type)
        (typeC ++ concatAll (pre.map nodeText)) name := by
  induction pre generalizing type typeC with
  | nil => simp [lastTypeText_nil]
  | cons n rest ih =>
    have hn := hpre n (List.mem_cons_self _ _)
    have ih' := fun t tc => ih (fun m hm => hpre m (List.mem_cons_of_mem _ hm))
      (fun m hm => hwf m (List.mem_cons_of_mem _ hm)) t tc
    simp only [List.cons_append, List.map_cons, concatAll_cons, lastTypeText_cons]
    rw [pairLoop_cons]
    by_cases he : n.ToElement = true
    · have hname : ¬ n.Name = "name" := by
        intro h'
        simp [isNameElement, isElementNamed, he, h'] at hn
      have hfc := hwf n (List.mem_cons_self _ _) he
      cases hf : n.FirstChild with
      | none => rw [hf] at hfc; cases hfc
      | some first =>
        simp only [he, if_true, hname, if_false]
        rw [ih']
        have h1 : nodeText n = first.Value := by simp [nodeText, he, firstChildValue, hf]
        have h2 : firstChildValue n = first.Value := by simp [firstChildValue, hf]
        have h3 : (isTypeElement n = true) ↔ (n.Name = "type" ∨ n.Name = "ptype") := by
          simp [isTypeElement, he]
        rw [h1, h2]
        simp only [h3, String.append_assoc]
    · have h1 : nodeText n = n.Value := by simp [nodeText, he]
      have h3 : ¬ isTypeElement n = true := by simp [isTypeElement, he]
      simp only [he, if_false, h3, Bool.false_eq_true]
      rw [ih', h1]
      simp only [String.append_assoc]

theorem parseTypeNamePair_eq (tag : String) (attrs : List (String × String))
    (pre tail : List XMLNode)
    (hpre : ∀ n ∈ pre, isNameElement n = false)
    (hwf : ∀ n ∈ pre, n.ToElement = true → n.FirstChild.isSome = true)
    (htail : tail = [] ∨ ∃ nm rest, tail = nm :: rest ∧ isNameElement nm = true ∧
      nm.FirstChild.isSome = true) :
    glbBuildParseTypeNamePair (.element tag attrs (pre ++ tail)) =
      some (GLB_SUCCESS, lastTypeText pre "", glbTrim (concatAll (pre.map nodeText)),
        match tail.head? with
        | some nm => firstChildValue nm
        | none => "") := by
  unfold glbBuildParseTypeNamePair
  simp only [XMLNode.childNodes]
  rw [pairLoop_pre pre hpre hwf]
  rcases htail with h | ⟨nm, rest, h, hnm, hfc⟩
  · subst h
    simp [ParseTypeNamePair_loop]
  · subst h
    unfold ParseTypeNamePair_loop
    have he : nm.ToElement = true := by
      simp [isNameElement, isElementNamed] at hnm; exact hnm.1
    have hname : nm.Name = "name" := by
      simp [isNameElement, isElementNamed] at hnm; exact hnm.2
    cases hf : nm.FirstChild with
    | none => rw [hf] at hfc; cases hfc
    | some first =>
      simp [he, hname, firstChildValue, hf]

/-- C13, as stated, fails: in the proto
`<proto><ptype>A</ptype> *<type>B</type> *<name>f</name></proto>` the first
type/ptype element before the name has the text "A", and
`glbBuildParseTypeNamePair` returns the semantic type "B", the text of the
last one. -/
theorem C13_counterexample :
    firstTypeText (twoTypesProto.childNodes.takeWhile (fun n => !isNameElement n)) = "A" ∧
    glbBuildParseTypeNamePair twoTypesProto = some (GLB_SUCCESS, "B", "A *B *", "f") := by
  refine ⟨rfl, rfl⟩

/-- C13, amended. For a declaration element whose children are `pre` followed
by nothing or by a `name` element and further nodes, where `pre` holds no
`name` element and every element read has a first child, the semantic type
returned by `glbBuildParseTypeNamePair` is the text of the LAST `type` or
`ptype` element of `pre`, and is empty when `pre` holds none; with at most one
such element it is also the text of the first. -/
theorem C13_semantic_type_is_last (tag : String) (attrs : List (String × String))
    (pre tail : List XMLNode)
    (hpre : ∀ n ∈ pre, isNameElement n = false)
    (hwf : ∀ n ∈ pre, n.ToElement = true → n.FirstChild.isSome = true)
    (htail : tail = [] ∨ ∃ nm rest, tail = nm :: rest ∧ isNameElement nm = true ∧
      nm.FirstChild.isSome = true) :
    (glbBuildParseTypeNamePair (.element tag attrs (pre ++ tail))).map (fun r => r.2.1) =
      some (match (pre.filter isTypeElement).getLast? with
            | some e => firstChildValue e
            | none => "") ∧
    ((pre.filter isTypeElement).length ≤ 1 →
      (glbBuildParseTypeNamePair (.element tag attrs (pre ++ tail))).map (fun r => r.2.1) =
        some (firstTypeText pre)) := by
  rw [parseTypeNamePair_eq tag attrs pre tail hpre hwf htail]
  refine ⟨rfl, ?_⟩
  intro hlen
  simp only [Option.map_some', lastTypeText, firstTypeText]
  cases hf : pre.filter isTypeElement with
  | nil => rfl
  | cons a r =>
    rw [hf] at hlen
    cases r with
    | nil => rfl
    | cons b r' => simp at hlen

theorem C13_semantic_type_is_last_witness :
    (glbBuildParseTypeNamePair pointerParam).map (fun r => r.2.1) = some "GLubyte" :=
  (C13_semantic_type_is_last "param" [("group", "G")]
    [.text " const ", .element "ptype" [] [.text "GLubyte"], .text " *"]
    [.element "name" [] [.text "v"], .text "trailing", .element "type" [] [.text "T"]]
    (by decide) (by decide) (Or.inr ⟨_, _, rfl, by decide, by decide⟩)).1

/-- C14 as stated fails: in the param
`<param><ptype><b>x</b>GLint</ptype> *<name>v</name></param>` every nested
element has a text child, and the full type text the claim describes, with
the text "GLint" of the `ptype` element, is "GLint *";
`glbBuildParseTypeNamePair` takes the value of the first child node of
`ptype`, which is the tag name of the element `b`, and returns "b *". -/
theorem C14_counterexample :
    (nestedFirstChildParam.childNodes.all (fun n => !n.ToElement || hasTextChild n) = true ∧
      hasTextChild (.element "b" [] [.text "x"]) = true) ∧
    specTypeC nestedFirstChildParam = "GLint *" ∧
    glbBuildParseTypeNamePair nestedFirstChildParam = some (GLB_SUCCESS, "b", "b *", "v") := by
  refine ⟨⟨rfl, rfl⟩, rfl, rfl⟩

/-- C14, amended. For a declaration element whose children are `pre` followed
by nothing or by a `name` element and further nodes, where `pre` holds no
`name` element and every element read has a first child node,
`glbBuildParseTypeNamePair` succeeds and returns as name the value of the first
child node of that `name` element ("" when there is none) and as typeC the
trimmed concatenation, in document order, of the value of every node of `pre`
that is not an element (a text, but also a comment) and of the value of the
first child node of every element of `pre` (its tag name when that child is an
element); the nodes after the `name` element play no part.  Trimming removes
whitespace at both ends only. -/
theorem C14_full_type_text_and_name (tag : String) (attrs : List (String × String))
    (pre tail : List XMLNode)
    (hpre : ∀ n ∈ pre, isNameElement n = false)
    (hwf : ∀ n ∈ pre, n.ToElement = true → n.FirstChild.isSome = true)
    (htail : tail = [] ∨ ∃ nm rest, tail = nm :: rest ∧ isNameElement nm = true ∧
      nm.FirstChild.isSome = true) :
    (glbBuildParseTypeNamePair (.element tag attrs (pre ++ tail))).map
        (fun r => (r.1, r.2.2.1, r.2.2.2)) =
      some (GLB_SUCCESS,
        glbTrim (concatAll (pre.map
          (fun n => if n.ToElement then firstChildValue n else n.Value))),
        match tail.head? with
        | some nm => firstChildValue nm
        | none => "") ∧
    ∀ s : String, ∃ a b, s.data = a ++ (glbTrim s).data ++ b ∧
      (∀ c ∈ a, isspace c = true) ∧ (∀ c ∈ b, isspace c = true) ∧
      (∀ c, (glbTrim s).data.head? = some c → isspace c = false) ∧
      (∀ c, (glbTrim s).data.getLast? = some c → isspace c = false) := by
  rw [parseTypeNamePair_eq tag attrs pre tail hpre hwf htail]
  exact ⟨rfl, glbTrim_spec⟩

theorem C14_full_type_text_and_name_witness :
    (glbBuildParseTypeNamePair pointerParam).map (fun r => (r.1, r.2.2.1, r.2.2.2)) =
      some (GLB_SUCCESS, "const GLubyte *", "v") :=
  (C14_full_type_text_and_name "param" [("group", "G")]
    [.text " const ", .element "ptype" [] [.text "GLubyte"], .text " *"]
    [.element "name" [] [.text "v"], .text "trailing", .element "type" [] [.text "T"]]
    (by decide) (by decide) (Or.inr ⟨_, _, rfl, by decide, by decide⟩)).1

/-! ## Types sections and require elements -/

theorem lastNameText_cons (n : XMLNode) (rest : List XMLNode) (d : String) :
    lastNameText (n :: rest) d =
      lastNameText rest (if isNameElement n = true then firstChildValue n else d) := by
  unfold lastNameText
  by_cases h : isNameElement n = true
  · simp only [List.filter_cons, h, if_true, List.getLast?_cons]
    cases (rest.filter isNameElement).getLast? <;> rfl
  · simp only [List.filter_cons, h, if_false, Bool.false_eq_true]

theorem typesInner_cons (pInnerChild : XMLNode) (rest : List XMLNode) (type : glbType) :
    ParseTypes_inner (pInnerChild :: rest) type =
      if pInnerChild.ToElement then
        match (if pInnerChild.Name = "name" then
                match pInnerChild.FirstChild with
                | none => none
                | some first =>
                  some { type with name := first.Value, valueC := type.valueC ++ first.Value }
              else some type) with
        | none => none
        | some type =>
          ParseTypes_inner rest
            (if pInnerChild.Name = "apientry" then
              { type with valueC := type.valueC ++ "APIENTRY" }
            else type)
      else
        ParseTypes_inner rest { type with valueC := type.valueC ++ pInnerChild.Value } := by
  rw [ParseTypes_inner]

theorem typesInner_eq (nodes : List XMLNode) (type : glbType)
    (hwf : ∀ n ∈ nodes, isNameElement n = true → n.FirstChild.isSome = true) :
    ParseTypes_inner nodes type =
      some { name := lastNameText nodes type.name,
             valueC := type.valueC ++ concatAll (nodes.map typePiece),
             requires := type.requires } := by
  induction nodes generalizing type with
  | nil => simp [ParseTypes_inner, lastNameText]
  | cons n rest ih =>
    have ih' := fun t => ih t (fun m hm => hwf m (List.mem_cons_of_mem _ hm))
    rw [typesInner_cons, lastNameText_cons]
    simp only [List.map_cons, concatAll_cons]
    by_cases he : n.ToElement = true
    · by_cases hname : n.Name = "name"
      · have hisn : isNameElement n = true := by simp [isNameElement, isElementNamed, he, hname]
        have hfc := hwf n (List.mem_cons_self _ _) hisn
        have hap : ¬ n.Name = "apientry" := by rw [hname]; decide
        cases hf : n.FirstChild with
        | none => rw [hf] at hfc; cases hfc
        | some first =>
          simp only [he, if_true, hname, hap, if_false, hisn]
          rw [ih']
          simp [typePiece, he, hname, firstChildValue, hf, String.append_assoc]
      · have hisn : ¬ isNameElement n = true := by
          simp [isNameElement, isElementNamed, he, hname]
        simp only [he, if_true, hname, if_false, hisn]
        rw [ih']
        by_cases hap : n.Name = "apientry"
        · simp [typePiece, he, hname, hap, String.append_assoc]
        · simp [typePiece, he, hname, hap]
    · have hisn : ¬ isNameElement n = true := by simp [isNameElement, isElementNamed, he]
      simp only [he, if_false, hisn, Bool.false_eq_true]
      rw [ih']
      simp [typePiece, he, String.append_assoc]

theorem typesLoop_eq (nodes : List XMLNode) (ctx : glbBuild)
    (hwf : ∀ child ∈ nodes, isTypeChild child = true → wfTypeChild child = true) :
    ParseTypes_loop ctx nodes =
      some { ctx with
        types := ctx.types ++ (nodes.filter isTypeChild).map (fun child =>
          { name := lastNameText child.childNodes (orEmpty (child.Attribute "name")),
            valueC := concatAll (child.childNodes.map typePiece),
            requires := orEmpty (child.Attribute "requires") }) } := by
  induction nodes generalizing ctx with
  | nil => simp [ParseTypes_loop]
  | cons child rest ih =>
    have ih' := fun c => ih c (fun m hm => hwf m (List.mem_cons_of_mem _ hm))
    rw [ParseTypes_loop]
    by_cases he : child.ToElement = true
    · by_cases hc : child.Name = "comment"
      · have hnot : isTypeChild child = false := by simp [isTypeChild, he, hc]
        simp only [he, not_true_eq_false, if_false, hc, if_true, List.filter_cons, hnot,
          Bool.false_eq_true]
        exact ih' ctx
      · have hyes : isTypeChild child = true := by simp [isTypeChild, he, hc]
        have hw := hwf child (List.mem_cons_self _ _) hyes
        have hinner := typesInner_eq child.childNodes
          { name := orEmpty (child.Attribute "name"), valueC := "",
            requires := orEmpty (child.Attribute "requires") }
          (fun n hn hnm => by
            have := (List.all_eq_true.mp hw) n hn
            simpa [hnm] using this)
        simp only [he, not_true_eq_false, if_false, hc, hinner, List.filter_cons, hyes, if_true,
          List.map_cons]
        rw [ih']
        simp
    · have hnot : isTypeChild child = false := by simp [isTypeChild, he]
      simp only [he, not_false_eq_true, if_true, List.filter_cons, hnot, Bool.false_eq_true,
        if_false]
      exact ih' ctx

theorem requireLoop_cons (pChild : XMLNode) (rest : List XMLNode) (require : glbRequire) :
    ParseRequire_loop (pChild :: rest) require =
      if ¬ pChild.ToElement then ParseRequire_loop rest require
      else
        match (if pChild.Name = "type" then
                match stringOfAttribute (pChild.Attribute "name") with
                | none => none
                | some name => some { require with types := require.types ++ [name] }
              else some require) with
        | none => none
        | some require =>
          match (if pChild.Name = "enum" then
                  match stringOfAttribute (pChild.Attribute "name") with
                  | none => none
                  | some name => some { require with enums := require.enums ++ [name] }
                else some require) with
          | none => none
          | some require =>
            match (if pChild.Name = "command" then
                    match stringOfAttribute (pChild.Attribute "name") with
                    | none => none
                    | some name => some { require with commands := require.commands ++ [name] }
                  else some require) with
            | none => none
            | some require => ParseRequire_loop rest require := by
  rw [ParseRequire_loop]

theorem requireNames_cons (tag : String) (n : XMLNode) (rest : List XMLNode) :
    requireNames tag (n :: rest) =
      (if n.ToElement = true ∧ n.Name = tag then [orEmpty (n.Attribute "name")] else []) ++
        requireNames tag rest := by
  unfold requireNames
  by_cases h : n.ToElement = true ∧ n.Name = tag
  · have : isElementNamed tag n = true := by simp [isElementNamed, h.1, h.2]
    simp [List.filter_cons, this, h]
  · have : isElementNamed tag n = false := by
      simp only [isElementNamed, Bool.and_eq_false_iff, decide_eq_false_iff_not]
      by_cases he : n.ToElement = true
      · exact Or.inr (fun hn => h ⟨he, hn⟩)
      · exact Or.inl (by simpa using he)
    simp [List.filter_cons, this, h]

theorem requireLoop_eq (nodes : List XMLNode) (req : glbRequire)
    (hwf : ∀ n ∈ nodes, n.ToElement = true →
      (n.Name = "type" ∨ n.Name = "enum" ∨ n.Name = "command") →
      (n.Attribute "name").isSome = true) :
    ParseRequire_loop nodes req =
      some { types := req.types ++ requireNames "type" nodes,
             enums := req.enums ++ requireNames "enum" nodes,
             commands := req.commands ++ requireNames "command" nodes } := by
  induction nodes generalizing req with
  | nil => simp [ParseRequire_loop, requireNames]
  | cons n rest ih =>
    have ih' := fun r => ih r (fun m hm => hwf m (List.mem_cons_of_mem _ hm))
    rw [requireLoop_cons]
    simp only [requireNames_cons]
    by_cases he : n.ToElement = true
    · simp only [he, not_true_eq_false, if_false, true_and]
      by_cases ht : n.Name = "type"
      · have hattr := hwf n (List.mem_cons_self _ _) he (Or.inl ht)
        have h2 : ¬ n.Name = "enum" := by rw [ht]; decide
        have h3 : ¬ n.Name = "command" := by rw [ht]; decide
        cases ha : n.Attribute "name" with
        | none => rw [ha] at hattr; cases hattr
        | some v =>
          simp [ht, stringOfAttribute, ha, ih', orEmpty]
      · by_cases hen : n.Name = "enum"
        · have hattr := hwf n (List.mem_cons_self _ _) he (Or.inr (Or.inl hen))
          have h3 : ¬ n.Name = "command" := by rw [hen]; decide
          cases ha : n.Attribute "name" with
          | none => rw [ha] at hattr; cases hattr
          | some v =>
            simp [ht, hen, stringOfAttribute, ha, ih', orEmpty]
        · by_cases hc : n.Name = "command"
          · have hattr := hwf n (List.mem_cons_self _ _) he (Or.inr (Or.inr hc))
            cases ha : n.Attribute "name" with
            | none => rw [ha] at hattr; cases hattr
            | some v =>
              simp [ht, hen, hc, stringOfAttribute, ha, ih', orEmpty]
          · simp only [ht, hen, hc, if_false]
            rw [ih']
            simp
    · simp only [he, not_false_eq_true, if_true, false_and, if_false]
      rw [ih']
      simp

/-- C15, as stated, fails: in the type declaration
`<type requires="khrplatform">typedef <b>unsigned</b> int <name>GLuint</name>;</type>`
the nested element `b` is neither `name` nor `apientry`; the concatenation the
claim describes holds its literal text "unsigned", and the `valueC` built by
`glbBuildParseTypes` does not. -/
theorem C15_counterexample :
    concatAll ([XMLNode.text "typedef ", .element "b" [] [.text "unsigned"], .text " int ",
        .element "name" [] [.text "GLuint"], .text ";"].map
      (fun n => if n.ToElement then
          (if n.Name = "apientry" then "APIENTRY" else firstChildValue n)
        else n.Value)) = "typedef unsigned int GLuint;" ∧
    glbBuildParseTypes emptyCtx nestedTypesSection =
      some (GLB_SUCCESS,
        { emptyCtx with
          types := [{ name := "GLuint", valueC := "typedef  int GLuint;",
                      requires := "khrplatform" }] }) := by
  refine ⟨rfl, rfl⟩

/-- C15, amended. For a `types` section in which every nested `name` element
of a declaration has a first child, `glbBuildParseTypes` succeeds and appends,
for every element child that is not a `comment` element and in document
order, a Type whose `valueC` is the concatenation, over the child's inner
nodes in document order, of: the text of a nested `name` element, the token
APIENTRY for a nested `apientry` element, nothing for any other nested
element, and the value of every node that is not an element.  The Type's name
is the text of the last nested `name` element, or the `name` attribute when
there is none. -/
theorem C15_type_native_code (context : glbBuild) (pXMLElement : XMLNode)
    (hwf : ∀ child ∈ pXMLElement.childNodes, child.ToElement = true →
      child.Name ≠ "comment" →
      ∀ n ∈ child.childNodes, n.ToElement = true → n.Name = "name" →
        n.FirstChild.isSome = true) :
    glbBuildParseTypes context pXMLElement =
      some (GLB_SUCCESS,
        { context with
          types := context.types ++
            (pXMLElement.childNodes.filter
              (fun child => child.ToElement && child.Name ≠ "comment")).map
            (fun child =>
              { name := lastNameText child.childNodes (orEmpty (child.Attribute "name")),
                valueC := concatAll (child.childNodes.map (fun n =>
                  if n.ToElement then
                    (if n.Name = "name" then firstChildValue n
                      else if n.Name = "apientry" then "APIENTRY" else "")
                  else n.Value)),
                requires := orEmpty (child.Attribute "requires") }) }) := by
  unfold glbBuildParseTypes
  rw [typesLoop_eq pXMLElement.childNodes context]
  · rfl
  · intro child hchild htc
    simp only [isTypeChild, Bool.and_eq_true, decide_eq_true_eq] at htc
    simp only [wfTypeChild, List.all_eq_true, Bool.or_eq_true, Bool.not_eq_true']
    intro n hn
    by_cases hnm : isNameElement n = true
    · right
      simp only [isNameElement, isElementNamed, Bool.and_eq_true, decide_eq_true_eq] at hnm
      exact hwf child hchild htc.1 htc.2 n hn hnm.1 hnm.2
    · left
      simpa using hnm

theorem C15_type_native_code_witness :
    glbBuildParseTypes emptyCtx plainTypesSection =
      some (GLB_SUCCESS,
        { emptyCtx with
          types := [{ name := "GLDEBUGPROC",
                      valueC := "typedef void (APIENTRY *GLDEBUGPROC)(void);", requires := "" },
                    { name := "stddef", valueC := "", requires := "" }] }) :=
  C15_type_native_code emptyCtx plainTypesSection (by decide)

/-- C18. The code departs from the claim on a `require` element with a child
that lacks the `name` attribute: for `<require><type/></require>`
`glbBuildParseRequire` builds a `std::string` from the NULL pointer and stores
no entry.  On every `require` element whose `type`, `enum` and `command`
children all have the attribute it succeeds and appends their `name`
attributes to `types`, `enums` and `commands` respectively, in document order
and without deduplication: each list grows by the number of children of its
tag, and other children and non-element nodes contribute nothing. -/
theorem C18_require_lists (context : glbBuild) (require : glbRequire) :
    glbBuildParseRequire context namelessRequire require = none ∧
    ∀ pXMLElement : XMLNode,
      (∀ n ∈ pXMLElement.childNodes, n.ToElement = true →
        (n.Name = "type" ∨ n.Name = "enum" ∨ n.Name = "command") →
        (n.Attribute "name").isSome = true) →
      glbBuildParseRequire context pXMLElement require =
        some (GLB_SUCCESS,
          { types := require.types ++
              (pXMLElement.childNodes.filter (fun n => n.ToElement && n.Name = "type")).map
                (fun n => orEmpty (n.Attribute "name")),
            enums := require.enums ++
              (pXMLElement.childNodes.filter (fun n => n.ToElement && n.Name = "enum")).map
                (fun n => orEmpty (n.Attribute "name")),
            commands := require.commands ++
              (pXMLElement.childNodes.filter (fun n => n.ToElement && n.Name = "command")).map
                (fun n => orEmpty (n.Attribute "name")) }) ∧
      ∀ r, glbBuildParseRequire context pXMLElement require = some (GLB_SUCCESS, r) →
        r.types.length = require.types.length +
          (pXMLElement.childNodes.filter (fun n => n.ToElement && n.Name = "type")).length ∧
        r.enums.length = require.enums.length +
          (pXMLElement.childNodes.filter (fun n => n.ToElement && n.Name = "enum")).length ∧
        r.commands.length = require.commands.length +
          (pXMLElement.childNodes.filter
            (fun n => n.ToElement && n.Name = "command")).length := by
  refine ⟨rfl, ?_⟩
  intro pXMLElement hwf
  have h : glbBuildParseRequire context pXMLElement require =
      some (GLB_SUCCESS,
        { types := require.types ++ requireNames "type" pXMLElement.childNodes,
          enums := require.enums ++ requireNames "enum" pXMLElement.childNodes,
          commands := require.commands ++ requireNames "command" pXMLElement.childNodes }) := by
    unfold glbBuildParseRequire
    rw [requireLoop_eq pXMLElement.childNodes require hwf]
  refine ⟨h, ?_⟩
  intro r hr
  rw [h] at hr
  simp only [Option.some.injEq, Prod.mk.injEq, true_and] at hr
  subst hr
  simp only [List.length_append, requireNames, List.length_map]
  exact ⟨rfl, rfl, rfl⟩

theorem C18_require_lists_witness :
    glbBuildParseRequire emptyCtx sampleRequire { types := ["a"], enums := [], commands := [] } =
      some (GLB_SUCCESS,
        { types := ["a", "GLint", "GLint"], enums := ["GL_TRUE"], commands := ["glClear"] }) :=
  ((C18_require_lists emptyCtx { types := ["a"], enums := [], commands := [] }).2
    sampleRequire (by decide)).1

/-! ## Loading a document -/

theorem loadExtends_refl (c : glbBuild) : loadExtends c c :=
  ⟨List.prefix_refl _, List.prefix_refl _, List.prefix_refl _, List.prefix_refl _,
    List.prefix_refl _, List.prefix_refl _, rfl, rfl, rfl⟩

theorem loadExtends_trans {a b c : glbBuild} (h1 : loadExtends a b) (h2 : loadExtends b c) :
    loadExtends a c := by
  obtain ⟨a1, a2, a3, a4, a5, a6, a7, a8, a9⟩ := h1
  obtain ⟨b1, b2, b3, b4, b5, b6, b7, b8, b9⟩ := h2
  exact ⟨a1.trans b1, a2.trans b2, a3.trans b3, a4.trans b4, a5.trans b5, a6.trans b6,
    b7.trans a7, b8.trans a8, b9.trans a9⟩

theorem typesLoop_extends (nodes : List XMLNode) (ctx ctx' : glbBuild)
    (h : ParseTypes_loop ctx nodes = some ctx') : loadExtends ctx ctx' := by
  induction nodes generalizing ctx with
  | nil =>
    simp only [ParseTypes_loop, Option.some.injEq] at h
    subst h; exact loadExtends_refl _
  | cons child rest ih =>
    rw [ParseTypes_loop] at h
    by_cases he : child.ToElement = true
    · by_cases hc : child.Name = "comment"
      · simp only [he, not_true_eq_false, if_false, hc, if_true] at h
        exact ih ctx h
      · simp only [he, not_true_eq_false, if_false, hc] at h
        cases hi : ParseTypes_inner child.childNodes
            { name := orEmpty (child.Attribute "name"), valueC := "",
              requires := orEmpty (child.Attribute "requires") } with
        | none => rw [hi] at h; cases h
        | some type =>
          rw [hi] at h
          refine loadExtends_trans ?_ (ih _ h)
          exact ⟨List.prefix_append _ _, List.prefix_refl _, List.prefix_refl _,
            List.prefix_refl _, List.prefix_refl _, List.prefix_refl _, rfl, rfl, rfl⟩
    · simp only [he, not_false_eq_true, if_true] at h
      exact ih ctx h

theorem parseTypes_extends (ctx : glbBuild) (e : XMLNode) (r : glbResult) (ctx' : glbBuild)
    (h : glbBuildParseTypes ctx e = some (r, ctx')) : loadExtends ctx ctx' := by
  unfold glbBuildParseTypes at h
  cases hl : ParseTypes_loop ctx e.childNodes with
  | none => rw [hl] at h; cases h
  | some c =>
    rw [hl] at h
    simp only [Option.some.injEq, Prod.mk.injEq] at h
    rw [← h.2]
    exact typesLoop_extends _ _ _ hl

theorem groupsLoop_extends (nodes : List XMLNode) (ctx : glbBuild) :
    loadExtends ctx (ParseGroups_loop ctx nodes) := by
  induction nodes generalizing ctx with
  | nil => exact loadExtends_refl _
  | cons child rest ih =>
    rw [ParseGroups_loop]
    by_cases he : child.ToElement = true
    · by_cases hc : child.Name = "group"
      · simp only [he, not_true_eq_false, if_false, hc, if_true, glbBuildParseGroup]
        refine loadExtends_trans ?_ (ih _)
        exact ⟨List.prefix_refl _, List.prefix_append _ _, List.prefix_refl _,
          List.prefix_refl _, List.prefix_refl _, List.prefix_refl _, rfl, rfl, rfl⟩
      · simp only [he, not_true_eq_false, if_false, hc]
        exact ih ctx
    · simp only [he, not_false_eq_true, if_true]
      exact ih ctx

theorem parseEnums_extends (ctx : glbBuild) (e : XMLNode) :
    loadExtends ctx (glbBuildParseEnums ctx e).2 :=
  ⟨List.prefix_refl _, List.prefix_refl _, List.prefix_append _ _, List.prefix_refl _,
    List.prefix_refl _, List.prefix_refl _, rfl, rfl, rfl⟩

theorem parseCommands_extends (ctx : glbBuild) (e : XMLNode) (r : glbResult) (ctx' : glbBuild)
    (h : glbBuildParseCommands ctx e = some (r, ctx')) : loadExtends ctx ctx' := by
  unfold glbBuildParseCommands at h
  cases hl : ParseCommands_loop ctx e.childNodes [] with
  | none => rw [hl] at h; cases h
  | some cmds =>
    rw [hl] at h
    simp only [Option.some.injEq, Prod.mk.injEq] at h
    rw [← h.2]
    exact ⟨List.prefix_refl _, List.prefix_refl _, List.prefix_refl _, List.prefix_append _ _,
      List.prefix_refl _, List.prefix_refl _, rfl, rfl, rfl⟩

theorem parseFeature_extends (ctx : glbBuild) (e : XMLNode) (r : glbResult) (ctx' : glbBuild)
    (h : glbBuildParseFeature ctx e = some (r, ctx')) : loadExtends ctx ctx' := by
  unfold glbBuildParseFeature at h
  cases hl : ParseRequires_loop ctx e.childNodes [] with
  | none => rw [hl] at h; cases h
  | some res =>
    rw [hl] at h
    obtain ⟨ro, reqs⟩ := res
    cases ro with
    | some r' =>
      simp only [Option.some.injEq, Prod.mk.injEq] at h
      rw [← h.2]; exact loadExtends_refl _
    | none =>
      simp only [Option.some.injEq, Prod.mk.injEq] at h
      rw [← h.2]
      exact ⟨List.prefix_refl _, List.prefix_refl _, List.prefix_refl _, List.prefix_refl _,
        List.prefix_append _ _, List.prefix_refl _, rfl, rfl, rfl⟩

theorem extensionsLoop_extends (nodes : List XMLNode) (ctx : glbBuild)
    (ro : Option glbResult) (ctx' : glbBuild)
    (h : ParseExtensions_loop ctx nodes = some (ro, ctx')) : loadExtends ctx ctx' := by
  induction nodes generalizing ctx with
  | nil =>
    simp only [ParseExtensions_loop, Option.some.injEq, Prod.mk.injEq] at h
    rw [← h.2]; exact loadExtends_refl _
  | cons child rest ih =>
    rw [ParseExtensions_loop] at h
    by_cases he : child.ToElement = true
    · by_cases hc : child.Name = "extension"
      · simp only [he, not_true_eq_false, if_false, hc, if_true] at h
        cases hp : glbBuildParseExtension ctx child with
        | none => rw [hp] at h; cases h
        | some res =>
          rw [hp] at h
          obtain ⟨r, ext⟩ := res
          by_cases hr : r = GLB_SUCCESS
          · simp only [hr, ne_eq, not_true_eq_false, if_false] at h
            refine loadExtends_trans ?_ (ih _ h)
            exact ⟨List.prefix_refl _, List.prefix_refl _, List.prefix_refl _,
              List.prefix_refl _, List.prefix_refl _, List.prefix_append _ _, rfl, rfl, rfl⟩
          · simp only [ne_eq, hr, not_false_eq_true, if_true, Option.some.injEq,
              Prod.mk.injEq] at h
            rw [← h.2]; exact loadExtends_refl _
      · simp only [he, not_true_eq_false, if_false, hc] at h
        exact ih ctx h
    · simp only [he, not_false_eq_true, if_true] at h
      exact ih ctx h

theorem parseExtensions_extends (ctx : glbBuild) (e : XMLNode) (r : glbResult)
    (ctx' : glbBuild) (h : glbBuildParseExtensions ctx e = some (r, ctx')) :
    loadExtends ctx ctx' := by
  unfold glbBuildParseExtensions at h
  cases hl : ParseExtensions_loop ctx e.childNodes with
  | none => rw [hl] at h; cases h
  | some res =>
    rw [hl] at h
    obtain ⟨ro, c⟩ := res
    cases ro with
    | some r' =>
      simp only [Option.some.injEq, Prod.mk.injEq] at h
      rw [← h.2]; exact extensionsLoop_extends _ _ _ _ hl
    | none =>
      simp only [Option.some.injEq, Prod.mk.injEq] at h
      rw [← h.2]; exact extensionsLoop_extends _ _ _ _ hl

theorem section_extends (tag : String)
    (parse : glbBuild → XMLNode → Option (glbResult × glbBuild))
    (hparse : ∀ c e r c', parse c e = some (r, c') → loadExtends c c')
    (ctx : glbBuild) (ch : XMLNode) (ctx' : glbBuild)
    (h : LoadXML_section tag parse ctx ch = some ctx') : loadExtends ctx ctx' := by
  unfold LoadXML_section at h
  by_cases ht : ch.Name = tag
  · simp only [ht, if_true] at h
    cases hp : parse ctx ch with
    | none => rw [hp] at h; cases h
    | some res =>
      rw [hp] at h
      obtain ⟨r, c⟩ := res
      simp only [Option.some.injEq] at h
      rw [← h]; exact hparse _ _ _ _ hp
  · simp only [ht, if_false, Option.some.injEq] at h
    rw [← h]; exact loadExtends_refl _

theorem loadLoop_extends (nodes : List XMLNode) (ctx ctx' : glbBuild)
    (h : LoadXML_loop ctx nodes = some ctx') : loadExtends ctx ctx' := by
  induction nodes generalizing ctx with
  | nil =>
    simp only [LoadXML_loop, Option.some.injEq] at h
    subst h; exact loadExtends_refl _
  | cons ch rest ih =>
    rw [LoadXML_loop] at h
    by_cases he : ch.ToElement = true
    · simp only [he, not_true_eq_false, if_false] at h
      cases h1 : LoadXML_section "types" glbBuildParseTypes ctx ch with
      | none => rw [h1] at h; cases h
      | some c1 =>
      rw [h1] at h; simp only [] at h
      cases h2 : LoadXML_section "groups" (fun c e => some (glbBuildParseGroups c e)) c1 ch with
      | none => rw [h2] at h; cases h
      | some c2 =>
      rw [h2] at h; simp only [] at h
      cases h3 : LoadXML_section "enums" (fun c e => some (glbBuildParseEnums c e)) c2 ch with
      | none => rw [h3] at h; cases h
      | some c3 =>
      rw [h3] at h; simp only [] at h
      cases h4 : LoadXML_section "commands" glbBuildParseCommands c3 ch with
      | none => rw [h4] at h; cases h
      | some c4 =>
      rw [h4] at h; simp only [] at h
      cases h5 : LoadXML_section "feature" glbBuildParseFeature c4 ch with
      | none => rw [h5] at h; cases h
      | some c5 =>
      rw [h5] at h; simp only [] at h
      cases h6 : LoadXML_section "extensions" glbBuildParseExtensions c5 ch with
      | none => rw [h6] at h; cases h
      | some c6 =>
      rw [h6] at h; simp only [] at h
      have e1 := section_extends _ _ parseTypes_extends _ _ _ h1
      have e2 := section_extends _ _ (fun c e r c' hp => by
        simp only [Option.some.injEq] at hp
        have hc : (glbBuildParseGroups c e).2 = c' := by rw [hp]
        rw [← hc]; exact groupsLoop_extends _ _) _ _ _ h2
      have e3 := section_extends _ _ (fun c e r c' hp => by
        simp only [Option.some.injEq] at hp
        have hc : (glbBuildParseEnums c e).2 = c' := by rw [hp]
        rw [← hc]; exact parseEnums_extends _ _) _ _ _ h3
      have e4 := section_extends _ _ parseCommands_extends _ _ _ h4
      have e5 := section_extends _ _ parseFeature_extends _ _ _ h5
      have e6 := section_extends _ _ parseExtensions_extends _ _ _ h6
      exact loadExtends_trans e1 (loadExtends_trans e2 (loadExtends_trans e3
        (loadExtends_trans e4 (loadExtends_trans e5 (loadExtends_trans e6 (ih _ h))))))
    · simp only [he, not_false_eq_true, if_true] at h
      exact ih ctx h

theorem loadXML_extends (ctx : glbBuild) (doc : XMLDocument) (r : glbResult) (ctx' : glbBuild)
    (h : glbBuildLoadXML ctx doc = some (r, ctx')) : loadExtends ctx ctx' := by
  unfold glbBuildLoadXML at h
  cases hroot : doc.RootElement with
  | none =>
    rw [hroot] at h
    simp only [Option.some.injEq, Prod.mk.injEq] at h
    rw [← h.2]; exact loadExtends_refl _
  | some pRoot =>
    rw [hroot] at h
    by_cases hn : pRoot.Name = "registry"
    · simp only [hn, ne_eq, not_true_eq_false, if_false] at h
      cases hl : LoadXML_loop ctx pRoot.childNodes with
      | none => rw [hl] at h; cases h
      | some c =>
        rw [hl] at h
        simp only [Option.some.injEq, Prod.mk.injEq] at h
        rw [← h.2]; exact loadLoop_extends _ _ _ hl
    · simp only [ne_eq, hn, not_false_eq_true, if_true, Option.some.injEq, Prod.mk.injEq] at h
      rw [← h.2]; exact loadExtends_refl _

theorem parseTypeNamePair_total (elem : XMLNode) (h : wfPair elem = true) :
    ∃ t tc n, glbBuildParseTypeNamePair elem = some (GLB_SUCCESS, t, tc, n) := by
  cases elem with
  | text v => exact ⟨_, _, _, rfl⟩
  | element tag attrs children =>
    simp only [wfPair, XMLNode.childNodes, Bool.and_eq_true, List.all_eq_true] at h
    obtain ⟨h1, h2⟩ := h
    have hpre : ∀ n ∈ children.takeWhile (fun n => !isNameElement n),
        isNameElement n = false := by
      intro n hn
      have := List.mem_takeWhile_imp hn
      simpa using this
    have hwf : ∀ n ∈ children.takeWhile (fun n => !isNameElement n),
        n.ToElement = true → n.FirstChild.isSome = true := by
      intro n hn he
      have := h1 n hn
      simpa [he] using this
    have htail : children.dropWhile (fun n => !isNameElement n) = [] ∨
        ∃ nm rest, children.dropWhile (fun n => !isNameElement n) = nm :: rest ∧
          isNameElement nm = true ∧ nm.FirstChild.isSome = true := by
      have hd := List.head?_dropWhile_not (fun n => !isNameElement n) children
      cases hdw : children.dropWhile (fun n => !isNameElement n) with
      | nil => exact Or.inl rfl
      | cons nm rest =>
        rw [hdw] at hd h2
        simp only [List.head?_cons] at hd h2
        exact Or.inr ⟨nm, rest, rfl, by simpa using hd, h2⟩
    have := parseTypeNamePair_eq tag attrs _ _ hpre hwf htail
    rw [List.takeWhile_append_dropWhile] at this
    exact ⟨_, _, _, this⟩

theorem commandLoop_total (ctx : glbBuild) (nodes : List XMLNode) (cmd : glbCommand)
    (hwf : ∀ ch ∈ nodes, ch.ToElement = true → (ch.Name = "proto" ∨ ch.Name = "param") →
      wfPair ch = true) :
    ∃ cmd', ParseCommand_loop ctx nodes cmd = some (none, cmd') := by
  induction nodes generalizing cmd with
  | nil => exact ⟨_, rfl⟩
  | cons ch rest ih =>
    have ih' := fun c => ih c (fun m hm => hwf m (List.mem_cons_of_mem _ hm))
    rw [ParseCommand_loop]
    by_cases he : ch.ToElement = true
    · simp only [he, not_true_eq_false, if_false]
      by_cases hp : ch.Name = "proto"
      · obtain ⟨t, tc, n, hpair⟩ :=
          parseTypeNamePair_total ch (hwf ch (List.mem_cons_self _ _) he (Or.inl hp))
        have h2 : ¬ ch.Name = "param" := by rw [hp]; decide
        simp only [hp, if_true, hpair]
        simp only [show ¬ ("proto" = "param") by decide, if_false]
        exact ih' _
      · by_cases hq : ch.Name = "param"
        · obtain ⟨t, tc, n, hpair⟩ :=
            parseTypeNamePair_total ch (hwf ch (List.mem_cons_self _ _) he (Or.inr hq))
          simp only [hp, if_false, hq, if_true, glbBuildParseCommandParam, hpair, ne_eq,
            not_true_eq_false]
          exact ih' _
        · simp only [hp, if_false, hq]
          exact ih' _
    · simp only [he, not_false_eq_true, if_true]
      exact ih' _

theorem parseCommand_total (ctx : glbBuild) (command : XMLNode) (cmd : glbCommand)
    (h : wfCommand command = true) :
    ∃ cmd', glbBuildParseCommand ctx command cmd = some (GLB_SUCCESS, cmd') := by
  have hwf : ∀ ch ∈ command.childNodes, ch.ToElement = true →
      (ch.Name = "proto" ∨ ch.Name = "param") → wfPair ch = true := by
    intro ch hch he hn
    simp only [wfCommand, List.all_eq_true] at h
    have := h ch hch
    rcases hn with hn | hn <;> simpa [isElementNamed, he, hn] using this
  obtain ⟨cmd', hc⟩ := commandLoop_total ctx command.childNodes cmd hwf
  exact ⟨cmd', by simp only [glbBuildParseCommand, hc]⟩

theorem commandsLoop_total (ctx : glbBuild) (nodes : List XMLNode) (cmds : List glbCommand)
    (hwf : ∀ ch ∈ nodes, isElementNamed "command" ch = true → wfCommand ch = true) :
    ∃ cmds', ParseCommands_loop ctx nodes cmds = some cmds' := by
  induction nodes generalizing cmds with
  | nil => exact ⟨_, rfl⟩
  | cons ch rest ih =>
    have ih' := fun c => ih c (fun m hm => hwf m (List.mem_cons_of_mem _ hm))
    rw [ParseCommands_loop]
    by_cases he : ch.ToElement = true
    · by_cases hc : ch.Name = "command"
      · obtain ⟨cmd', hcmd⟩ := parseCommand_total ctx ch
          { returnType := "", returnTypeC := "", name := "", params := [], alias_ := "" }
          (hwf ch (List.mem_cons_self _ _) (by simp [isElementNamed, he, hc]))
        simp only [he, not_true_eq_false, if_false, hc, if_true, hcmd]
        exact ih' _
      · simp only [he, not_true_eq_false, if_false, hc]
        exact ih' _
    · simp only [he, not_false_eq_true, if_true]
      exact ih' _

theorem parseCommands_total (ctx : glbBuild) (pSection : XMLNode)
    (h : wfCommands pSection = true) :
    ∃ ctx', glbBuildParseCommands ctx pSection = some (GLB_SUCCESS, ctx') := by
  have hwf : ∀ ch ∈ pSection.childNodes, isElementNamed "command" ch = true →
      wfCommand ch = true := by
    intro ch hch hn
    simp only [wfCommands, List.all_eq_true] at h
    simpa [hn] using h ch hch
  obtain ⟨cmds', hc⟩ := commandsLoop_total ctx pSection.childNodes [] hwf
  exact ⟨_, by simp only [glbBuildParseCommands, hc]; rfl⟩

theorem parseTypes_total (ctx : glbBuild) (pSection : XMLNode)
    (h : wfTypes pSection = true) :
    ∃ ctx', glbBuildParseTypes ctx pSection = some (GLB_SUCCESS, ctx') := by
  have hwf : ∀ ch ∈ pSection.childNodes, isTypeChild ch = true → wfTypeChild ch = true := by
    intro ch hch hn
    simp only [wfTypes, List.all_eq_true] at h
    simpa [hn] using h ch hch
  exact ⟨_, by simp only [glbBuildParseTypes, typesLoop_eq _ ctx hwf]; rfl⟩

theorem parseRequire_total (ctx : glbBuild) (require : XMLNode) (req : glbRequire)
    (h : wfRequire require = true) :
    ∃ req', glbBuildParseRequire ctx require req = some (GLB_SUCCESS, req') := by
  have hwf : ∀ n ∈ require.childNodes, n.ToElement = true →
      (n.Name = "type" ∨ n.Name = "enum" ∨ n.Name = "command") →
      (n.Attribute "name").isSome = true := by
    intro n hn he hname
    simp only [wfRequire, List.all_eq_true] at h
    have := h n hn
    rcases hname with hname | hname | hname <;> simpa [he, hname] using this
  exact ⟨_, by simp only [glbBuildParseRequire, requireLoop_eq _ req hwf]; rfl⟩

theorem requiresLoop_total (ctx : glbBuild) (nodes : List XMLNode) (reqs : List glbRequire)
    (hwf : ∀ ch ∈ nodes, isElementNamed "require" ch = true → wfRequire ch = true) :
    ∃ reqs', ParseRequires_loop ctx nodes reqs = some (none, reqs') := by
  induction nodes generalizing reqs with
  | nil => exact ⟨_, rfl⟩
  | cons ch rest ih =>
    have ih' := fun c => ih c (fun m hm => hwf m (List.mem_cons_of_mem _ hm))
    rw [ParseRequires_loop]
    by_cases he : ch.ToElement = true
    · by_cases hc : ch.Name = "require"
      · obtain ⟨req', hreq⟩ := parseRequire_total ctx ch
          { types := [], enums := [], commands := [] }
          (hwf ch (List.mem_cons_self _ _) (by simp [isElementNamed, he, hc]))
        simp only [he, not_true_eq_false, if_false, hc, if_true, hreq, ne_eq]
        exact ih' _
      · simp only [he, not_true_eq_false, if_false, hc]
        exact ih' _
    · simp only [he, not_false_eq_true, if_true]
      exact ih' _

theorem requires_of_wf (elem : XMLNode) (h : wfRequires elem = true) :
    ∀ ch ∈ elem.childNodes, isElementNamed "require" ch = true → wfRequire ch = true := by
  intro ch hch hn
  simp only [wfRequires, List.all_eq_true] at h
  simpa [hn] using h ch hch

theorem parseFeature_total (ctx : glbBuild) (feature : XMLNode)
    (h : wfRequires feature = true) :
    ∃ ctx', glbBuildParseFeature ctx feature = some (GLB_SUCCESS, ctx') := by
  obtain ⟨reqs', hr⟩ := requiresLoop_total ctx feature.childNodes [] (requires_of_wf _ h)
  exact ⟨_, by simp only [glbBuildParseFeature, hr]; rfl⟩

theorem parseExtension_total (ctx : glbBuild) (extension : XMLNode)
    (h : wfRequires extension = true) :
    ∃ ext, glbBuildParseExtension ctx extension = some (GLB_SUCCESS, ext) := by
  obtain ⟨reqs', hr⟩ := requiresLoop_total ctx extension.childNodes [] (requires_of_wf _ h)
  exact ⟨_, by simp only [glbBuildParseExtension, hr]; rfl⟩

theorem extensionsLoop_total (nodes : List XMLNode) (ctx : glbBuild)
    (hwf : ∀ ch ∈ nodes, isElementNamed "extension" ch = true → wfRequires ch = true) :
    ∃ ctx', ParseExtensions_loop ctx nodes = some (none, ctx') := by
  induction nodes generalizing ctx with
  | nil => exact ⟨_, rfl⟩
  | cons ch rest ih =>
    have ih' := fun c => ih c (fun m hm => hwf m (List.mem_cons_of_mem _ hm))
    rw [ParseExtensions_loop]
    by_cases he : ch.ToElement = true
    · by_cases hc : ch.Name = "extension"
      · obtain ⟨ext, hext⟩ := parseExtension_total ctx ch
          (hwf ch (List.mem_cons_self _ _) (by simp [isElementNamed, he, hc]))
        simp only [he, not_true_eq_false, if_false, hc, if_true, hext, ne_eq]
        exact ih' _
      · simp only [he, not_true_eq_false, if_false, hc]
        exact ih' _
    · simp only [he, not_false_eq_true, if_true]
      exact ih' _

theorem parseExtensions_total (ctx : glbBuild) (pSection : XMLNode)
    (h : wfExtensions pSection = true) :
    ∃ ctx', glbBuildParseExtensions ctx pSection = some (GLB_SUCCESS, ctx') := by
  have hwf : ∀ ch ∈ pSection.childNodes, isElementNamed "extension" ch = true →
      wfRequires ch = true := by
    intro ch hch hn
    simp only [wfExtensions, List.all_eq_true] at h
    simpa [hn] using h ch hch
  obtain ⟨ctx', hc⟩ := extensionsLoop_total pSection.childNodes ctx hwf
  exact ⟨_, by simp only [glbBuildParseExtensions, hc]; rfl⟩

theorem section_total (tag : String)
    (parse : glbBuild → XMLNode → Option (glbResult × glbBuild))
    (ctx : glbBuild) (ch : XMLNode)
    (hparse : ch.Name = tag → ∃ r ctx', parse ctx ch = some (r, ctx')) :
    ∃ ctx', LoadXML_section tag parse ctx ch = some ctx' := by
  unfold LoadXML_section
  by_cases ht : ch.Name = tag
  · obtain ⟨r, ctx', hp⟩ := hparse ht
    exact ⟨ctx', by simp only [ht, if_true, hp]⟩
  · exact ⟨ctx, by simp only [ht, if_false]⟩

theorem loadLoop_total (nodes : List XMLNode) (ctx : glbBuild)
    (hwf : (nodes.all fun ch =>
      (!isElementNamed "types" ch || wfTypes ch) &&
      (!isElementNamed "commands" ch || wfCommands ch) &&
      (!isElementNamed "feature" ch || wfRequires ch) &&
      (!isElementNamed "extensions" ch || wfExtensions ch)) = true) :
    ∃ ctx', LoadXML_loop ctx nodes = some ctx' := by
  induction nodes generalizing ctx with
  | nil => exact ⟨_, rfl⟩
  | cons ch rest ih =>
    simp only [List.all_cons, Bool.and_eq_true] at hwf
    obtain ⟨⟨⟨⟨w1, w2⟩, w3⟩, w4⟩, hrest⟩ := hwf
    have ih' := fun c => ih c hrest
    rw [LoadXML_loop]
    by_cases he : ch.ToElement = true
    · simp only [he, not_true_eq_false, if_false]
      obtain ⟨c1, h1⟩ := section_total "types" glbBuildParseTypes ctx ch (fun hn => by
        obtain ⟨c, hc⟩ := parseTypes_total ctx ch (by simpa [isElementNamed, he, hn] using w1)
        exact ⟨_, _, hc⟩)
      obtain ⟨c2, h2⟩ := section_total "groups" (fun c e => some (glbBuildParseGroups c e))
        c1 ch (fun _ => ⟨_, _, rfl⟩)
      obtain ⟨c3, h3⟩ := section_total "enums" (fun c e => some (glbBuildParseEnums c e))
        c2 ch (fun _ => ⟨_, _, rfl⟩)
      obtain ⟨c4, h4⟩ := section_total "commands" glbBuildParseCommands c3 ch (fun hn => by
        obtain ⟨c, hc⟩ := parseCommands_total c3 ch (by simpa [isElementNamed, he, hn] using w2)
        exact ⟨_, _, hc⟩)
      obtain ⟨c5, h5⟩ := section_total "feature" glbBuildParseFeature c4 ch (fun hn => by
        obtain ⟨c, hc⟩ := parseFeature_total c4 ch (by simpa [isElementNamed, he, hn] using w3)
        exact ⟨_, _, hc⟩)
      obtain ⟨c6, h6⟩ := section_total "extensions" glbBuildParseExtensions c5 ch (fun hn => by
        obtain ⟨c, hc⟩ := parseExtensions_total c5 ch
          (by simpa [isElementNamed, he, hn] using w4)
        exact ⟨_, _, hc⟩)
      simp only [h1, h2, h3, h4, h5, h6]
      exact ih' _
    · simp only [he, not_false_eq_true, if_true]
      exact ih' _

theorem loadXML_total (ctx : glbBuild) (doc : XMLDocument) (pRoot : XMLNode)
    (hroot : doc.RootElement = some pRoot) (hname : pRoot.Name = "registry")
    (hwf : wfRegistry pRoot = true) :
    ∃ ctx', glbBuildLoadXML ctx doc = some (GLB_SUCCESS, ctx') := by
  obtain ⟨ctx', hl⟩ := loadLoop_total pRoot.childNodes ctx hwf
  exact ⟨ctx', by simp only [glbBuildLoadXML, hroot, hname, ne_eq, not_true_eq_false, if_false, hl]⟩

theorem requireLoop_none (nodes : List XMLNode) (req : glbRequire)
    (h : ∃ n ∈ nodes, n.ToElement = true ∧
      (n.Name = "type" ∨ n.Name = "enum" ∨ n.Name = "command") ∧
      n.Attribute "name" = none) :
    ParseRequire_loop nodes req = none := by
  induction nodes generalizing req with
  | nil => obtain ⟨n, hn, _⟩ := h; cases hn
  | cons n rest ih =>
    rw [requireLoop_cons]
    obtain ⟨m, hm, he, hname, ha⟩ := h
    rcases List.mem_cons.mp hm with hmn | hmr
    · subst hmn
      rcases hname with hn | hn | hn <;> simp [he, hn, ha, stringOfAttribute]
    · have ih' := fun r => ih r ⟨m, hmr, he, hname, ha⟩
      by_cases hen : n.ToElement = true
      · simp only [hen, not_true_eq_false, if_false]
        cases hattr : n.Attribute "name" with
        | none =>
          by_cases h1 : n.Name = "type"
          · simp [h1, stringOfAttribute]
          · by_cases h2 : n.Name = "enum"
            · simp [h2, stringOfAttribute]
            · by_cases h3 : n.Name = "command"
              · simp [h3, stringOfAttribute]
              · simp [h1, h2, h3, ih']
        | some v =>
          by_cases h1 : n.Name = "type"
          · simp [h1, stringOfAttribute, ih']
          · by_cases h2 : n.Name = "enum"
            · simp [h2, stringOfAttribute, ih']
            · by_cases h3 : n.Name = "command"
              · simp [h3, stringOfAttribute, ih']
              · simp [h1, h2, h3, ih']
      · simp only [hen, not_false_eq_true, if_true]
        exact ih' _

theorem parseRequire_none (ctx : glbBuild) (require : XMLNode) (req : glbRequire)
    (h : wfRequire require = false) : glbBuildParseRequire ctx require req = none := by
  have hex : ∃ n ∈ require.childNodes, n.ToElement = true ∧
      (n.Name = "type" ∨ n.Name = "enum" ∨ n.Name = "command") ∧
      n.Attribute "name" = none := by
    simp only [wfRequire, List.all_eq_false] at h
    obtain ⟨n, hn, hbad⟩ := h
    refine ⟨n, hn, ?_⟩
    simp at hbad
    refine ⟨hbad.1.1, ?_, hbad.2⟩
    by_cases h1 : n.Name = "type"
    · exact Or.inl h1
    · by_cases h2 : n.Name = "enum"
      · exact Or.inr (Or.inl h2)
      · exact Or.inr (Or.inr (hbad.1.2 h1 h2))
  simp only [glbBuildParseRequire, requireLoop_none _ req hex]

/-! ## Claims on loading -/

/-- C16 (defect of `glbBuildParseRequire`): a `require` element with a `type`,
`enum` or `command` child that has no `name` attribute is not loaded with an
empty-string entry; the loader builds a string from the NULL pointer, which
is undefined, so loading the registry-rooted document
`<registry><feature api="gl" name="F"><require><type/></require></feature></registry>`
does not return success. Every other attribute read substitutes "": the
document whose type, group, enum, enums, command alias, feature, require and
extension elements have no attribute at all loads with success and
empty-string fields. -/
theorem C16_attribute_absence (context : glbBuild) :
    (∀ (require : XMLNode) (req : glbRequire), wfRequire require = false →
      glbBuildParseRequire context require req = none) ∧
    glbBuildLoadXML context namelessRequireDocument = none ∧
    glbBuildLoadXML emptyCtx bareDocument =
      some (GLB_SUCCESS,
        { types := [{ name := "", valueC := "", requires := "" }],
          groups := [{ name := "", enums := [{ name := "", value := "", type := "" }] }],
          enums := [{ name := "", namespaceAttrib := "", group := "", vendor := "",
                      type := "", start := "", end_ := "",
                      enums := [{ name := "", value := "", type := "" }] }],
          commands := [{ namespaceAttrib := "",
                         commands := [{ returnType := "", returnTypeC := "", name := "",
                                        params := [], alias_ := "" }] }],
          features := [{ api := "", name := "", number := "",
                         requires := [{ types := [], enums := [], commands := [] }] }],
          extensions := [{ name := "", supported := "", requires := [] }],
          outputTypes := [], outputEnums := [], outputCommands := [] }) :=
  ⟨fun require req h => parseRequire_none context require req h, rfl, rfl⟩

/-- Witness of C16 at the require element `<require><type/></require>`. -/
theorem C16_attribute_absence_witness :
    wfRequire namelessRequire = false ∧
    glbBuildParseRequire emptyCtx namelessRequire { types := [], enums := [], commands := [] } =
      none :=
  ⟨by decide, (C16_attribute_absence emptyCtx).1 namelessRequire _ (by decide)⟩

/-- C17 as stated fails: the document
`<registry><types><type><name/></type></types></registry>` has a root named
"registry", and loading it does not return success (the value of the missing
first child of `name` is read). -/
theorem C17_counterexample :
    (∃ pRoot, emptyNameDocument.RootElement = some pRoot ∧ pRoot.Name = "registry") ∧
    glbBuildLoadXML emptyCtx emptyNameDocument = none :=
  ⟨⟨_, rfl, rfl⟩, rfl⟩

/-- C17 (amended): for a document whose root element is missing or is not
named "registry", `glbBuildLoadXML` returns the failure code -1 and leaves the
registry (every sequence and the ledger) exactly as it was; for a document
whose root is named "registry" and satisfies `wfRegistry` (every first child
whose value is read exists, every `type`, `enum` and `command` child of a
`require` has a `name` attribute) it returns success. -/
theorem C17_root_check (context : glbBuild) (doc : XMLDocument) :
    ((doc.RootElement = none ∨
        ∃ pRoot, doc.RootElement = some pRoot ∧ pRoot.Name ≠ "registry") →
      glbBuildLoadXML context doc = some (-1, context) ∧ (-1 : glbResult) ≠ GLB_SUCCESS) ∧
    (∀ pRoot, doc.RootElement = some pRoot → pRoot.Name = "registry" →
      wfRegistry pRoot = true →
      ∃ context', glbBuildLoadXML context doc = some (GLB_SUCCESS, context')) := by
  refine ⟨?_, fun pRoot hroot hname hwf => loadXML_total context doc pRoot hroot hname hwf⟩
  intro h
  refine ⟨?_, by decide⟩
  rcases h with h | ⟨pRoot, hroot, hname⟩
  · simp only [glbBuildLoadXML, h]
  · simp only [glbBuildLoadXML, hroot, hname, ne_eq, not_false_eq_true, if_true]

/-- Witness of C17: the document without a root, the document rooted at `glx`
and the sample document rooted at "registry". -/
theorem C17_root_check_witness :
    rootlessDocument.RootElement = none ∧
    glbBuildLoadXML scenarioCtx rootlessDocument = some (-1, scenarioCtx) ∧
    (∃ pRoot, wrongRootDocument.RootElement = some pRoot ∧ pRoot.Name ≠ "registry") ∧
    glbBuildLoadXML scenarioCtx wrongRootDocument = some (-1, scenarioCtx) ∧
    (∃ pRoot, sampleDocument.RootElement = some pRoot ∧ pRoot.Name = "registry" ∧
      wfRegistry pRoot = true) ∧
    (∃ context', glbBuildLoadXML scenarioCtx sampleDocument = some (GLB_SUCCESS, context')) :=
  ⟨rfl,
   ((C17_root_check scenarioCtx rootlessDocument).1 (Or.inl rfl)).1,
   ⟨_, rfl, by decide⟩,
   ((C17_root_check scenarioCtx wrongRootDocument).1 (Or.inr ⟨_, rfl, by decide⟩)).1,
   ⟨_, rfl, rfl, by decide⟩,
   (C17_root_check scenarioCtx sampleDocument).2 _ rfl rfl (by decide)⟩

/-- C20: loading appends and never merges. Whenever `glbBuildLoadXML` returns
(with any result code), each of the six sequences of the registry has its
previous contents as a prefix and the three output lists of the ledger are
unchanged; and for a document rooted at "registry" that satisfies
`wfRegistry` it does return. -/
theorem C20_loading_appends (context : glbBuild) (doc : XMLDocument) :
    (∀ (r : glbResult) (context' : glbBuild),
      glbBuildLoadXML context doc = some (r, context') →
      context.types <+: context'.types ∧ context.groups <+: context'.groups ∧
      context.enums <+: context'.enums ∧ context.commands <+: context'.commands ∧
      context.features <+: context'.features ∧
      context.extensions <+: context'.extensions ∧
      context'.outputTypes = context.outputTypes ∧
      context'.outputEnums = context.outputEnums ∧
      context'.outputCommands = context.outputCommands) ∧
    (∀ pRoot, doc.RootElement = some pRoot → pRoot.Name = "registry" →
      wfRegistry pRoot = true →
      ∃ context', glbBuildLoadXML context doc = some (GLB_SUCCESS, context')) :=
  ⟨fun r context' h => loadXML_extends context doc r context' h,
   fun pRoot hroot hname hwf => loadXML_total context doc pRoot hroot hname hwf⟩

/-- Witness of C20: the sample document, which declares the type `GLint`
again, loaded into the registry `duplicatesCtx` that already holds two types
named `GLint`. -/
theorem C20_loading_appends_witness :
    ∃ context', glbBuildLoadXML duplicatesCtx sampleDocument = some (GLB_SUCCESS, context') ∧
      context'.types = duplicatesCtx.types ++
        [{ name := "GLint", valueC := "typedef int GLint;", requires := "" }] ∧
      duplicatesCtx.types <+: context'.types ∧ duplicatesCtx.groups <+: context'.groups ∧
      duplicatesCtx.enums <+: context'.enums ∧ duplicatesCtx.commands <+: context'.commands ∧
      duplicatesCtx.features <+: context'.features ∧
      duplicatesCtx.extensions <+: context'.extensions ∧
      context'.outputTypes = duplicatesCtx.outputTypes ∧
      context'.outputEnums = duplicatesCtx.outputEnums ∧
      context'.outputCommands = duplicatesCtx.outputCommands :=
  ⟨_, rfl, rfl, (C20_loading_appends duplicatesCtx sampleDocument).1 _ _ rfl⟩

/-! ## Trimming, pair rule precondition, extension groups -/

theorem glbTrim_idem (s : String) : glbTrim (glbTrim s) = glbTrim s := by
  obtain ⟨a, b, -, -, -, hh, hl⟩ := glbTrim_spec s
  generalize glbTrim s = t at hh hl
  have h1 : glbRTrim t = t := by
    unfold glbRTrim
    have : t.data.reverse.dropWhile isspace = t.data.reverse := by
      rw [List.dropWhile_eq_self_iff]
      intro hlen
      have hx : t.data.getLast? = some (t.data.reverse.get ⟨0, hlen⟩) := by
        rw [← List.head?_reverse, List.head?_eq_head (by
          intro h; rw [h] at hlen; simp at hlen)]
        congr 1
        simp [List.head_eq_getElem]
      have := hl _ hx
      rw [this]; exact Bool.false_ne_true
    rw [this, List.reverse_reverse]
  have h2 : glbLTrim t = t := by
    unfold glbLTrim
    have : t.data.dropWhile isspace = t.data := by
      rw [List.dropWhile_eq_self_iff]
      intro hlen
      have hx : t.data.head? = some (t.data.get ⟨0, hlen⟩) := by
        rw [List.head?_eq_head (by intro h; rw [h] at hlen; simp at hlen)]
        congr 1
        simp [List.head_eq_getElem]
      have := hh _ hx
      rw [this]; exact Bool.false_ne_true
    rw [this]
  unfold glbTrim
  rw [h1, h2]

/-- C24. For every string `s`: `s` is `a ++ glbTrim s ++ b` with `a` and `b`
made of whitespace characters only (so the inner text is untouched);
`glbTrim s` is empty or begins and ends with a character that is not
whitespace; and trimming twice is trimming once. -/
theorem C24_trim (s : String) :
    (∃ a b : String, s = a ++ glbTrim s ++ b ∧
      (∀ c ∈ a.data, isspace c = true) ∧ (∀ c ∈ b.data, isspace c = true)) ∧
    (glbTrim s = "" ∨
      ∃ c d, (glbTrim s).data.head? = some c ∧ (glbTrim s).data.getLast? = some d ∧
        isspace c = false ∧ isspace d = false) ∧
    glbTrim (glbTrim s) = glbTrim s := by
  obtain ⟨a, b, hs, ha, hb, hh, hl⟩ := glbTrim_spec s
  refine ⟨⟨String.mk a, String.mk b, ?_, ha, hb⟩, ?_, glbTrim_idem s⟩
  · apply String.ext
    simpa [String.data_append] using hs
  · by_cases hne : (glbTrim s).data = []
    · left; exact String.ext hne
    · right
      obtain ⟨x, hx⟩ : ∃ x, (glbTrim s).data.head? = some x := by
        cases hd : (glbTrim s).data with
        | nil => exact absurd hd hne
        | cons x xs => exact ⟨x, rfl⟩
      exact ⟨x, (glbTrim s).data.getLast hne, hx, List.getLast?_eq_getLast _ hne,
        hh x hx, hl _ (List.getLast?_eq_getLast _ hne)⟩

/-- C28. The three extension tests are not mutually exclusive: an Extension
whose supported string is "wgl|glx" passes the gl test (it contains "gl|"),
the wgl test and the glx test, while one whose supported string is "wgl"
passes the wgl test only.  In the run on `overlapCtx` the guard block of
`WGL_both`, with its enum and command lines, is written three times (the type
line once, at the first), and the block of `WGL_only` once, in the WGL
group. -/
theorem C28_groups_overlap :
    (∀ (name : String) (requires : List glbRequire),
      Main_selectGL { name := name, supported := "wgl|glx", requires := requires } = true ∧
      Main_selectWGL { name := name, supported := "wgl|glx", requires := requires } = true ∧
      Main_selectGLX { name := name, supported := "wgl|glx", requires := requires } = true) ∧
    (∀ (name : String) (requires : List glbRequire),
      Main_selectGL { name := name, supported := "wgl", requires := requires } = false ∧
      Main_selectWGL { name := name, supported := "wgl", requires := requires } = true ∧
      Main_selectGLX { name := name, supported := "wgl", requires := requires } = false) ∧
    (glbBuildGenerateCode_C_Main overlapCtx "").1 = GLB_SUCCESS ∧
    (glbBuildGenerateCode_C_Main overlapCtx "").2.2 =
      "\n#if defined(GLBIND_WGL)\n#endif /* GLBIND_WGL */\n" ++
      "\n#if defined(GLBIND_GLX)\n#endif /* GLBIND_GLX */\n" ++
      ("#ifndef WGL_both\n#define WGL_both 1\n" ++ "typedef int GLint;\n" ++
        "#define GL_A 1\ntypedef void (APIENTRYP PFNGLFOOPROC)(GLint x);\n" ++
        "#endif /* WGL_both */\n") ++
      "\n#if defined(GLBIND_WGL)\n" ++
      ("#ifndef WGL_both\n#define WGL_both 1\n" ++
        "#define GL_A 1\ntypedef void (APIENTRYP PFNGLFOOPROC)(GLint x);\n" ++
        "#endif /* WGL_both */\n") ++
      "\n" ++
      ("#ifndef WGL_only\n#define WGL_only 1\n" ++
        "#define GL_A 1\ntypedef void (APIENTRYP PFNGLFOOPROC)(GLint x);\n" ++
        "#endif /* WGL_only */\n") ++
      "#endif /* GLBIND_WGL */\n" ++
      "\n#if defined(GLBIND_GLX)\n" ++
      ("#ifndef WGL_both\n#define WGL_both 1\n" ++
        "#define GL_A 1\ntypedef void (APIENTRYP PFNGLFOOPROC)(GLint x);\n" ++
        "#endif /* WGL_both */\n") ++
      "#endif /* GLBIND_GLX */\n" :=
  ⟨fun _ _ => ⟨rfl, rfl, rfl⟩, fun _ _ => ⟨rfl, rfl, rfl⟩, rfl, rfl⟩

theorem ledger_prefix_step (c : glbBuild) (l pre : List String) :
    l <+: l ++ newNames c l pre ∧
    (ledgerInvariant l → ledgerInvariant (l ++ newNames c l pre)) := by
  refine ⟨List.prefix_append _ _, ?_⟩
  rintro ⟨hnd, hk⟩
  refine ⟨?_, ?_⟩
  · rw [List.nodup_append]
    refine ⟨hnd, nodup_newNames c l pre, ?_⟩
    intro n hn hn'
    exact ((mem_newNames c l pre n).mp hn').2.2.1 hn
  · intro h
    rcases List.mem_append.mp h with h | h
    · exact hk h
    · exact ((mem_newNames c l pre "khrplatform").mp h).2.1 rfl

theorem pairLoop_isSome (nodes : List XMLNode) (type typeC name : String) :
    (ParseTypeNamePair_loop nodes type typeC name).isSome =
      ((nodes.takeWhile (fun n => !isNameElement n)).all
          (fun n => !n.ToElement || n.FirstChild.isSome) &&
        (match (nodes.dropWhile (fun n => !isNameElement n)).head? with
          | some nm => nm.FirstChild.isSome
          | none => true)) := by
  induction nodes generalizing type typeC with
  | nil => rfl
  | cons n rest ih =>
    rw [pairLoop_cons]
    by_cases he : n.ToElement = true
    · by_cases hn : n.Name = "name"
      · have hnm : isNameElement n = true := by simp [isNameElement, isElementNamed, he, hn]
        cases hf : n.FirstChild <;>
          simp [he, hn, hnm, hf, List.takeWhile_cons, List.dropWhile_cons]
      · have hnm : isNameElement n = false := by simp [isNameElement, isElementNamed, he, hn]
        cases hf : n.FirstChild with
        | none => simp [he, hn, hnm, hf, List.takeWhile_cons, List.dropWhile_cons]
        | some first =>
          simp only [he, if_true, hn, if_false, ih, List.takeWhile_cons, hnm,
            Bool.not_false, List.all_cons, hf, Option.isSome_some, Bool.not_true,
            Bool.or_true, Bool.true_and, List.dropWhile_cons]
    · have hnm : isNameElement n = false := by simp [isNameElement, isElementNamed, he]
      simp only [he, Bool.false_eq_true, if_false, ih, List.takeWhile_cons, hnm,
        Bool.not_false, if_true, List.all_cons, Bool.or_false, Bool.true_and,
        List.dropWhile_cons]
      simp [he]

theorem parseTypeNamePair_isSome (elem : XMLNode) :
    (glbBuildParseTypeNamePair elem).isSome = wfPair elem := by
  have h2 : wfPair elem = (ParseTypeNamePair_loop elem.childNodes "" "" "").isSome :=
    (pairLoop_isSome elem.childNodes "" "" "").symm
  rw [h2]
  unfold glbBuildParseTypeNamePair
  cases ParseTypeNamePair_loop elem.childNodes "" "" "" with
  | none => rfl
  | some r => rfl

/-- C30. When every element among the children of a declaration element up to
and including its first `name` element has a first child (`wfPair`),
`glbBuildParseTypeNamePair` returns success and never takes the value of a
missing first child; when that fails the missing-child branch is reached (the
embedding gives `none`), as for the empty `name` element of
`<proto>void <name/></proto>` and the empty `ptype` element of
`<param><ptype/> *<name>x</name></param>`. -/
theorem C30_first_child_precondition (pXMLElement : XMLNode) :
    (wfPair pXMLElement = true →
      ∃ type typeC name,
        glbBuildParseTypeNamePair pXMLElement = some (GLB_SUCCESS, type, typeC, name)) ∧
    (wfPair pXMLElement = false → glbBuildParseTypeNamePair pXMLElement = none) ∧
    glbBuildParseTypeNamePair emptyNameProto = none ∧
    glbBuildParseTypeNamePair emptyTypeParam = none := by
  refine ⟨parseTypeNamePair_total pXMLElement, ?_, rfl, rfl⟩
  intro h
  have := parseTypeNamePair_isSome pXMLElement
  rw [h] at this
  cases hp : glbBuildParseTypeNamePair pXMLElement with
  | none => rfl
  | some r => rw [hp] at this; cases this

theorem C30_first_child_precondition_witness :
    (wfPair pointerParam = true ∧
      ∃ type typeC name,
        glbBuildParseTypeNamePair pointerParam = some (GLB_SUCCESS, type, typeC, name)) ∧
    (wfPair emptyNameProto = false ∧ glbBuildParseTypeNamePair emptyNameProto = none) :=
  ⟨⟨by decide, (C30_first_child_precondition pointerParam).1 (by decide)⟩,
   ⟨by decide, (C30_first_child_precondition emptyNameProto).2.1 (by decide)⟩⟩

/-! ## Ledger invariant and result codes -/

theorem ledger_of_run {α : Type} (c : glbBuild) (pre : List String) (r : α) (δ : String)
    (res : α × glbBuild × String)
    (h : res = (r, setLedger c (c.outputTypes ++ newNames c c.outputTypes pre), δ)) :
    c.outputTypes <+: res.2.1.outputTypes ∧
    (ledgerInvariant c.outputTypes → ledgerInvariant res.2.1.outputTypes) := by
  subst h
  exact ledger_prefix_step c c.outputTypes pre

theorem ledger_type (c : glbBuild) (n out : String) :
    c.outputTypes <+: (glbBuildGenerateCode_C_Main_Type c n out).2.1.outputTypes ∧
    (ledgerInvariant c.outputTypes →
      ledgerInvariant (glbBuildGenerateCode_C_Main_Type c n out).2.1.outputTypes) := by
  have h := type_run c c.outputTypes n out
  rw [setLedger_self] at h
  exact ledger_of_run c [n] _ _ _ h

theorem ledger_requireTypes (c : glbBuild) (req : glbRequire) (out : String) :
    c.outputTypes <+: (glbBuildGenerateCode_C_Main_RequireTypes c req out).2.1.outputTypes ∧
    (ledgerInvariant c.outputTypes →
      ledgerInvariant (glbBuildGenerateCode_C_Main_RequireTypes c req out).2.1.outputTypes) := by
  obtain ⟨r, pre, -, h, -⟩ := requireTypes_run c req c.outputTypes
  rw [setLedger_self] at h
  exact ledger_of_run c pre _ _ _ (h out)

theorem ledger_emitBlock (c : glbBuild) (name : String) (reqs : List glbRequire)
    (out : String) :
    c.outputTypes <+: (emitBlock c name reqs out).2.1.outputTypes ∧
    (ledgerInvariant c.outputTypes →
      ledgerInvariant (emitBlock c name reqs out).2.1.outputTypes) := by
  obtain ⟨r, pre, δ, -, h, -⟩ := emitBlock_run c name reqs c.outputTypes
  rw [setLedger_self] at h
  exact ledger_of_run c pre _ _ _ (h out)

theorem ledger_main (c : glbBuild) (out : String) :
    c.outputTypes <+: (glbBuildGenerateCode_C_Main c out).2.1.outputTypes ∧
    (ledgerInvariant c.outputTypes →
      ledgerInvariant (glbBuildGenerateCode_C_Main c out).2.1.outputTypes) := by
  obtain ⟨r, pre, δ, -, h, -⟩ := main_run c c.outputTypes
  rw [setLedger_self] at h
  exact ledger_of_run c pre _ _ _ (h out)

theorem ledger_same (c : glbBuild) (c' : glbBuild) (h : c' = c) :
    c.outputTypes <+: c'.outputTypes ∧
    (ledgerInvariant c.outputTypes → ledgerInvariant c'.outputTypes) := by
  subst h
  exact ⟨List.prefix_refl _, id⟩

/-- C25. Every emitter operation, whatever its result code, leaves the
previous ledger as a prefix of the new ledger, and when the ledger held no
name twice and no "khrplatform" before the operation (`ledgerInvariant`) it
holds none after; the two per-Require passes for enums and commands leave the
registry as it is.  Hence a run of `glbBuildGenerateCode_C_Main` started from
the empty ledger records no name twice. -/
theorem C25_ledger_invariant (context : glbBuild) (codeOut : String) :
    (∀ typeName : String,
      context.outputTypes <+:
        (glbBuildGenerateCode_C_Main_Type context typeName codeOut).2.1.outputTypes ∧
      (ledgerInvariant context.outputTypes → ledgerInvariant
        (glbBuildGenerateCode_C_Main_Type context typeName codeOut).2.1.outputTypes)) ∧
    (∀ require : glbRequire,
      context.outputTypes <+:
        (glbBuildGenerateCode_C_Main_RequireTypes context require codeOut).2.1.outputTypes ∧
      (ledgerInvariant context.outputTypes → ledgerInvariant
        (glbBuildGenerateCode_C_Main_RequireTypes context require codeOut).2.1.outputTypes)) ∧
    (∀ require : glbRequire,
      (glbBuildGenerateCode_C_Main_RequireEnums context require codeOut).2.1 = context) ∧
    (∀ require : glbRequire,
      (glbBuildGenerateCode_C_Main_RequireCommands context require codeOut).2.1 = context) ∧
    (∀ feature : glbFeature,
      context.outputTypes <+:
        (glbBuildGenerateCode_C_Main_Feature context feature codeOut).2.1.outputTypes ∧
      (ledgerInvariant context.outputTypes → ledgerInvariant
        (glbBuildGenerateCode_C_Main_Feature context feature codeOut).2.1.outputTypes)) ∧
    (∀ extension : glbExtension,
      context.outputTypes <+:
        (glbBuildGenerateCode_C_Main_Extension context extension codeOut).2.1.outputTypes ∧
      (ledgerInvariant context.outputTypes → ledgerInvariant
        (glbBuildGenerateCode_C_Main_Extension context extension codeOut).2.1.outputTypes)) ∧
    (context.outputTypes <+:
        (glbBuildGenerateCode_C_Main context codeOut).2.1.outputTypes ∧
      (ledgerInvariant context.outputTypes → ledgerInvariant
        (glbBuildGenerateCode_C_Main context codeOut).2.1.outputTypes)) ∧
    (context.outputTypes = [] →
      (glbBuildGenerateCode_C_Main context codeOut).2.1.outputTypes.Nodup) := by
  refine ⟨fun n => ledger_type context n codeOut,
    fun req => ledger_requireTypes context req codeOut, ?_, ?_, ?_, ?_,
    ledger_main context codeOut, ?_⟩
  · intro req
    obtain ⟨r, pre, -, h, -⟩ := requireEnums_run context req
    rw [h codeOut]
  · intro req
    obtain ⟨r, pre, -, h, -⟩ := requireCommands_run context req
    rw [h codeOut]
  · intro f
    rw [feature_eq_emitBlock]
    exact ledger_emitBlock context f.name f.requires codeOut
  · intro e
    rw [extension_eq_emitBlock]
    exact ledger_emitBlock context e.name e.requires codeOut
  · intro h
    have := (ledger_main context codeOut).2
    rw [h] at this
    exact (this ⟨List.nodup_nil, List.not_mem_nil _⟩).1

/-- Witness of C25 on the registry `khrCtx`, whose Features refer to GLint and
to "khrplatform" several times: from the ledger `["GLsizei"]` the run ends
with the ledger `["GLsizei", "GLint"]`. -/
theorem C25_ledger_invariant_witness :
    ledgerInvariant (setLedger khrCtx ["GLsizei"]).outputTypes ∧
    (glbBuildGenerateCode_C_Main (setLedger khrCtx ["GLsizei"]) "").2.1.outputTypes =
      ["GLsizei", "GLint"] ∧
    ledgerInvariant
      (glbBuildGenerateCode_C_Main (setLedger khrCtx ["GLsizei"]) "").2.1.outputTypes :=
  ⟨by decide, rfl,
   (C25_ledger_invariant (setLedger khrCtx ["GLsizei"]) "").2.2.2.2.2.2.1.2 (by decide)⟩

/-- C23 as stated fails: loading the document rooted at `glx` returns the
code -1, and the emission for the registry whose Feature requires the missing
command `glMissing` returns the code -1 as well. -/
theorem C23_counterexample :
    (∃ pRoot, wrongRootDocument.RootElement = some pRoot ∧ pRoot.Name ≠ "registry") ∧
    (glbBuildLoadXML emptyCtx wrongRootDocument).map (fun r => r.1) = some (-1) ∧
    resolvesCommand missingCommandCtx "glMissing" = false ∧
    (glbBuildGenerateCode_C_Main missingCommandCtx "").1 = -1 :=
  ⟨⟨_, rfl, by decide⟩, rfl, rfl, rfl⟩

/-- C23 (amended): the code returned for a parse failure (a document whose
root element is missing or not named "registry") is -1, and the code returned
for a resolution failure is `GLB_ERROR`: by the types pass for a listed type
name that is not "khrplatform", not in the ledger and names no Type, or for a
command name that names no command; by the enums pass for an enum name that
names no enum; by the commands pass for a command name that names no command;
and a run of `glbBuildGenerateCode_C_Main` that does not succeed returns
`GLB_ERROR`.  Both codes are non-zero, and they are the same code. -/
theorem C23_failure_codes (context : glbBuild) (codeOut : String) :
    (∀ doc : XMLDocument,
      (doc.RootElement = none ∨
        ∃ pRoot, doc.RootElement = some pRoot ∧ pRoot.Name ≠ "registry") →
      (glbBuildLoadXML context doc).map (fun r => r.1) = some (-1)) ∧
    (∀ (require : glbRequire) (typeName : String), typeName ∈ require.types →
      typeName ≠ "khrplatform" → typeName ∉ context.outputTypes →
      resolvesType context typeName = false →
      (glbBuildGenerateCode_C_Main_RequireTypes context require codeOut).1 = GLB_ERROR) ∧
    (∀ (require : glbRequire) (enumName : String), enumName ∈ require.enums →
      resolvesEnum context enumName = false →
      (glbBuildGenerateCode_C_Main_RequireEnums context require codeOut).1 = GLB_ERROR) ∧
    (∀ (require : glbRequire) (commandName : String), commandName ∈ require.commands →
      resolvesCommand context commandName = false →
      (glbBuildGenerateCode_C_Main_RequireTypes context require codeOut).1 = GLB_ERROR ∧
      (glbBuildGenerateCode_C_Main_RequireCommands context require codeOut).1 = GLB_ERROR) ∧
    ((glbBuildGenerateCode_C_Main context codeOut).1 ≠ GLB_SUCCESS →
      (glbBuildGenerateCode_C_Main context codeOut).1 = GLB_ERROR) ∧
    (-1 : glbResult) ≠ 0 ∧ GLB_ERROR ≠ 0 ∧ GLB_ERROR = -1 := by
  have htypes : ∀ require : glbRequire, ¬ requireTypesOK context context.outputTypes require →
      (glbBuildGenerateCode_C_Main_RequireTypes context require codeOut).1 = GLB_ERROR := by
    intro req hnot
    obtain ⟨r, pre, -, h, hr, -, hiff⟩ := requireTypes_run context req context.outputTypes
    rw [setLedger_self] at h
    rw [h codeOut]
    rcases hr with hr | hr
    · exact absurd (hiff.mp hr) hnot
    · exact hr
  refine ⟨?_, ?_, ?_, ?_, ?_, by decide, by decide, rfl⟩
  · intro doc h
    rcases h with h | ⟨pRoot, hroot, hname⟩
    · simp only [glbBuildLoadXML, h, Option.map_some']
    · simp only [glbBuildLoadXML, hroot, hname, ne_eq, not_false_eq_true, if_true,
        Option.map_some']
  · intro req n hn hk hl hres
    apply htypes
    rintro ⟨hall, -⟩
    rcases hall n hn with h | h | h
    · exact hk h
    · exact hl h
    · rw [hres] at h; cases h
  · intro req n hn hres
    obtain ⟨r, pre, -, h, hr, -, hiff⟩ := requireEnums_run context req
    rw [h codeOut]
    rcases hr with hr | hr
    · have := hiff.mp hr n hn
      rw [hres] at this; cases this
    · exact hr
  · intro req n hn hres
    refine ⟨?_, ?_⟩
    · apply htypes
      rintro ⟨-, hall⟩
      have := hall n hn
      rw [hres] at this; cases this
    · obtain ⟨r, pre, -, h, hr, -, hiff⟩ := requireCommands_run context req
      rw [h codeOut]
      rcases hr with hr | hr
      · have := hiff.mp hr n hn
        rw [hres] at this; cases this
      · exact hr
  · intro hne
    obtain ⟨r, pre, δ, -, h, hr, -⟩ := main_run context context.outputTypes
    rw [setLedger_self] at h
    rw [h codeOut] at hne ⊢
    rcases hr with hr | hr
    · exact absurd hr hne
    · exact hr

/-- Witness of C23: the document without a root element, the Require of the
scenario registry that lists the missing type `GLmissing`, and the registry
whose Feature requires the missing command `glMissing`. -/
theorem C23_failure_codes_witness :
    (glbBuildLoadXML scenarioCtx rootlessDocument).map (fun r => r.1) = some (-1) ∧
    (glbBuildGenerateCode_C_Main_RequireTypes scenarioCtx missingTypeRequire "").1 =
      GLB_ERROR ∧
    (glbBuildGenerateCode_C_Main missingCommandCtx "").1 = GLB_ERROR :=
  ⟨(C23_failure_codes scenarioCtx "").1 rootlessDocument (Or.inl rfl),
   (C23_failure_codes scenarioCtx "").2.1 missingTypeRequire "GLmissing" (by decide)
     (by decide) (by decide) rfl,
   (C23_failure_codes missingCommandCtx "").2.2.2.2.1 (by decide)⟩

/-! ## Features and Extensions outside the groups -/

theorem type_withDecls (c : glbBuild) (f : List glbFeature) (e : List glbExtension)
    (n out : String) :
    glbBuildGenerateCode_C_Main_Type (withDecls c f e) n out =
      liftDecls f e (glbBuildGenerateCode_C_Main_Type c n out) := by
  rw [type_eq, type_eq]
  have hf : glbBuildFindType (withDecls c f e) n = glbBuildFindType c n := rfl
  have hl : (withDecls c f e).outputTypes = c.outputTypes := rfl
  rw [hf, hl]
  by_cases h1 : n = "khrplatform"
  · simp only [h1, if_true]; rfl
  · by_cases h2 : n ∈ c.outputTypes
    · simp only [h1, if_false, h2, if_true]; rfl
    · simp only [h1, if_false, h2]
      cases glbBuildFindType c n with
      | error r => rfl
      | ok t => rfl

theorem standalone_withDecls (f : List glbFeature) (e : List glbExtension)
    (names : List String) (c : glbBuild) (out : String) :
    RequireTypes_standalone (withDecls c f e) names out =
      liftDecls f e (RequireTypes_standalone c names out) := by
  induction names generalizing c out with
  | nil => rfl
  | cons n rest ih =>
    rw [RequireTypes_standalone, RequireTypes_standalone, type_withDecls]
    obtain ⟨r, c1, o1⟩ := glbBuildGenerateCode_C_Main_Type c n out
    by_cases hr : r ≠ GLB_SUCCESS ∧ r ≠ GLB_ALREADY_PROCESSED
    · simp only [liftDecls, if_pos hr]
    · simp only [liftDecls, if_neg hr]
      exact ih c1 o1

theorem params_withDecls (f : List glbFeature) (e : List glbExtension)
    (ps : List glbCommandParam) (c : glbBuild) (out : String) :
    RequireTypes_params (withDecls c f e) ps out =
      (withDecls (RequireTypes_params c ps out).1 f e,
        (RequireTypes_params c ps out).2) := by
  induction ps generalizing c out with
  | nil => rfl
  | cons p rest ih =>
    rw [RequireTypes_params, RequireTypes_params]
    by_cases hp : p.type ≠ ""
    · rw [if_pos hp, if_pos hp, type_withDecls]
      obtain ⟨r, c1, o1⟩ := glbBuildGenerateCode_C_Main_Type c p.type out
      exact ih c1 o1
    · rw [if_neg hp, if_neg hp]
      exact ih c out

theorem commands_withDecls (f : List glbFeature) (e : List glbExtension)
    (names : List String) (c : glbBuild) (out : String) :
    RequireTypes_commands (withDecls c f e) names out =
      liftDecls f e (RequireTypes_commands c names out) := by
  induction names generalizing c out with
  | nil => rfl
  | cons n rest ih =>
    rw [RequireTypes_commands, RequireTypes_commands]
    have hf : glbBuildFindCommand (withDecls c f e) n = glbBuildFindCommand c n := rfl
    rw [hf]
    cases glbBuildFindCommand c n with
    | error r => rfl
    | ok cmd =>
      simp only []
      by_cases hr : cmd.returnType ≠ ""
      · rw [if_pos hr, if_pos hr, type_withDecls]
        obtain ⟨r, c1, o1⟩ := glbBuildGenerateCode_C_Main_Type c cmd.returnType out
        simp only [liftDecls, params_withDecls]
        exact ih _ _
      · rw [if_neg hr, if_neg hr]
        simp only [params_withDecls]
        exact ih _ _

theorem requireTypes_withDecls (f : List glbFeature) (e : List glbExtension)
    (c : glbBuild) (req : glbRequire) (out : String) :
    glbBuildGenerateCode_C_Main_RequireTypes (withDecls c f e) req out =
      liftDecls f e (glbBuildGenerateCode_C_Main_RequireTypes c req out) := by
  unfold glbBuildGenerateCode_C_Main_RequireTypes
  rw [standalone_withDecls]
  obtain ⟨r, c1, o1⟩ := RequireTypes_standalone c req.types out
  cases r with
  | some r => rfl
  | none =>
    simp only [liftDecls, commands_withDecls]
    obtain ⟨r2, c2, o2⟩ := RequireTypes_commands c1 req.commands o1
    cases r2 <;> rfl

theorem requireEnums_withDecls (f : List glbFeature) (e : List glbExtension)
    (c : glbBuild) (req : glbRequire) (out : String) :
    glbBuildGenerateCode_C_Main_RequireEnums (withDecls c f e) req out =
      liftDecls f e (glbBuildGenerateCode_C_Main_RequireEnums c req out) := by
  have key : ∀ (names : List String) (out : String),
      RequireEnums_loop (withDecls c f e) names out =
        liftDecls f e (RequireEnums_loop c names out) := by
    intro names
    induction names with
    | nil => intro out; rfl
    | cons n rest ih =>
      intro out
      rw [RequireEnums_loop, RequireEnums_loop]
      have hf : glbBuildFindEnum (withDecls c f e) n = glbBuildFindEnum c n := rfl
      rw [hf]
      cases glbBuildFindEnum c n with
      | error r => rfl
      | ok en => exact ih _
  unfold glbBuildGenerateCode_C_Main_RequireEnums
  rw [key]
  obtain ⟨r, c1, o1⟩ := RequireEnums_loop c req.enums out
  cases r <;> rfl

theorem requireCommands_withDecls (f : List glbFeature) (e : List glbExtension)
    (c : glbBuild) (req : glbRequire) (out : String) :
    glbBuildGenerateCode_C_Main_RequireCommands (withDecls c f e) req out =
      liftDecls f e (glbBuildGenerateCode_C_Main_RequireCommands c req out) := by
  have key : ∀ (names : List String) (out : String),
      RequireCommands_loop (withDecls c f e) names out =
        liftDecls f e (RequireCommands_loop c names out) := by
    intro names
    induction names with
    | nil => intro out; rfl
    | cons n rest ih =>
      intro out
      rw [RequireCommands_loop, RequireCommands_loop]
      have hf : glbBuildFindCommand (withDecls c f e) n = glbBuildFindCommand c n := rfl
      rw [hf]
      cases glbBuildFindCommand c n with
      | error r => rfl
      | ok cmd => exact ih _
  unfold glbBuildGenerateCode_C_Main_RequireCommands
  rw [key]
  obtain ⟨r, c1, o1⟩ := RequireCommands_loop c req.commands out
  cases r <;> rfl

theorem requiresLoop_withDecls
    (step : glbBuild → glbRequire → String → glbResult × glbBuild × String)
    (f : List glbFeature) (e : List glbExtension)
    (hstep : ∀ c req out, step (withDecls c f e) req out = liftDecls f e (step c req out))
    (reqs : List glbRequire) (c : glbBuild) (out : String) :
    requiresLoop step (withDecls c f e) reqs out =
      liftDecls f e (requiresLoop step c reqs out) := by
  induction reqs generalizing c out with
  | nil => rfl
  | cons req rest ih =>
    rw [requiresLoop, requiresLoop, hstep]
    obtain ⟨r, c1, o1⟩ := step c req out
    by_cases hr : r ≠ GLB_SUCCESS
    · simp only [liftDecls, if_pos hr]
    · simp only [liftDecls, if_neg hr]
      exact ih c1 o1

theorem emitBlock_withDecls (f : List glbFeature) (e : List glbExtension)
    (c : glbBuild) (name : String) (reqs : List glbRequire) (out : String) :
    emitBlock (withDecls c f e) name reqs out = liftDecls f e (emitBlock c name reqs out) := by
  unfold emitBlock
  simp only []
  rw [requiresLoop_withDecls _ f e (requireTypes_withDecls f e)]
  obtain ⟨r, c1, o1⟩ := requiresLoop glbBuildGenerateCode_C_Main_RequireTypes c reqs
    (out ++ ("#ifndef " ++ name ++ "\n") ++ ("#define " ++ name ++ " 1\n"))
  cases r with
  | some r => rfl
  | none =>
    simp only [liftDecls]
    rw [requiresLoop_withDecls _ f e (requireEnums_withDecls f e)]
    obtain ⟨r2, c2, o2⟩ := requiresLoop glbBuildGenerateCode_C_Main_RequireEnums c1 reqs o1
    cases r2 with
    | some r => rfl
    | none =>
      simp only [liftDecls]
      rw [requiresLoop_withDecls _ f e (requireCommands_withDecls f e)]
      obtain ⟨r3, c3, o3⟩ :=
        requiresLoop glbBuildGenerateCode_C_Main_RequireCommands c2 reqs o2
      cases r3 <;> rfl

theorem unitsLoop_withDecls (f : List glbFeature) (e : List glbExtension)
    (units : List (String × List glbRequire)) (c : glbBuild) (counter : Nat) (out : String) :
    unitsLoop (withDecls c f e) units counter out =
      liftDecls f e (unitsLoop c units counter out) := by
  induction units generalizing c counter out with
  | nil => rfl
  | cons u rest ih =>
    rw [unitsLoop, unitsLoop, emitBlock_withDecls]
    obtain ⟨r, c1, o1⟩ := emitBlock c u.1 u.2 (if counter > 0 then out ++ "\n" else out)
    by_cases hr : r ≠ GLB_SUCCESS
    · simp only [liftDecls, if_pos hr]
    · simp only [liftDecls, if_neg hr]
      exact ih c1 _ o1

theorem stagesLoop_withDecls (f : List glbFeature) (e : List glbExtension)
    (stages : List (String × List (String × List glbRequire) × String))
    (c : glbBuild) (out : String) :
    stagesLoop (withDecls c f e) stages out = liftDecls f e (stagesLoop c stages out) := by
  induction stages generalizing c out with
  | nil => rfl
  | cons s rest ih =>
    rw [stagesLoop, stagesLoop, unitsLoop_withDecls]
    obtain ⟨r, c1, o1⟩ := unitsLoop c s.2.1 0 (out ++ s.1)
    cases r with
    | some r => rfl
    | none =>
      simp only [liftDecls]
      exact ih c1 _

theorem filter_filter_of_imp {α : Type} (p q : α → Bool) (h : ∀ a, p a = true → q a = true)
    (l : List α) : (l.filter q).filter p = l.filter p := by
  rw [List.filter_filter]
  congr 1
  funext a
  cases hp : p a with
  | false => rfl
  | true => simp [h a hp]

theorem mainStages_keepEmitted (c : glbBuild) : mainStages (keepEmitted c) = mainStages c := by
  have hf : ∀ api : String, (api = "gl" ∨ api = "wgl" ∨ api = "glx") →
      featureUnits (keepEmitted c) api = featureUnits c api := by
    intro api hapi
    unfold featureUnits keepEmitted withDecls
    simp only []
    rw [filter_filter_of_imp]
    intro a ha
    have ha' : a.api = api := by simpa using ha
    rcases hapi with h | h | h <;> simp [inFeatureGroup, ha', h]
  have he : ∀ select : glbExtension → Bool,
      (∀ a, select a = true → inExtensionGroup a = true) →
      extensionUnits (keepEmitted c) select = extensionUnits c select := by
    intro select hsel
    unfold extensionUnits keepEmitted withDecls
    simp only []
    rw [filter_filter_of_imp _ _ hsel]
  unfold mainStages
  rw [hf "gl" (Or.inl rfl), hf "wgl" (Or.inr (Or.inl rfl)), hf "glx" (Or.inr (Or.inr rfl)),
    he Main_selectGL (fun a h => by simp [inExtensionGroup, h]),
    he Main_selectWGL (fun a h => by simp [inExtensionGroup, h]),
    he Main_selectGLX (fun a h => by simp [inExtensionGroup, h])]

theorem main_keepEmitted (c : glbBuild) (out : String) :
    glbBuildGenerateCode_C_Main (keepEmitted c) out =
      liftDecls (c.features.filter inFeatureGroup) (c.extensions.filter inExtensionGroup)
        (glbBuildGenerateCode_C_Main c out) := by
  have h1 := main_eq_stagesLoop c c.outputTypes out
  rw [setLedger_self] at h1
  have h2 := main_eq_stagesLoop (keepEmitted c) (keepEmitted c).outputTypes out
  rw [setLedger_self, mainStages_keepEmitted] at h2
  rw [h1, h2]
  exact stagesLoop_withDecls _ _ _ c out

/-- C29. The Features whose api is none of "gl", "wgl", "glx" and the
Extensions that pass none of the three group tests are inert: the run of
`glbBuildGenerateCode_C_Main` on a registry and the run on the registry with
those Features and Extensions removed (`keepEmitted`) return the same code,
write the same text and leave the same ledger; the registries after the two
runs differ in the removed Features and Extensions only.  So it is for
`inertCtx`, whose Feature of the api "gles2" and Extension supported by
"gles2" name a type, an enum and a command that do not exist. -/
theorem C29_outside_groups_inert (context : glbBuild) (codeOut : String) :
    (glbBuildGenerateCode_C_Main (keepEmitted context) codeOut).1 =
      (glbBuildGenerateCode_C_Main context codeOut).1 ∧
    (glbBuildGenerateCode_C_Main (keepEmitted context) codeOut).2.2 =
      (glbBuildGenerateCode_C_Main context codeOut).2.2 ∧
    (glbBuildGenerateCode_C_Main (keepEmitted context) codeOut).2.1.outputTypes =
      (glbBuildGenerateCode_C_Main context codeOut).2.1.outputTypes ∧
    (glbBuildGenerateCode_C_Main (keepEmitted context) codeOut).2.1 =
      { (glbBuildGenerateCode_C_Main context codeOut).2.1 with
        features := context.features.filter
          (fun f => f.api = "gl" || f.api = "wgl" || f.api = "glx"),
        extensions := context.extensions.filter
          (fun e => Main_selectGL e || Main_selectWGL e || Main_selectGLX e) } ∧
    keepEmitted inertCtx = scenarioCtx ∧
    (glbBuildGenerateCode_C_Main inertCtx "").1 = GLB_SUCCESS ∧
    (glbBuildGenerateCode_C_Main inertCtx "").2.2 =
      (glbBuildGenerateCode_C_Main scenarioCtx "").2.2 ∧
    (glbBuildGenerateCode_C_Main inertCtx "").2.1.outputTypes = ["GLint"] := by
  rw [main_keepEmitted]
  exact ⟨rfl, rfl, rfl, rfl, by decide, rfl, rfl, rfl⟩

/-! ## Marker substitution -/

theorem stdFindAux_some (pat : List Char) (l : List Char) (pos k : Nat)
    (h : stdFindAux pat l pos = some k) :
    pos ≤ k ∧ k - pos ≤ l.length ∧ pat <+: l.drop (k - pos) ∧
      ∀ j, j < k - pos → ¬ pat <+: l.drop j := by
  induction l generalizing pos with
  | nil =>
    unfold stdFindAux at h
    by_cases hp : pat = []
    · simp only [hp, if_true, Option.some.injEq] at h
      subst h
      subst hp
      simp
    · simp [hp] at h
  | cons c rest ih =>
    unfold stdFindAux at h
    by_cases hp : pat.isPrefixOf (c :: rest) = true
    · simp only [hp, if_true, Option.some.injEq] at h
      subst h
      simp only [Nat.sub_self, List.drop_zero, Nat.zero_le, true_and]
      exact ⟨le_refl _, List.isPrefixOf_iff_prefix.mp hp, fun j hj => absurd hj (Nat.not_lt_zero _)⟩
    · simp only [hp, if_false, Bool.false_eq_true] at h
      obtain ⟨h1, h2, h3, h4⟩ := ih (pos + 1) h
      have hk : k - pos = (k - (pos + 1)) + 1 := by omega
      refine ⟨by omega, ?_, ?_, ?_⟩
      · rw [hk]; simp only [List.length_cons]; omega
      · rw [hk]; simpa using h3
      · intro j hj
        cases j with
        | zero =>
          simp only [List.drop_zero]
          exact fun hpre => hp (List.isPrefixOf_iff_prefix.mpr hpre)
        | succ j =>
          simp only [List.drop_succ_cons]
          exact h4 j (by omega)

theorem stdFindAux_none (pat : List Char) (l : List Char) (pos : Nat)
    (h : stdFindAux pat l pos = none) : ¬ pat <:+: l := by
  rw [← stdFindAux_isSome pat l pos, h]
  simp

theorem stdFind_some (source pattern : String) (lastPos findPos : Nat)
    (h : stdFind source pattern lastPos = some findPos) :
    lastPos ≤ findPos ∧ findPos + pattern.length ≤ source.length ∧
      pattern.data <+: source.data.drop findPos ∧
      ∀ j, lastPos ≤ j → j < findPos → ¬ pattern.data <+: source.data.drop j := by
  unfold stdFind at h
  by_cases hl : lastPos ≤ source.data.length
  · simp only [hl, if_true] at h
    obtain ⟨h1, h2, h3, h4⟩ := stdFindAux_some _ _ _ _ h
    rw [List.drop_drop] at h3
    have e : lastPos + (findPos - lastPos) = findPos := by omega
    rw [e] at h3
    refine ⟨h1, ?_, h3, ?_⟩
    · have := h3.length_le
      simp only [List.length_drop] at this h2
      show findPos + pattern.data.length ≤ source.data.length
      omega
    · intro j hj1 hj2
      have := h4 (j - lastPos) (by omega)
      rw [List.drop_drop] at this
      have e2 : lastPos + (j - lastPos) = j := by omega
      rw [e2] at this
      exact this
  · rw [if_neg hl] at h; cases h

theorem stdFind_none (source pattern : String) (lastPos : Nat) (hl : lastPos ≤ source.length)
    (h : stdFind source pattern lastPos = none) :
    ¬ pattern.data <:+: source.data.drop lastPos := by
  unfold stdFind at h
  have hl' : lastPos ≤ source.data.length := hl
  simp only [hl', if_true] at h
  exact stdFindAux_none _ _ _ h

theorem stdFind_eq_some (source pattern : String) (lastPos k : Nat)
    (h1 : lastPos ≤ k) (h2 : pattern.data <+: source.data.drop k)
    (h3 : k ≤ source.length)
    (h4 : ∀ j, lastPos ≤ j → j < k → ¬ pattern.data <+: source.data.drop j) :
    stdFind source pattern lastPos = some k := by
  cases hf : stdFind source pattern lastPos with
  | none =>
    exfalso
    apply stdFind_none source pattern lastPos (le_trans h1 h3) hf
    have : source.data.drop k <:+ source.data.drop lastPos := by
      have e : k = lastPos + (k - lastPos) := by omega
      rw [e, ← List.drop_drop]
      exact List.drop_suffix _ _
    exact (h2.isInfix).trans this.isInfix
  | some k' =>
    obtain ⟨a1, a2, a3, a4⟩ := stdFind_some _ _ _ _ hf
    congr 1
    rcases Nat.lt_trichotomy k' k with hlt | heq | hgt
    · exact absurd a3 (h4 k' a1 hlt)
    · exact heq
    · exact absurd h2 (a4 k h1 hgt)

theorem replaceLoop_succ (source fromStr toStr : String) (fuel lastPos : Nat)
    (result : String) :
    glbReplaceAllLoop source fromStr toStr (fuel + 1) lastPos result =
      match stdFind source fromStr lastPos with
      | none => some (result ++ String.mk (source.data.drop lastPos))
      | some findPos =>
        glbReplaceAllLoop source fromStr toStr fuel (findPos + fromStr.length)
          (result ++ String.mk ((source.data.drop lastPos).take (findPos - lastPos)) ++
            toStr) := rfl

/-- With a non-empty search string the loop ends within
`source.length - lastPos + 1` iterations, and more fuel does not change what
it returns. -/
theorem replaceLoop_total (source fromStr toStr : String) (hfrom : fromStr ≠ "")
    (fuel lastPos : Nat) (result : String)
    (hl : lastPos ≤ source.length) (hfuel : source.length - lastPos < fuel) :
    ∃ r, ∀ fuel', fuel ≤ fuel' →
      glbReplaceAllLoop source fromStr toStr fuel' lastPos result = some r := by
  have hlen : 0 < fromStr.length := by
    rcases Nat.eq_zero_or_pos fromStr.length with h | h
    · exact absurd (String.ext (List.length_eq_zero.mp h)) hfrom
    · exact h
  induction fuel generalizing lastPos result with
  | zero => exact absurd hfuel (Nat.not_lt_zero _)
  | succ fuel ih =>
    cases hf : stdFind source fromStr lastPos with
    | none =>
      refine ⟨result ++ String.mk (source.data.drop lastPos), ?_⟩
      intro fuel' hle
      obtain ⟨m, rfl⟩ : ∃ m, fuel' = m + 1 := ⟨fuel' - 1, by omega⟩
      rw [replaceLoop_succ, hf]
    | some findPos =>
      obtain ⟨a1, a2, -, -⟩ := stdFind_some _ _ _ _ hf
      obtain ⟨r, hr⟩ := ih (findPos + fromStr.length)
        (result ++ String.mk ((source.data.drop lastPos).take (findPos - lastPos)) ++ toStr)
        a2 (by omega)
      refine ⟨r, ?_⟩
      intro fuel' hle
      obtain ⟨m, rfl⟩ : ∃ m, fuel' = m + 1 := ⟨fuel' - 1, by omega⟩
      rw [replaceLoop_succ, hf]
      exact hr m (by omega)

theorem stdFind_shift (source fromStr : String) (lastPos : Nat)
    (hl : lastPos ≤ source.length) :
    stdFind source fromStr lastPos =
      (stdFind (String.mk (source.data.drop lastPos)) fromStr 0).map
        (fun k => k + lastPos) := by
  cases hf : stdFind (String.mk (source.data.drop lastPos)) fromStr 0 with
  | none =>
    cases hg : stdFind source fromStr lastPos with
    | none => rfl
    | some k =>
      exfalso
      obtain ⟨a1, a2, a3, a4⟩ := stdFind_some _ _ _ _ hg
      apply stdFind_none _ _ 0 (Nat.zero_le _) hf
      simp only [List.drop_zero]
      have : source.data.drop k <:+ source.data.drop lastPos := by
        have e : k = lastPos + (k - lastPos) := by omega
        rw [e, ← List.drop_drop]
        exact List.drop_suffix _ _
      exact (a3.isInfix).trans this.isInfix
  | some k =>
    obtain ⟨a1, a2, a3, a4⟩ := stdFind_some _ _ _ _ hf
    simp only [Option.map_some']
    have hlen : (String.mk (source.data.drop lastPos)).length =
        source.length - lastPos := by
      show (source.data.drop lastPos).length = _
      rw [List.length_drop]; rfl
    rw [hlen] at a2
    apply stdFind_eq_some
    · omega
    · have := a3
      simp only [List.drop_drop] at this
      have e : lastPos + k = k + lastPos := by omega
      rw [e] at this
      exact this
    · omega
    · intro j hj1 hj2
      have := a4 (j - lastPos) (Nat.zero_le _) (by omega)
      simp only [List.drop_drop] at this
      have e : lastPos + (j - lastPos) = j := by omega
      rw [e] at this
      exact this

/-- The loop at `lastPos` with `result` does what the loop does on the text
that remains from `lastPos` on, started afresh, behind `result`. -/
theorem replaceLoop_shift (fromStr toStr : String) (fuel : Nat) (source : String)
    (lastPos : Nat) (result : String) (hl : lastPos ≤ source.length) :
    glbReplaceAllLoop source fromStr toStr fuel lastPos result =
      (glbReplaceAllLoop (String.mk (source.data.drop lastPos)) fromStr toStr fuel 0 "").map
        (fun r => result ++ r) := by
  induction fuel generalizing source lastPos result with
  | zero => rfl
  | succ fuel ih =>
    rw [replaceLoop_succ, replaceLoop_succ, stdFind_shift source fromStr lastPos hl]
    cases hf : stdFind (String.mk (source.data.drop lastPos)) fromStr 0 with
    | none =>
      simp only [Option.map_none', Option.map_some', List.drop_zero]
      congr 1
    | some k =>
      obtain ⟨a1, a2, a3, a4⟩ := stdFind_some _ _ _ _ hf
      have hlen : (String.mk (source.data.drop lastPos)).length =
          source.length - lastPos := by
        show (source.data.drop lastPos).length = _
        rw [List.length_drop]; rfl
      simp only [Option.map_some', List.drop_zero, Nat.sub_zero]
      rw [ih source (k + lastPos + fromStr.length) _ (by rw [hlen] at a2; omega)]
      rw [ih (String.mk (source.data.drop lastPos)) (k + fromStr.length) _ a2]
      simp only [Option.map_map]
      have e1 : (String.mk (source.data.drop lastPos)).data.drop (k + fromStr.length) =
          source.data.drop (k + lastPos + fromStr.length) := by
        show (source.data.drop lastPos).drop (k + fromStr.length) = _
        rw [List.drop_drop]
        congr 1; omega
      rw [e1]
      have e2 : k + lastPos - lastPos = k := by omega
      rw [e2]
      congr 1
      funext r
      simp only [Function.comp, String.append_assoc, String.empty_append]

theorem replaceAll_total (source fromStr toStr : String) (hfrom : fromStr ≠ "") :
    ∃ r, glbReplaceAll source fromStr toStr = some r ∧
      ∀ fuel, source.length + 1 ≤ fuel →
        glbReplaceAllLoop source fromStr toStr fuel 0 "" = some r := by
  obtain ⟨r, hr⟩ := replaceLoop_total source fromStr toStr hfrom (source.length + 1) 0 ""
    (Nat.zero_le _) (by omega)
  exact ⟨r, hr _ (le_refl _), hr⟩

/-- C21. For a non-empty marker `fromStr`: when `fromStr` does not occur in
`source`, `glbReplaceAll` returns `source`; when `source` is
`pre ++ fromStr ++ post` and no occurrence of `fromStr` starts before the
end of `pre` (the occurrence behind `pre` is the leftmost), it returns
`pre ++ toStr` followed by what `glbReplaceAll` returns for `post`. -/
theorem C21_replace_all (source fromStr toStr : String) (hfrom : fromStr ≠ "") :
    (¬ fromStr.data <:+: source.data → glbReplaceAll source fromStr toStr = some source) ∧
    (∀ pre post : String, source = pre ++ fromStr ++ post →
      (∀ j, j < pre.length → ¬ fromStr.data <+: source.data.drop j) →
      ∃ r, glbReplaceAll post fromStr toStr = some r ∧
        glbReplaceAll source fromStr toStr = some (pre ++ toStr ++ r)) := by
  constructor
  · intro hno
    have hf : stdFind source fromStr 0 = none := by
      cases hf : stdFind source fromStr 0 with
      | none => rfl
      | some k =>
        obtain ⟨-, -, a3, -⟩ := stdFind_some _ _ _ _ hf
        exact absurd ((a3.isInfix).trans (List.drop_suffix _ _).isInfix) hno
    unfold glbReplaceAll
    rw [replaceLoop_succ, hf]
    simp only [List.drop_zero, String.empty_append]
  · intro pre post hsrc hleft
    have hdata : source.data = pre.data ++ fromStr.data ++ post.data := by
      rw [hsrc]; simp only [String.data_append]
    have hsl : source.length = pre.length + fromStr.length + post.length := by
      show source.data.length = _
      rw [hdata]; simp only [List.length_append]; rfl
    have hf : stdFind source fromStr 0 = some pre.length := by
      apply stdFind_eq_some _ _ _ _ (Nat.zero_le _)
      · rw [hdata, List.append_assoc]
        have : (pre.data ++ (fromStr.data ++ post.data)).drop pre.length =
            fromStr.data ++ post.data := List.drop_left' rfl
        rw [this]
        exact List.prefix_append _ _
      · omega
      · intro j _ hj
        exact hleft j hj
    have hlen : 0 < fromStr.length := by
      rcases Nat.eq_zero_or_pos fromStr.length with h | h
      · exact absurd (String.ext (List.length_eq_zero.mp h)) hfrom
      · exact h
    obtain ⟨r, hr, hr'⟩ := replaceAll_total post fromStr toStr hfrom
    refine ⟨r, hr, ?_⟩
    unfold glbReplaceAll
    rw [replaceLoop_succ, hf]
    simp only []
    rw [replaceLoop_shift _ _ _ _ _ _ (by omega)]
    have hpost : String.mk (source.data.drop (pre.length + fromStr.length)) = post := by
      apply String.ext
      show source.data.drop (pre.length + fromStr.length) = post.data
      rw [hdata]
      exact List.drop_left' (by simp only [List.length_append]; rfl)
    have hpre : String.mk ((source.data.drop 0).take (pre.length - 0)) = pre := by
      apply String.ext
      show (source.data.drop 0).take (pre.length - 0) = pre.data
      rw [hdata, List.drop_zero, Nat.sub_zero, List.append_assoc]
      exact List.take_left' rfl
    rw [hpost, hpre, hr' source.length (by omega)]
    simp only [Option.map_some', String.empty_append]

/-- Witness of C21: in "aXXXbXX" the marker "XX" occurs first behind "a"; the
occurrence that overlaps it is not replaced and the inserted "X" is not
scanned again. -/
theorem C21_replace_all_witness :
    ("XX" : String) ≠ "" ∧ ("aXXXbXX" : String) = "a" ++ "XX" ++ "XbXX" ∧
    glbReplaceAll "aXXXbXX" "XX" "X" = some "aXXbX" ∧
    ∃ r, glbReplaceAll "XbXX" "XX" "X" = some r ∧
      glbReplaceAll "aXXXbXX" "XX" "X" = some ("a" ++ "X" ++ r) :=
  ⟨by decide, by decide, by decide,
   (C21_replace_all "aXXXbXX" "XX" "X" (by decide)).2 "a" "XbXX" (by decide) (by decide)⟩

/-- C27. With a non-empty `fromStr` the loop of `glbReplaceAll` ends: every
search that finds an occurrence moves the scan position forward by at least
one and not beyond the end of `source`, the loop leaves through its `break`
within `source.length + 1` iterations, and a larger bound on the iterations
gives the same result.  With the empty `fromStr` a search finds the scan
position itself, which therefore does not advance, and the loop has not ended
after any number of iterations. -/
theorem C27_replace_terminates (source toStr : String) :
    (∀ fromStr : String, fromStr ≠ "" →
      (∃ r, glbReplaceAll source fromStr toStr = some r ∧
        ∀ fuel, source.length + 1 ≤ fuel →
          glbReplaceAllLoop source fromStr toStr fuel 0 "" = some r) ∧
      (∀ lastPos findPos, stdFind source fromStr lastPos = some findPos →
        lastPos < findPos + fromStr.length ∧ findPos + fromStr.length ≤ source.length)) ∧
    (∀ lastPos, lastPos ≤ source.length →
      stdFind source "" lastPos = some lastPos ∧ lastPos + ("" : String).length = lastPos) ∧
    (∀ (fuel : Nat) (result : String),
      glbReplaceAllLoop source "" toStr fuel 0 result = none) := by
  have hempty : ∀ lastPos, lastPos ≤ source.length →
      stdFind source "" lastPos = some lastPos := by
    intro lastPos hl
    apply stdFind_eq_some _ _ _ _ (le_refl _) _ hl
    · intro j h1 h2; omega
    · exact List.nil_prefix
  refine ⟨?_, fun lastPos hl => ⟨hempty lastPos hl, rfl⟩, ?_⟩
  · intro fromStr hfrom
    refine ⟨replaceAll_total source fromStr toStr hfrom, ?_⟩
    intro lastPos findPos hf
    obtain ⟨a1, a2, -, -⟩ := stdFind_some _ _ _ _ hf
    have hlen : 0 < fromStr.length := by
      rcases Nat.eq_zero_or_pos fromStr.length with h | h
      · exact absurd (String.ext (List.length_eq_zero.mp h)) hfrom
      · exact h
    exact ⟨by omega, a2⟩
  · intro fuel
    induction fuel with
    | zero => intro result; rfl
    | succ fuel ih =>
      intro result
      rw [replaceLoop_succ, hempty 0 (Nat.zero_le _)]
      exact ih _

/-- Witness of C27 on the template text "a/*<<opengl_main>>*/b". -/
theorem C27_replace_terminates_witness :
    ("/*<<opengl_main>>*/" : String) ≠ "" ∧
    ∃ r, glbReplaceAll "a/*<<opengl_main>>*/b" "/*<<opengl_main>>*/" "code" = some r ∧
      ∀ fuel, ("a/*<<opengl_main>>*/b" : String).length + 1 ≤ fuel →
        glbReplaceAllLoop "a/*<<opengl_main>>*/b" "/*<<opengl_main>>*/" "code" fuel 0 "" =
          some r :=
  ⟨by decide,
   ((C27_replace_terminates "a/*<<opengl_main>>*/b" "code").1 "/*<<opengl_main>>*/"
     (by decide)).1⟩

/-! ## Writing the output file and reading a file -/

/-- C22 (defect of `glbBuildGenerateOutputFile`): the result of
`glbOpenAndWriteTextFile` is not looked at.  When the template is read and the
emission succeeds, the function makes its one write call and returns
`GLB_SUCCESS` whatever that call returns; so it does for `unwritableFiles`,
whose destination cannot be opened for writing.  When the template read fails
it returns the failure code of the read. -/
theorem C22_write_result_ignored (files : glbFiles) (context : glbBuild)
    (outputFilePath : String) :
    ((files.readText GLB_BUILD_TEMPLATE_PATH).1 ≠ GLB_SUCCESS →
      glbBuildGenerateOutputFile files context outputFilePath =
        some ((files.readText GLB_BUILD_TEMPLATE_PATH).1, context, [])) ∧
    ((files.readText GLB_BUILD_TEMPLATE_PATH).1 = GLB_SUCCESS →
      (glbBuildGenerateCode_C_Main context "").1 = GLB_SUCCESS →
      ∃ text,
        glbReplaceAll (files.readText GLB_BUILD_TEMPLATE_PATH).2 "/*<<opengl_main>>*/"
          (glbBuildGenerateCode_C_Main context "").2.2 = some text ∧
        glbBuildGenerateOutputFile files context outputFilePath =
          some (GLB_SUCCESS, (glbBuildGenerateCode_C_Main context "").2.1,
            [(outputFilePath, text)])) ∧
    (∀ text, unwritableFiles.writeText "../../glbind.h" text = GLB_FAILED_TO_OPEN_FILE) ∧
    (glbBuildGenerateOutputFile unwritableFiles emptyCtx "../../glbind.h").map
        (fun r => r.1) = some GLB_SUCCESS := by
  refine ⟨?_, ?_, fun _ => rfl, rfl⟩
  · intro hread
    unfold glbBuildGenerateOutputFile
    simp only [ne_eq, hread, not_false_eq_true, if_true]
  · intro hread hmain
    obtain ⟨text, htext, -⟩ := replaceAll_total (files.readText GLB_BUILD_TEMPLATE_PATH).2
      "/*<<opengl_main>>*/" (glbBuildGenerateCode_C_Main context "").2.2 (by decide)
    refine ⟨text, htext, ?_⟩
    unfold glbBuildGenerateOutputFile
    simp only [hread, ne_eq, not_true_eq_false, if_false, OutputFile_tags,
      glbBuildGenerateCode_C, if_true, hmain, htext]

/-- Witness of C22: the scenario registry with files whose destination cannot
be opened for writing. -/
theorem C22_write_result_ignored_witness :
    unwritableFiles.writeText "../../glbind.h"
        ("/* head */\n" ++ (glbBuildGenerateCode_C_Main scenarioCtx "").2.2 ++
          "\n/* tail */\n") = GLB_FAILED_TO_OPEN_FILE ∧
    ∃ text,
      glbReplaceAll (unwritableFiles.readText GLB_BUILD_TEMPLATE_PATH).2 "/*<<opengl_main>>*/"
        (glbBuildGenerateCode_C_Main scenarioCtx "").2.2 = some text ∧
      glbBuildGenerateOutputFile unwritableFiles scenarioCtx "../../glbind.h" =
        some (GLB_SUCCESS, (glbBuildGenerateCode_C_Main scenarioCtx "").2.1,
          [("../../glbind.h", text)]) :=
  ⟨rfl, (C22_write_result_ignored unwritableFiles scenarioCtx "../../glbind.h").2.1 rfl rfl⟩

/-- C26 (defect of `glbOpenAndReadFileWithExtraData`): the test
`fileSize + extraBytes > SIZE_MAX` is evaluated modulo `2 ^ 64`.  For a file
that opens, the function returns `GLB_FILE_TOO_BIG` (having allocated nothing)
exactly when the wrapped sum exceeds `SIZE_MAX`; with a `size_t` of 64 bits
that never happens, also when the true sum exceeds `SIZE_MAX`; when the true
sum is below `2 ^ 64` and exceeds `SIZE_MAX` it returns `GLB_FILE_TOO_BIG` and
allocates nothing.  On `brokenStdio` (64 bits, file size `2 ^ 64 - 1`, one
extra byte) the true sum exceeds `SIZE_MAX`, and the function calls
`malloc(0)` and returns `GLB_FAILED_TO_READ_FILE`. -/
theorem C26_too_big_check_wraps (io : glbStdio) (path : String) (extraBytes : Nat)
    (hopen : io.fopen path "rb" = true) (hsize : io.ftell path < 2 ^ 64) :
    ((∃ out, glbOpenAndReadFileWithExtraData io (some path) extraBytes = some out ∧
        out.result = GLB_FILE_TOO_BIG) ↔
      (io.ftell path + extraBytes) % 2 ^ 64 > SIZE_MAX io.sizeBits) ∧
    ((io.ftell path + extraBytes) % 2 ^ 64 > SIZE_MAX io.sizeBits →
      glbOpenAndReadFileWithExtraData io (some path) extraBytes =
        some { result := GLB_FILE_TOO_BIG, mallocCalls := [], fileSizeOut := 0,
               fileData := none }) ∧
    (io.sizeBits = 64 →
      ∀ out, glbOpenAndReadFileWithExtraData io (some path) extraBytes = some out →
        out.result ≠ GLB_FILE_TOO_BIG) ∧
    (io.ftell path + extraBytes < 2 ^ 64 →
      io.ftell path + extraBytes > SIZE_MAX io.sizeBits →
      glbOpenAndReadFileWithExtraData io (some path) extraBytes =
        some { result := GLB_FILE_TOO_BIG, mallocCalls := [], fileSizeOut := 0,
               fileData := none }) ∧
    (brokenStdio.ftell GLB_BUILD_TEMPLATE_PATH + 1 > SIZE_MAX brokenStdio.sizeBits ∧
      glbOpenAndReadFileWithExtraData brokenStdio (some GLB_BUILD_TEMPLATE_PATH) 1 =
        some { result := GLB_FAILED_TO_READ_FILE, mallocCalls := [0], fileSizeOut := 0,
               fileData := none }) := by
  have hmod : io.ftell path % 2 ^ 64 = io.ftell path := Nat.mod_eq_of_lt hsize
  have hfire : (io.ftell path + extraBytes) % 2 ^ 64 > SIZE_MAX io.sizeBits →
      glbOpenAndReadFileWithExtraData io (some path) extraBytes =
        some { result := GLB_FILE_TOO_BIG, mallocCalls := [], fileSizeOut := 0,
               fileData := none } := by
    intro h
    unfold glbOpenAndReadFileWithExtraData glbFOpen
    simp only [hopen, not_true_eq_false, if_false, ne_eq, hmod, h, if_true]
  have hnot : ¬ (io.ftell path + extraBytes) % 2 ^ 64 > SIZE_MAX io.sizeBits →
      ∀ out, glbOpenAndReadFileWithExtraData io (some path) extraBytes = some out →
        out.result ≠ GLB_FILE_TOO_BIG := by
    intro h out hout
    unfold glbOpenAndReadFileWithExtraData glbFOpen at hout
    simp only [hopen, not_true_eq_false, if_false, ne_eq, hmod, h] at hout
    split_ifs at hout <;> cases hout <;> (dsimp only; decide)
  refine ⟨⟨?_, fun h => ⟨_, hfire h, rfl⟩⟩, hfire, ?_, ?_, by decide, rfl⟩
  · rintro ⟨out, hout, hres⟩
    by_contra h
    exact hnot h out hout hres
  · intro h64
    apply hnot
    rw [h64]
    have : (io.ftell path + extraBytes) % 2 ^ 64 < 2 ^ 64 := Nat.mod_lt _ (by norm_num)
    unfold SIZE_MAX
    omega
  · intro hlt hgt
    apply hfire
    rw [Nat.mod_eq_of_lt hlt]
    exact hgt

/-- Witness of C26 on `smallStdio` (32 bits, file size `2 ^ 32 - 1`, one extra
byte): the sum does not wrap and the check fires. -/
theorem C26_too_big_check_wraps_witness :
    smallStdio.ftell "f" + 1 < 2 ^ 64 ∧ smallStdio.ftell "f" + 1 > SIZE_MAX smallStdio.sizeBits ∧
    glbOpenAndReadFileWithExtraData smallStdio (some "f") 1 =
      some { result := GLB_FILE_TOO_BIG, mallocCalls := [], fileSizeOut := 0,
             fileData := none } :=
  ⟨by decide, by decide,
   (C26_too_big_check_wraps smallStdio "f" 1 rfl (by decide)).2.2.2.1 (by decide) (by decide)⟩

end Glbind
